import Mathlib

/-!
Verification of the two memory-allocator variants of this repository,
`src/mm/mm_heap_kr2.c` (namespace `KR2`) and `src/mm/mm_heap_dll.c`
(namespace `DLL`), against the natural-language specification.

Modelling conventions (shared by both variants):

* The machine is x86-64 Linux.  `sizeof(Header)` is 32 bytes in the kr2
  variant (two pointers, a `bool` and a `size_t` padded to `max_align_t`)
  and 16 bytes in the dll variant (one pointer and a `size_t`).
* Memory that can hold a `Header` is addressed at `Header` granularity by a
  `Nat`.  Address `0` is `NULL`.  The static `base` sentinel lives below the
  heap and above `NULL`, and the heap grows upward from `heapLo`, matching
  the address-layout assumption (`statics < heap`) that the C code relies on
  in its `p->s.next > p` style pointer comparisons.  The byte address of
  unit address `a` is `hdrSize * a`.
* `mem : Nat → Hdr` gives the header stored at each unit address; payload
  bytes live in a separate byte map `data : Nat → Nat` (the allocators
  never read header fields as payload except out of bounds of the model's
  claims, so the two maps never need to alias).
* Loops carry an explicit fuel argument and return `none` when the fuel
  runs out; the C loop either terminates (then a large enough fuel returns
  `some`) or diverges.
* `size_t` arithmetic wraps at `2 ^ 64`; the wrap is written explicitly
  where the C can overflow (`mm_units`, `mm_bytes`).

The arena collaborator (`memlib`: `mem_init`, `mem_sbrk`, `mem_pagesize`,
`mem_heapsize`, `mem_heap_lo`, `mem_heap_hi`) is not part of `src/`; it is
modelled from the spec as a linear growable buffer with a capacity bound
(`capacity`, in units) after which extension fails.
-/

/-- Wrap modulus of `size_t` arithmetic. -/
def U64 : Nat := 2 ^ 64

/-- Pointwise update of a memory map. -/
def upd {α : Type} (f : Nat → α) (a : Nat) (v : α) : Nat → α :=
  fun x => if x = a then v else f x

theorem upd_same {α : Type} (f : Nat → α) (a : Nat) (v : α) : upd f a v a = v := by
  simp [upd]

theorem upd_ne {α : Type} (f : Nat → α) (a : Nat) (v : α) (x : Nat) (h : x ≠ a) :
    upd f a v x = f x := by
  simp [upd, h]

/-- Byte-level `memcpy(dst, src, n)` on a payload byte map. -/
def memcpy_bytes (data : Nat → Nat) (dst src n : Nat) : Nat → Nat :=
  fun b => if dst ≤ b ∧ b < dst + n then data (src + (b - dst)) else data b

namespace KR2

/-- Header of `mm_heap_kr2.c`: `prev`/`next` pointers (0 is `NULL`),
`isFree` flag and the block size in units, including the header unit. -/
structure Hdr where
  prev : Nat
  next : Nat
  isFree : Bool
  size : Nat
deriving DecidableEq

/-- Allocator state: header memory, the rotating cursor `freep`
(0 when the allocator is uninitialized), the arena's current extent in
units, the remaining extension capacity in units, `errno`, and the byte
map for payload data. -/
structure St where
  mem : Nat → Hdr
  freep : Nat
  heapUnits : Nat
  capacity : Nat
  errno : Nat
  data : Nat → Nat

/-- `sizeof(Header)` for the kr2 variant. -/
def hdrSize : Nat := 32

/-- Modelled from the spec: the Arena's page size (`mem_pagesize`). -/
def pagesize : Nat := 4096

/-- Unit address of the static `base` sentinel. -/
def baseAddr : Nat := 1

/-- First unit address of the heap. -/
def heapLo : Nat := 2

/-- Linux `ENOMEM`. -/
def ENOMEM : Nat := 12

/-- `mm_units`: `(nbytes + sizeof(Header) - 1) / sizeof(Header) + 1`,
with the `size_t` wrap of the addition made explicit. -/
def mm_units (nbytes : Nat) : Nat :=
  ((nbytes + hdrSize - 1) % U64) / hdrSize + 1

/-- `mm_bytes`: `nunits * sizeof(Header)` in `size_t` arithmetic. -/
def mm_bytes (nunits : Nat) : Nat :=
  (nunits * hdrSize) % U64

/-- `mm_payload`: the payload starts one unit after the block header. -/
def mm_payload (bp : Nat) : Nat := bp + 1

/-- `mm_block`: the header is one unit before the payload. -/
def mm_block (ap : Nat) : Nat := ap - 1

/-- Modelled from the spec: `mem_init` leaves an empty arena. -/
def mem_init (s : St) : St := { s with heapUnits := 0 }

/-- Modelled from the spec: `mem_sbrk` extends the arena by `nbytes`
bytes, returning the old break, or fails (`none`, the C `(char *) -1`)
when the backing store is exhausted. -/
def mem_sbrk (nbytes : Nat) (s : St) : Option Nat × St :=
  if hdrSize * s.capacity < nbytes then (none, s)
  else (some (heapLo + s.heapUnits),
    { s with
      heapUnits := s.heapUnits + nbytes / hdrSize
      capacity := s.capacity - nbytes / hdrSize })

/-- `mm_init`: initialize the arena and point the `base` sentinel at
itself, with `isFree = false` and `size = 0`. -/
def mm_init (s : St) : St :=
  let s := mem_init s
  { s with
    mem := upd s.mem baseAddr { prev := baseAddr, next := baseAddr, isFree := false, size := 0 }
    freep := baseAddr }

/-- `connect_dlinkedlist`: `p->s.next = n; n->s.prev = p`. -/
def connect_dlinkedlist (s : St) (p n : Nat) : St :=
  let m1 := upd s.mem p { s.mem p with next := n }
  { s with mem := upd m1 n { m1 n with prev := p } }

/-- The `while (p->s.next > p) p = p->s.next;` walk of `mm_free`'s
insertion branch. -/
def walk (fuel : Nat) (p : Nat) (s : St) : Option Nat :=
  match fuel with
  | 0 => none
  | f + 1 => if p < (s.mem p).next then walk f ((s.mem p).next) s else some p

/-- The insertion branch of `mm_free`: a block whose `next` is `NULL`
(only the fresh block built by `morecore`) is spliced in at the top of
the address order found by `walk`. -/
def free_insert (fuel : Nat) (bp : Nat) (s : St) : Option St :=
  if (s.mem bp).next = 0 then
    (walk fuel s.freep s).map (fun p =>
      let n := (s.mem p).next
      let s1 := connect_dlinkedlist s p bp
      connect_dlinkedlist s1 bp n)
  else some s

/-- The upper coalesce of `mm_free`: if the list successor is free and
address-contiguous, absorb it. -/
def free_mergeUp (bp : Nat) (s : St) : St :=
  if (s.mem (s.mem bp).next).isFree = true ∧ bp + (s.mem bp).size = (s.mem bp).next then
    let nxt := (s.mem bp).next
    let s1 := { s with
      mem := upd s.mem bp { s.mem bp with size := (s.mem bp).size + (s.mem nxt).size } }
    connect_dlinkedlist s1 bp ((s1.mem nxt).next)
  else s

/-- The lower coalesce of `mm_free`: if the list predecessor is free and
address-contiguous, it absorbs the block; returns the new state and the
surviving block (`bp = bp->s.prev` in the C). -/
def free_mergeDown (bp : Nat) (s : St) : St × Nat :=
  if (s.mem (s.mem bp).prev).isFree = true ∧
      (s.mem bp).prev + (s.mem (s.mem bp).prev).size = bp then
    let prv := (s.mem bp).prev
    let s1 := { s with
      mem := upd s.mem prv { s.mem prv with size := (s.mem prv).size + (s.mem bp).size } }
    (connect_dlinkedlist s1 prv ((s1.mem bp).next), prv)
  else (s, bp)

/-- `mm_free`.  The debug `assert` on the stored size is elided.  The
block is inserted if never linked, marked free, coalesced upward and
downward, and the rotating cursor moves to the survivor's predecessor. -/
def mm_free (fuel : Nat) (ap : Nat) (s : St) : Option St :=
  if ap = 0 then some s else
  let bp := mm_block ap
  (free_insert fuel bp s).map (fun s0 =>
    let s1 := { s0 with mem := upd s0.mem bp { s0.mem bp with isFree := true } }
    let s2 := free_mergeUp bp s1
    let res := free_mergeDown bp s2
    { res.1 with freep := (res.1.mem res.2).prev })

/-- `morecore`: request at least one page (`mem_pagesize() / sizeof(Header)`
units) from the arena, then hand the fresh block to `mm_free`.  Returns
the C function's `freep` result, or 0 for `NULL`. -/
def morecore (fuel : Nat) (nu : Nat) (s : St) : Option (Nat × St) :=
  let nalloc := pagesize / hdrSize
  let nu := if nu < nalloc then nalloc else nu
  let nbytes := mm_bytes nu
  match mem_sbrk nbytes s with
  | (none, s) => some (0, s)
  | (some p, s) =>
    let s := { s with mem := upd s.mem p { s.mem p with size := nu, prev := 0, next := 0 } }
    (mm_free fuel (mm_payload p) s).map (fun s => (s.freep, s))

/-- The search loop of `mm_malloc`: first fit from the rotating cursor,
with an exact-fit branch and a split branch, growing the arena through
`morecore` when the scan wraps around to `freep`. -/
def malloc_loop (fuel : Nat) (nunits prev_p p : Nat) (s : St) : Option (Nat × St) :=
  match fuel with
  | 0 => none
  | f + 1 =>
    let hp := s.mem p
    if nunits ≤ hp.size ∧ hp.isFree = true then
      if hp.size = nunits then
        let s := { s with mem := upd s.mem p { hp with isFree := false } }
        some (mm_payload p, { s with freep := prev_p })
      else
        let s1 := { s with mem := upd s.mem p { hp with size := hp.size - nunits } }
        let old_p := p
        let nxt := hp.next
        let p2 := p + (hp.size - nunits)
        let s2 := { s1 with mem := upd s1.mem p2 { s1.mem p2 with size := nunits } }
        let s3 := connect_dlinkedlist s2 old_p p2
        let s4 := connect_dlinkedlist s3 p2 nxt
        let s5 := { s4 with mem := upd s4.mem p2 { s4.mem p2 with isFree := false } }
        some (mm_payload p2, { s5 with freep := prev_p })
    else
      if p = s.freep then
        match morecore f nunits s with
        | none => none
        | some (np, s1) =>
          if np = 0 then some (0, { s1 with errno := ENOMEM })
          else malloc_loop f nunits np ((s1.mem np).next) s1
      else malloc_loop f nunits p ((s.mem p).next) s

/-- `mm_malloc`: lazily self-initializes, converts bytes to units and
runs the search loop starting just after the rotating cursor. -/
def mm_malloc (fuel nbytes : Nat) (s : St) : Option (Nat × St) :=
  let s := if s.freep = 0 then mm_init s else s
  let prev_p := s.freep
  let nunits := mm_units nbytes
  malloc_loop fuel nunits prev_p ((s.mem prev_p).next) s

/-- `mm_realloc`: `NULL` acts as `mm_malloc`; a nonzero request already
covered by the block's unit capacity returns the pointer unchanged;
otherwise allocate, copy `min(mm_bytes(size - 1), newsize)` bytes and
free the old block. -/
def mm_realloc (fuel ap newsize : Nat) (s : St) : Option (Nat × St) :=
  if ap = 0 then mm_malloc fuel newsize s
  else
    let bp := mm_block ap
    if 0 < newsize ∧ mm_units newsize ≤ (s.mem bp).size then some (ap, s)
    else
      match mm_malloc fuel newsize s with
      | none => none
      | some (newap, s1) =>
        if newap = 0 then some (0, s1)
        else
          let oldsize := mm_bytes ((s1.mem bp).size - 1)
          let n := if oldsize < newsize then oldsize else newsize
          let s2 := { s1 with data := (memcpy_bytes s1.data (hdrSize * newap) (hdrSize * ap) n) }
          (mm_free fuel ap s2).map (fun s3 => (newap, s3))

/-- The scan of `mm_getfree`: sum `s.size` along `next` while the
successor's address strictly increases. -/
def getfree_loop (fuel : Nat) (tmp res : Nat) (s : St) : Option Nat :=
  match fuel with
  | 0 => none
  | f + 1 =>
    if tmp < (s.mem tmp).next then
      getfree_loop f ((s.mem tmp).next) (res + (s.mem ((s.mem tmp).next)).size) s
    else some res

/-- `mm_getfree`: 0 before initialization, else the byte conversion of
the scan that starts at `freep` with `freep`'s own size. -/
def mm_getfree (fuel : Nat) (s : St) : Option Nat :=
  if s.freep = 0 then some 0
  else (getfree_loop fuel s.freep ((s.mem s.freep).size) s).map mm_bytes

end KR2

namespace DLL

/-- Header of `mm_heap_dll.c`: one `ptr` field (0 is `NULL`; nonzero
means the cell is the head or tail of a free block) and the block size in
units.  A block occupies `size` units; its head is the first unit and its
tail the last one. -/
structure Hdr where
  ptr : Nat
  size : Nat
deriving DecidableEq

/-- Allocator state of the dll variant, laid out like `KR2.St`. -/
structure St where
  mem : Nat → Hdr
  freep : Nat
  heapUnits : Nat
  capacity : Nat
  errno : Nat
  data : Nat → Nat

/-- `sizeof(Header)` for the dll variant. -/
def hdrSize : Nat := 16

/-- Modelled from the spec: the Arena's page size (`mem_pagesize`). -/
def pagesize : Nat := 4096

/-- Unit address of the static `base[0]` sentinel. -/
def base0 : Nat := 1

/-- Unit address of the static `base[1]` sentinel (the tail of `base[0]`,
whose size is 2). -/
def base1 : Nat := 2

/-- First unit address of the heap. -/
def heapLo : Nat := 3

/-- Linux `ENOMEM`. -/
def ENOMEM : Nat := 12

/-- `mm_units`: `(nbytes + sizeof(Header) - 1) / sizeof(Header) + 2`,
with the `size_t` wrap of the addition made explicit. -/
def mm_units (nbytes : Nat) : Nat :=
  ((nbytes + hdrSize - 1) % U64) / hdrSize + 2

/-- `mm_bytes`: `nunits * sizeof(Header)` in `size_t` arithmetic. -/
def mm_bytes (nunits : Nat) : Nat :=
  (nunits * hdrSize) % U64

/-- `mm_payload`: the payload starts one unit after the block header. -/
def mm_payload (bp : Nat) : Nat := bp + 1

/-- `mm_block`: the header is one unit before the payload. -/
def mm_block (ap : Nat) : Nat := ap - 1

/-- `mm_tail`: `bp + bp->s.size - 1`. -/
def mm_tail (s : St) (bp : Nat) : Nat := bp + (s.mem bp).size - 1

/-- Modelled from the spec: `mem_init` leaves an empty arena. -/
def mem_init (s : St) : St := { s with heapUnits := 0 }

/-- Modelled from the spec: `mem_sbrk`, as in the kr2 namespace but with
this variant's 16-byte unit. -/
def mem_sbrk (nbytes : Nat) (s : St) : Option Nat × St :=
  if hdrSize * s.capacity < nbytes then (none, s)
  else (some (heapLo + s.heapUnits),
    { s with
      heapUnits := s.heapUnits + nbytes / hdrSize
      capacity := s.capacity - nbytes / hdrSize })

/-- `mm_init`: both sentinel cells point at `base[0]` and carry size 2. -/
def mm_init (s : St) : St :=
  let s := mem_init s
  let m := upd s.mem base0 { ptr := base0, size := 2 }
  { s with mem := upd m base1 { ptr := base0, size := 2 }, freep := base0 }

/-- `link_header`: `a->s.ptr = b; mm_tail(b)->s.ptr = a`. -/
def link_header (s : St) (a b : Nat) : St :=
  let s1 := { s with mem := upd s.mem a { s.mem a with ptr := b } }
  let t := mm_tail s1 b
  { s1 with mem := upd s1.mem t { s1.mem t with ptr := a } }

/-- `unlink_header`: bridge a block's free-list predecessor (found through
its tail) to its successor. -/
def unlink_header (s : St) (a : Nat) : St :=
  let prev := (s.mem (mm_tail s a)).ptr
  let next := (s.mem a).ptr
  link_header s prev next

/-- `coalesce(lower, upper)`: unlink `upper`, then grow `lower` over it,
mirroring the size into the (relocated) tail and restoring the tail's
back pointer. -/
def coalesce (s : St) (lower upper : Nat) : St :=
  let s1 := unlink_header s upper
  let prev := (s1.mem (mm_tail s1 lower)).ptr
  let s2 := { s1 with
    mem := upd s1.mem lower
      { s1.mem lower with size := (s1.mem lower).size + (s1.mem upper).size } }
  let t := mm_tail s2 lower
  let s3 := { s2 with mem := upd s2.mem t { s2.mem t with size := (s2.mem lower).size } }
  let t2 := mm_tail s3 lower
  { s3 with mem := upd s3.mem t2 { s3.mem t2 with ptr := prev } }

/-- `mm_free` for the dll variant.  The debug `assert` is elided.  The
block is linked in just after `freep`, then coalesced with the upper
neighbor (found by address arithmetic, guarded by `mem_heap_hi` and a
nonzero head pointer) and with the lower neighbor (found through the tail
cell just below, guarded by `mem_heap_lo` and a nonzero tail pointer). -/
def mm_free (ap : Nat) (s : St) : St :=
  if ap = 0 then s else
  let bp := mm_block ap
  let p := s.freep
  let s1 := link_header s bp ((s.mem p).ptr)
  let s2 := link_header s1 p bp
  let nn := bp + (s2.mem bp).size
  let s3 :=
    if nn < heapLo + s2.heapUnits ∧ (s2.mem nn).ptr ≠ 0 then
      let su := coalesce s2 bp nn
      { su with freep := (su.mem (mm_tail su bp)).ptr }
    else s2
  let pt := bp - 1
  if heapLo < pt ∧ (s3.mem pt).ptr ≠ 0 then
    let pnh := (s3.mem ((s3.mem pt).ptr)).ptr
    let sd := coalesce s3 pnh bp
    { sd with freep := (sd.mem (mm_tail sd pnh)).ptr }
  else s3

/-- `morecore` for the dll variant: only the size field of the fresh
block is initialized before it is handed to `mm_free`. -/
def morecore (nu : Nat) (s : St) : Nat × St :=
  let nalloc := pagesize / hdrSize
  let nu := if nu < nalloc then nalloc else nu
  let nbytes := mm_bytes nu
  match mem_sbrk nbytes s with
  | (none, s) => (0, s)
  | (some p, s) =>
    let s1 := { s with mem := upd s.mem p { s.mem p with size := nu } }
    let s2 := mm_free (mm_payload p) s1
    (s2.freep, s2)

/-- The accept branch of the dll `mm_malloc` loop: exact fit unlinks the
block; otherwise the block is split, keeping the lower part free (its
relocated tail mirrors the size and points back to `prevp`) and handing
out the upper part.  The allocated block's head and tail pointers are
nulled. -/
def malloc_accept (nunits prevp p : Nat) (s : St) : Nat × St :=
  let hp := s.mem p
  let step :=
    if hp.size = nunits then
      (link_header s prevp hp.ptr, p)
    else
      let s1 := { s with mem := upd s.mem p { hp with size := hp.size - nunits } }
      let t := mm_tail s1 p
      let s2 := { s1 with mem := upd s1.mem t { s1.mem t with size := (s1.mem p).size } }
      let s3 := { s2 with mem := upd s2.mem t { s2.mem t with ptr := prevp } }
      let p2 := p + (s3.mem p).size
      (({ s3 with mem := upd s3.mem p2 { s3.mem p2 with size := nunits } }), p2)
  let s4 := step.1
  let p2 := step.2
  let s5 := { s4 with mem := upd s4.mem p2 { s4.mem p2 with ptr := 0 } }
  let t := mm_tail s5 p2
  let s6 := { s5 with mem := upd s5.mem t { s5.mem t with ptr := 0 } }
  (mm_payload p2, { s6 with freep := prevp })

/-- The search loop of the dll `mm_malloc`: accepts an exact fit or a
block large enough to leave a remainder of at least 2 units, growing the
arena through `morecore` when the scan wraps around to `freep`. -/
def malloc_loop (fuel : Nat) (nunits prevp p : Nat) (s : St) : Option (Nat × St) :=
  match fuel with
  | 0 => none
  | f + 1 =>
    let hp := s.mem p
    if hp.size = nunits ∨ nunits + 2 ≤ hp.size then
      some (malloc_accept nunits prevp p s)
    else
      if p = s.freep then
        let r := morecore nunits s
        if r.1 = 0 then some (0, { r.2 with errno := ENOMEM })
        else malloc_loop f nunits r.1 ((r.2.mem r.1).ptr) r.2
      else malloc_loop f nunits p ((s.mem p).ptr) s

/-- `mm_malloc` for the dll variant. -/
def mm_malloc (fuel nbytes : Nat) (s : St) : Option (Nat × St) :=
  let s := if s.freep = 0 then mm_init s else s
  let prevp := s.freep
  let nunits := mm_units nbytes
  malloc_loop fuel nunits prevp ((s.mem prevp).ptr) s

/-- `mm_realloc` for the dll variant; textually the same routine as the
kr2 one (including the `mm_bytes(size - 1)` old-size computation, which
overstates this variant's payload by the tail unit). -/
def mm_realloc (fuel ap newsize : Nat) (s : St) : Option (Nat × St) :=
  if ap = 0 then mm_malloc fuel newsize s
  else
    let bp := mm_block ap
    if 0 < newsize ∧ mm_units newsize ≤ (s.mem bp).size then some (ap, s)
    else
      match mm_malloc fuel newsize s with
      | none => none
      | some (newap, s1) =>
        if newap = 0 then some (0, s1)
        else
          let oldsize := mm_bytes ((s1.mem bp).size - 1)
          let n := if oldsize < newsize then oldsize else newsize
          let s2 := { s1 with data := (memcpy_bytes s1.data (hdrSize * newap) (hdrSize * ap) n) }
          let s3 := mm_free ap s2
          some (newap, s3)

/-- The scan of the dll `mm_getfree`. -/
def getfree_loop (fuel : Nat) (tmp res : Nat) (s : St) : Option Nat :=
  match fuel with
  | 0 => none
  | f + 1 =>
    if tmp < (s.mem tmp).ptr then
      getfree_loop f ((s.mem tmp).ptr) (res + (s.mem ((s.mem tmp).ptr)).size) s
    else some res

/-- `mm_getfree` for the dll variant. -/
def mm_getfree (fuel : Nat) (s : St) : Option Nat :=
  if s.freep = 0 then some 0
  else (getfree_loop fuel s.freep ((s.mem s.freep).size) s).map mm_bytes

end DLL

/-!
Concrete states used by counterexamples and witnesses.  Both start with
all-zero junk memory, an uninitialized allocator (`freep = 0`) and one
page of backing-store capacity.
-/

/-- A pristine kr2 machine: uninitialized allocator, one page (128 units)
of arena capacity. -/
def kInit0 : KR2.St :=
  { mem := fun _ => { prev := 0, next := 0, isFree := false, size := 0 }
    freep := 0, heapUnits := 0, capacity := 128, errno := 0, data := fun _ => 0 }

/-- A pristine dll machine: uninitialized allocator, one page (256 units)
of arena capacity. -/
def dInit0 : DLL.St :=
  { mem := fun _ => { ptr := 0, size := 0 }
    freep := 0, heapUnits := 0, capacity := 256, errno := 0, data := fun _ => 0 }

/-- Claim C1.  The free-space query does not satisfy conservation on
reachable states, and this is a code bug (the query's own documentation
promises the amount of free memory).  Two failing runs: (a) dll variant,
directly after the public operation `mm_init` the arena size is 0 and no
allocation is live, yet `mm_getfree` reports 32 bytes (it counts the
static sentinel's dummy size 2); (b) kr2 variant, after `mm_init` and
`mm_malloc(16)` the arena is 4096 bytes and a live 2-unit block sits at
unit 128, yet `mm_getfree` reports all 4096 bytes as free (its scan sums
every block after `freep`, allocated ones included), so free bytes plus
live allocation plus overhead exceeds the arena size. -/
theorem C1_getfree_conservation_codebug :
    (DLL.mm_getfree 100 (DLL.mm_init dInit0) = some 32 ∧
      (DLL.mm_init dInit0).heapUnits = 0) ∧
    ((KR2.mm_malloc 20 16 (KR2.mm_init kInit0)).map
        (fun r => (KR2.mm_getfree 300 r.2, r.2.heapUnits,
          (r.2.mem 128).size, (r.2.mem 128).isFree))
      = some (some 4096, 128, 2, false)) := by
  exact ⟨⟨rfl, rfl⟩, rfl⟩

/-- Claim C2, counterexample.  `mm_units 0` is exactly the header
overhead in both variants (1 unit in kr2, 2 units in dll), not strictly
more, and a concrete `mm_malloc(0)` run in the kr2 variant hands out the
block at unit 129 whose size is 1 unit: a handle with zero payload
units, refuting the claim that the returned block always has at least
one payload unit beyond its header overhead. -/
theorem C2_zero_request_counterexample :
    KR2.mm_units 0 = 1 ∧ DLL.mm_units 0 = 2 ∧
    ((KR2.mm_malloc 20 0 (KR2.mm_init kInit0)).map
        (fun r => (r.1, (r.2.mem (KR2.mm_block r.1)).size,
          (r.2.mem (KR2.mm_block r.1)).isFree))
      = some (130, 1, false)) := by
  exact ⟨rfl, rfl, rfl⟩

/-- Claim C3, counterexample.  In the kr2 variant `a = mm_malloc(16)`
returns payload pointer 129 whose block (2 units) has 32 bytes of payload
capacity, so the request size 0 is within capacity; yet
`mm_realloc(a, 0)` does not return `a` unchanged: it returns the fresh
pointer 128 (the code's `newsize > 0` guard routes every zero-size resize
through allocate-copy-free, as its own comment says). -/
theorem C3_realloc_zero_counterexample :
    (KR2.mm_malloc 20 16 (KR2.mm_init kInit0)).map Prod.fst = some 129 ∧
    ((KR2.mm_malloc 20 16 (KR2.mm_init kInit0)).bind
        (fun r => KR2.mm_realloc 20 r.1 0 r.2)).map Prod.fst = some 128 := by
  exact ⟨rfl, rfl⟩

/-- Claim C5, counterexample.  The kr2 variant enforces no minimum
leftover threshold: starting cold, `mm_malloc(3968)` (125 units) leaves a
3-unit free block at unit 2, and a following `mm_malloc(32)` (2 units)
splits it, leaving a free remainder block of exactly 1 unit — a bare
header with zero payload capacity, refuting the claimed remainder bound. -/
theorem C5_split_threshold_counterexample :
    ((KR2.mm_malloc 20 3968 (KR2.mm_init kInit0)).bind
        (fun r => KR2.mm_malloc 20 32 r.2)).map
      (fun r => ((r.2.mem 2).size, (r.2.mem 2).isFree,
        (r.2.mem 3).size, (r.2.mem 3).isFree))
    = some (1, true, 2, false) := by
  exact rfl

/-- Claim C7, counterexample.  In the dll variant with one page (256
units) of backing store, a cold `mm_malloc(4048)` needs 255 units; the
first wrap-around extends the arena by a 256-unit page, but 256 units fit
neither exactly nor with a 2-unit remainder, so the scan wraps again and
the second extension fails.  The call does return `NULL` with
`errno = ENOMEM`, but the allocator state is not as it was before the
call: the arena has grown from 0 to 256 units and a 256-unit free block
persists. -/
theorem C7_failure_not_stateless_counterexample :
    (DLL.mm_malloc 20 4048 (DLL.mm_init dInit0)).map
        (fun r => (r.1, r.2.errno, r.2.heapUnits, (r.2.mem 3).size, (r.2.mem 3).ptr))
      = some (0, DLL.ENOMEM, 256, 256, 1) ∧
    (DLL.mm_init dInit0).heapUnits = 0 := by
  exact ⟨rfl, rfl⟩

/-- Claim C9.  Freeing the null pointer is a no-op in both variants: the
whole allocator state — every header field, the linkage, the rotating
cursor and the arena extent — is returned unchanged. -/
theorem C9_free_null_noop :
    (∀ (fuel : Nat) (s : KR2.St), KR2.mm_free fuel 0 s = some s) ∧
    (∀ s : DLL.St, DLL.mm_free 0 s = s) := by
  exact ⟨fun _ _ => rfl, fun _ => rfl⟩

namespace KR2

theorem connect_size (s : St) (a b x : Nat) :
    ((connect_dlinkedlist s a b).mem x).size = (s.mem x).size := by
  unfold connect_dlinkedlist upd
  by_cases hb : x = b <;> by_cases hba : b = a <;> by_cases ha : x = a <;>
    simp_all

theorem connect_isFree (s : St) (a b x : Nat) :
    ((connect_dlinkedlist s a b).mem x).isFree = (s.mem x).isFree := by
  unfold connect_dlinkedlist upd
  by_cases hb : x = b <;> by_cases hba : b = a <;> by_cases ha : x = a <;>
    simp_all

theorem connect_freep (s : St) (a b : Nat) :
    (connect_dlinkedlist s a b).freep = s.freep := by
  unfold connect_dlinkedlist
  rfl

end KR2

/-- Claim C2, amended.  For a nonzero request (absent `size_t`
wrap-around in `nbytes + sizeof(Header) - 1`), `mm_units` yields at least
one payload unit beyond the header overhead: at least 2 units in the kr2
variant and at least 3 in the dll variant.  For a zero request it yields
exactly the header overhead (1 unit kr2, 2 units dll), i.e. a zero-payload
handle. -/
theorem C2_units_amended :
    (∀ nbytes : Nat, 1 ≤ nbytes → nbytes + 31 < U64 → 2 ≤ KR2.mm_units nbytes) ∧
    (∀ nbytes : Nat, 1 ≤ nbytes → nbytes + 15 < U64 → 3 ≤ DLL.mm_units nbytes) ∧
    KR2.mm_units 0 = 1 ∧ DLL.mm_units 0 = 2 := by
  have hU : U64 = 18446744073709551616 := by norm_num [U64]
  refine ⟨fun n h1 h2 => ?_, fun n h1 h2 => ?_, rfl, rfl⟩
  · unfold KR2.mm_units KR2.hdrSize
    rw [Nat.mod_eq_of_lt (by omega)]
    omega
  · unfold DLL.mm_units DLL.hdrSize
    rw [Nat.mod_eq_of_lt (by omega)]
    omega

/-- Claim C2, amended, witness at `nbytes = 1`. -/
theorem C2_units_amended_witness :
    2 ≤ KR2.mm_units 1 ∧ 3 ≤ DLL.mm_units 1 :=
  ⟨C2_units_amended.1 1 (by decide) (by norm_num [U64]),
   C2_units_amended.2.1 1 (by decide) (by norm_num [U64])⟩

/-- Claim C3, amended.  For every pointer with a nonzero block header and
every request `newsize` with `1 ≤ newsize` that fits the block's payload
capacity (kr2: `(size - 1) * 32` bytes, dll: `(size - 2) * 16` bytes, no
`size_t` wrap-around), `mm_realloc` returns the same pointer and leaves
the allocator state completely unchanged: no allocation, no copy, no
free.  (For `newsize = 0` the code instead allocates a minimum-size block
and frees the old one — see the counterexample.) -/
theorem C3_realloc_within_capacity_amended :
    (∀ (s : KR2.St) (fuel ap newsize : Nat), ap ≠ 0 → 1 ≤ newsize →
      newsize + 31 < U64 →
      newsize ≤ ((s.mem (KR2.mm_block ap)).size - 1) * 32 →
      KR2.mm_realloc fuel ap newsize s = some (ap, s)) ∧
    (∀ (s : DLL.St) (fuel ap newsize : Nat), ap ≠ 0 → 1 ≤ newsize →
      newsize + 15 < U64 →
      newsize ≤ ((s.mem (DLL.mm_block ap)).size - 2) * 16 →
      DLL.mm_realloc fuel ap newsize s = some (ap, s)) := by
  have hU : U64 = 18446744073709551616 := by norm_num [U64]
  constructor
  · intro s fuel ap newsize hap h1 hw hcap
    have hu : KR2.mm_units newsize = (newsize + 31) / 32 + 1 := by
      unfold KR2.mm_units KR2.hdrSize
      rw [Nat.mod_eq_of_lt (by omega)]
      omega
    unfold KR2.mm_realloc
    rw [if_neg hap, if_pos ?_]
    exact ⟨h1, by rw [hu]; omega⟩
  · intro s fuel ap newsize hap h1 hw hcap
    have hu : DLL.mm_units newsize = (newsize + 15) / 16 + 2 := by
      unfold DLL.mm_units DLL.hdrSize
      rw [Nat.mod_eq_of_lt (by omega)]
      omega
    unfold DLL.mm_realloc
    rw [if_neg hap, if_pos ?_]
    exact ⟨h1, by rw [hu]; omega⟩

/-- Claim C3, amended, witness: a concrete kr2 state holding a 3-unit
block at unit 10 (64 bytes of payload capacity) returns the pointer 11
unchanged for a 40-byte resize, and a concrete dll state holding a 4-unit
block at unit 10 (32 bytes of payload capacity) returns the pointer 11
unchanged for a 20-byte resize. -/
theorem C3_realloc_within_capacity_amended_witness :
    KR2.mm_realloc 5 11 40
      { kInit0 with mem := upd kInit0.mem 10 { prev := 0, next := 1, isFree := false, size := 3 } }
      = some (11,
        { kInit0 with mem := upd kInit0.mem 10 { prev := 0, next := 1, isFree := false, size := 3 } }) ∧
    DLL.mm_realloc 5 11 20
      { dInit0 with mem := upd dInit0.mem 10 { ptr := 0, size := 4 } }
      = some (11, { dInit0 with mem := upd dInit0.mem 10 { ptr := 0, size := 4 } }) := by
  constructor
  · exact C3_realloc_within_capacity_amended.1 _ 5 11 40 (by decide) (by decide)
      (by norm_num [U64]) (by simp [KR2.mm_block, upd])
  · exact C3_realloc_within_capacity_amended.2 _ 5 11 20 (by decide) (by decide)
      (by norm_num [U64]) (by simp [DLL.mm_block, upd])

namespace KR2

/-- Accepting a strictly larger free block in the kr2 search loop splits
it unconditionally: the remainder stays free at the original address with
whatever is left (at least 1 unit, possibly a bare header), and the upper
part of `nunits` units is handed out allocated. -/
theorem malloc_loop_split (s : St) (fuel nunits prev p : Nat)
    (h1 : (s.mem p).isFree = true) (h2 : nunits ≤ (s.mem p).size)
    (h3 : (s.mem p).size ≠ nunits) :
    (malloc_loop (fuel + 1) nunits prev p s).map (fun r =>
      (r.1, (r.2.mem p).size, (r.2.mem p).isFree,
       (r.2.mem (p + ((s.mem p).size - nunits))).size,
       (r.2.mem (p + ((s.mem p).size - nunits))).isFree))
    = some (p + ((s.mem p).size - nunits) + 1,
        (s.mem p).size - nunits, true, nunits, false) := by
  have hne : p ≠ p + ((s.mem p).size - nunits) := by omega
  unfold malloc_loop
  rw [if_pos ⟨h2, h1⟩, if_neg h3]
  simp [mm_payload, connect_size, connect_isFree, upd, hne, Ne.symm hne, h1]

end KR2

namespace DLL

/-- Accepting a splittable free block (`size ≥ nunits + 2`) in the dll
search loop: the remainder of `size - nunits ≥ 2` units stays at the
original address with its link intact, and the upper `nunits` units are
handed out with a nulled head pointer. -/
theorem dll_malloc_loop_split (s : St) (fuel nunits prev p : Nat)
    (h0 : 2 ≤ nunits) (h2 : nunits + 2 ≤ (s.mem p).size) :
    (malloc_loop (fuel + 1) nunits prev p s).map (fun r =>
      (r.1, (r.2.mem p).size, (r.2.mem p).ptr,
       (r.2.mem (p + ((s.mem p).size - nunits))).size,
       (r.2.mem (p + ((s.mem p).size - nunits))).ptr))
    = some (p + ((s.mem p).size - nunits) + 1,
        (s.mem p).size - nunits, (s.mem p).ptr, nunits, 0) := by
  have h3 : (s.mem p).size ≠ nunits := by omega
  have hacc : (s.mem p).size = nunits ∨ nunits + 2 ≤ (s.mem p).size := Or.inr h2
  have e1 : p + ((s.mem p).size - nunits) - 1 ≠ p := by omega
  have e1s : p ≠ p + ((s.mem p).size - nunits) - 1 := by omega
  have e2 : p + ((s.mem p).size - nunits) ≠ p := by omega
  have e2s : p ≠ p + ((s.mem p).size - nunits) := by omega
  have e3 : p + ((s.mem p).size - nunits) ≠ p + ((s.mem p).size - nunits) - 1 := by omega
  have e3s : p + ((s.mem p).size - nunits) - 1 ≠ p + ((s.mem p).size - nunits) := by omega
  have e4 : p + ((s.mem p).size - nunits) + nunits - 1 ≠ p + ((s.mem p).size - nunits) := by
    omega
  have e4s : p + ((s.mem p).size - nunits) ≠ p + ((s.mem p).size - nunits) + nunits - 1 := by
    omega
  have e5 : p + ((s.mem p).size - nunits) + nunits - 1 ≠ p := by omega
  have e5s : p ≠ p + ((s.mem p).size - nunits) + nunits - 1 := by omega
  unfold malloc_loop malloc_accept
  rw [if_pos hacc]
  simp [mm_payload, mm_tail, upd, h3, e1, e1s, e2, e2s, e3, e3s, e4, e4s, e5, e5s]

/-- A free block one unit larger than the request is passed over by the
dll search loop: neither an exact fit nor splittable. -/
theorem malloc_loop_skip (s : St) (fuel nunits prev p : Nat)
    (h1 : (s.mem p).size = nunits + 1) (h2 : p ≠ s.freep) :
    malloc_loop (fuel + 1) nunits prev p s =
      malloc_loop fuel nunits p ((s.mem p).ptr) s := by
  have hacc : ¬((s.mem p).size = nunits ∨ nunits + 2 ≤ (s.mem p).size) := by omega
  conv_lhs => unfold malloc_loop
  rw [if_neg hacc, if_neg h2]

end DLL

/-- Claim C5, amended.  The kr2 variant enforces no leftover threshold:
any free block with `size ≥ nunits` is accepted and split whenever
`size > nunits`, the free remainder being whatever is left — as little as
one bare header unit with zero payload capacity.  The dll variant accepts
only an exact fit or a block with `size ≥ nunits + 2`; its split
remainder is `size - nunits ≥ 2` units, two units being exactly its own
head-plus-tail overhead (zero payload capacity), and a free block of size
`nunits + 1` is passed over.  (The concrete kr2 counterexample run shows
a remainder of a single unit.) -/
theorem C5_split_policy_amended :
    (∀ (s : KR2.St) (fuel nunits prev p : Nat),
      (s.mem p).isFree = true → nunits ≤ (s.mem p).size → (s.mem p).size ≠ nunits →
      (KR2.malloc_loop (fuel + 1) nunits prev p s).map (fun r =>
        (r.1, (r.2.mem p).size, (r.2.mem p).isFree,
         (r.2.mem (p + ((s.mem p).size - nunits))).size,
         (r.2.mem (p + ((s.mem p).size - nunits))).isFree))
      = some (p + ((s.mem p).size - nunits) + 1,
          (s.mem p).size - nunits, true, nunits, false)) ∧
    (∀ (s : DLL.St) (fuel nunits prev p : Nat),
      2 ≤ nunits → nunits + 2 ≤ (s.mem p).size →
      (DLL.malloc_loop (fuel + 1) nunits prev p s).map (fun r =>
        (r.1, (r.2.mem p).size, (r.2.mem p).ptr,
         (r.2.mem (p + ((s.mem p).size - nunits))).size,
         (r.2.mem (p + ((s.mem p).size - nunits))).ptr))
      = some (p + ((s.mem p).size - nunits) + 1,
          (s.mem p).size - nunits, (s.mem p).ptr, nunits, 0)) ∧
    (∀ (s : DLL.St) (fuel nunits prev p : Nat),
      (s.mem p).size = nunits + 1 → p ≠ s.freep →
      DLL.malloc_loop (fuel + 1) nunits prev p s =
        DLL.malloc_loop fuel nunits p ((s.mem p).ptr) s) :=
  ⟨fun s fuel nunits prev p h1 h2 h3 => KR2.malloc_loop_split s fuel nunits prev p h1 h2 h3,
   fun s fuel nunits prev p h0 h2 => DLL.dll_malloc_loop_split s fuel nunits prev p h0 h2,
   fun s fuel nunits prev p h1 h2 => DLL.malloc_loop_skip s fuel nunits prev p h1 h2⟩

/-- Claim C5, amended, witness: concrete states holding a free block of
size 3 at unit 10 for a 2-unit kr2 request (remainder is a single unit),
a free block of size 5 at unit 10 for a 3-unit dll request (remainder 2
units), and a dll free block of size 4 at unit 10 that a 3-unit request
passes over. -/
theorem C5_split_policy_amended_witness :
    ((KR2.malloc_loop 6 2 1 10
        { kInit0 with mem := upd kInit0.mem 10 { prev := 1, next := 1, isFree := true, size := 3 } }).map
      (fun r => (r.1, (r.2.mem 10).size, (r.2.mem 10).isFree,
        (r.2.mem 11).size, (r.2.mem 11).isFree))
      = some (12, 1, true, 2, false)) ∧
    ((DLL.malloc_loop 6 3 1 10
        { dInit0 with mem := upd dInit0.mem 10 { ptr := 1, size := 5 } }).map
      (fun r => (r.1, (r.2.mem 10).size, (r.2.mem 10).ptr,
        (r.2.mem 12).size, (r.2.mem 12).ptr))
      = some (13, 2, 1, 3, 0)) ∧
    (DLL.malloc_loop 6 3 1 10
        { dInit0 with mem := upd dInit0.mem 10 { ptr := 1, size := 4 } }
      = DLL.malloc_loop 5 3 10 1
        { dInit0 with mem := upd dInit0.mem 10 { ptr := 1, size := 4 } }) := by
  refine ⟨?_, ?_, ?_⟩
  · have h := C5_split_policy_amended.1
      { kInit0 with mem := upd kInit0.mem 10 { prev := 1, next := 1, isFree := true, size := 3 } }
      5 2 1 10 (by simp [upd]) (by simp [upd]) (by simp [upd])
    simpa [upd] using h
  · have h := C5_split_policy_amended.2.1
      { dInit0 with mem := upd dInit0.mem 10 { ptr := 1, size := 5 } }
      5 3 1 10 (by decide) (by simp [upd])
    simpa [upd] using h
  · have h := C5_split_policy_amended.2.2
      { dInit0 with mem := upd dInit0.mem 10 { ptr := 1, size := 4 } }
      5 3 1 10 (by simp [upd]) (by decide)
    simpa [upd] using h

namespace KR2

/-- The getfree scan terminates within `B + 1` steps when every stored
`next` pointer is bounded by `B`: each iteration strictly increases the
visited address, which stays at most `B`. -/
theorem getfree_loop_isSome (s : St) (B : Nat) (hB : ∀ a, (s.mem a).next ≤ B) :
    ∀ (fuel tmp res : Nat), tmp ≤ B → B + 1 - tmp ≤ fuel →
      (getfree_loop fuel tmp res s).isSome = true := by
  intro fuel
  induction fuel with
  | zero => intro tmp res h1 h2; omega
  | succ f ih =>
    intro tmp res h1 h2
    unfold getfree_loop
    by_cases h : tmp < (s.mem tmp).next
    · rw [if_pos h]
      have hn := hB tmp
      exact ih _ _ hn (by omega)
    · rw [if_neg h]
      rfl

/-- Lift of the scan bound through the byte conversion of `mm_getfree`. -/
theorem mm_getfree_isSome (s : St) (B fuel : Nat) (hB : ∀ a, (s.mem a).next ≤ B)
    (hf : s.freep ≤ B) (hfuel : B + 1 ≤ fuel) :
    (mm_getfree fuel s).isSome = true := by
  unfold mm_getfree
  by_cases h : s.freep = 0
  · rw [if_pos h]
    rfl
  · rw [if_neg h]
    have hs := getfree_loop_isSome s B hB fuel s.freep ((s.mem s.freep).size) hf (by omega)
    cases hres : getfree_loop fuel s.freep ((s.mem s.freep).size) s with
    | none => rw [hres] at hs; exact absurd hs (by decide)
    | some v => rfl

end KR2

namespace DLL

/-- The dll getfree scan terminates within `B + 1` steps when every
stored pointer is bounded by `B`. -/
theorem dll_getfree_loop_isSome (s : St) (B : Nat) (hB : ∀ a, (s.mem a).ptr ≤ B) :
    ∀ (fuel tmp res : Nat), tmp ≤ B → B + 1 - tmp ≤ fuel →
      (getfree_loop fuel tmp res s).isSome = true := by
  intro fuel
  induction fuel with
  | zero => intro tmp res h1 h2; omega
  | succ f ih =>
    intro tmp res h1 h2
    unfold getfree_loop
    by_cases h : tmp < (s.mem tmp).ptr
    · rw [if_pos h]
      have hn := hB tmp
      exact ih _ _ hn (by omega)
    · rw [if_neg h]
      rfl

/-- Lift of the scan bound through the byte conversion of the dll
`mm_getfree`. -/
theorem dll_mm_getfree_isSome (s : St) (B fuel : Nat) (hB : ∀ a, (s.mem a).ptr ≤ B)
    (hf : s.freep ≤ B) (hfuel : B + 1 ≤ fuel) :
    (mm_getfree fuel s).isSome = true := by
  unfold mm_getfree
  by_cases h : s.freep = 0
  · rw [if_pos h]
    rfl
  · rw [if_neg h]
    have hs := dll_getfree_loop_isSome s B hB fuel s.freep ((s.mem s.freep).size) hf (by omega)
    cases hres : getfree_loop fuel s.freep ((s.mem s.freep).size) s with
    | none => rw [hres] at hs; exact absurd hs (by decide)
    | some v => rfl

end DLL

/-- Claim C10.  The free-space scan of both variants terminates on every
state whose stored successor pointers are address-bounded (as they are in
any reachable state, where pointers land on the static sentinel or inside
the arena): the scan advances only while the successor's address strictly
exceeds the current one, so visited addresses strictly increase and `B + 1`
steps suffice for any pointer bound `B`.  Before first initialization
(`freep = NULL`) it returns 0 immediately without touching memory. -/
theorem C10_getfree_terminates :
    (∀ (s : KR2.St) (B fuel : Nat), (∀ a, (s.mem a).next ≤ B) →
      s.freep ≤ B → B + 1 ≤ fuel → (KR2.mm_getfree fuel s).isSome = true) ∧
    (∀ (s : DLL.St) (B fuel : Nat), (∀ a, (s.mem a).ptr ≤ B) →
      s.freep ≤ B → B + 1 ≤ fuel → (DLL.mm_getfree fuel s).isSome = true) ∧
    (∀ (s : KR2.St) (fuel : Nat), s.freep = 0 → KR2.mm_getfree fuel s = some 0) ∧
    (∀ (s : DLL.St) (fuel : Nat), s.freep = 0 → DLL.mm_getfree fuel s = some 0) :=
  ⟨fun s B fuel hB hf hfuel => KR2.mm_getfree_isSome s B fuel hB hf hfuel,
   fun s B fuel hB hf hfuel => DLL.dll_mm_getfree_isSome s B fuel hB hf hfuel,
   fun s fuel h => by unfold KR2.mm_getfree; rw [if_pos h],
   fun s fuel h => by unfold DLL.mm_getfree; rw [if_pos h]⟩

/-- Claim C10, witness: the freshly initialized states of both variants
have all pointers bounded by 1, so fuel 2 suffices; and the pristine
uninitialized states return 0. -/
theorem C10_getfree_terminates_witness :
    (KR2.mm_getfree 2 (KR2.mm_init kInit0)).isSome = true ∧
    (DLL.mm_getfree 2 (DLL.mm_init dInit0)).isSome = true ∧
    KR2.mm_getfree 7 kInit0 = some 0 ∧
    DLL.mm_getfree 7 dInit0 = some 0 := by
  refine ⟨?_, ?_, ?_, ?_⟩
  · refine C10_getfree_terminates.1 (KR2.mm_init kInit0) 1 2 ?_ (by decide) (by decide)
    intro a
    by_cases h : a = 1 <;> simp [KR2.mm_init, KR2.mem_init, KR2.baseAddr, kInit0, upd, h]
  · refine C10_getfree_terminates.2.1 (DLL.mm_init dInit0) 1 2 ?_ (by decide) (by decide)
    intro a
    by_cases h1 : a = 2 <;> by_cases h2 : a = 1 <;>
      simp [DLL.mm_init, DLL.mem_init, DLL.base0, DLL.base1, dInit0, upd, h1, h2]
  · exact C10_getfree_terminates.2.2.1 kInit0 7 rfl
  · exact C10_getfree_terminates.2.2.2 dInit0 7 rfl

namespace KR2

/-- Successive `next` steps from `p` through the nodes of `l`, ending at
`q`. -/
def chainTo (s : St) (p : Nat) (l : List Nat) (q : Nat) : Prop :=
  match l with
  | [] => p = q
  | x :: xs => (s.mem p).next = x ∧ chainTo s x xs q

/-- When the backing store cannot supply the page-rounded request,
`morecore` returns `NULL` and leaves the state untouched. -/
theorem morecore_fails (f nunits : Nat) (s : St)
    (hmc : hdrSize * s.capacity <
      mm_bytes (if nunits < pagesize / hdrSize then pagesize / hdrSize else nunits)) :
    morecore f nunits s = some (0, s) := by
  unfold morecore mem_sbrk
  dsimp only
  rw [if_pos hmc]

/-- If every node on the `next` chain from `p` back to `freep` rejects
the request and the arena cannot extend, the kr2 search loop terminates
with `NULL`, changing nothing but `errno`. -/
theorem malloc_loop_fails (s : St) (nunits : Nat)
    (hmc : hdrSize * s.capacity <
      mm_bytes (if nunits < pagesize / hdrSize then pagesize / hdrSize else nunits)) :
    ∀ (l : List Nat) (p prev fuel : Nat), l.length + 1 ≤ fuel →
      chainTo s p l s.freep →
      ¬(nunits ≤ (s.mem p).size ∧ (s.mem p).isFree = true) →
      (∀ x ∈ l, ¬(nunits ≤ (s.mem x).size ∧ (s.mem x).isFree = true)) →
      malloc_loop fuel nunits prev p s = some (0, { s with errno := ENOMEM }) := by
  intro l
  induction l with
  | nil =>
    intro p prev fuel hfuel hchain hp hl
    have hq : p = s.freep := hchain
    match fuel, hfuel with
    | f + 1, _ =>
      unfold malloc_loop
      rw [if_neg hp, if_pos hq, morecore_fails f nunits s hmc]
      rfl
  | cons x xs ih =>
    intro p prev fuel hfuel hchain hp hl
    match fuel, hfuel with
    | f + 1, hfuel =>
      unfold malloc_loop
      rw [if_neg hp]
      by_cases hpf : p = s.freep
      · rw [if_pos hpf, morecore_fails f nunits s hmc]
        rfl
      · rw [if_neg hpf, hchain.1]
        exact ih x p f (by simp at hfuel; omega) hchain.2
          (hl x (List.mem_cons_self x xs)) (fun y hy => hl y (List.mem_cons_of_mem x hy))

/-- Top-level form of the failing kr2 allocation: nothing on the free
list fits and the arena cannot extend, so `mm_malloc` returns `NULL`
having set `errno = ENOMEM` and changed nothing else. -/
theorem mm_malloc_fails (s : St) (nbytes : Nat) (l : List Nat) (fuel : Nat)
    (hinit : ¬s.freep = 0)
    (hfuel : l.length + 1 ≤ fuel)
    (hchain : chainTo s ((s.mem s.freep).next) l s.freep)
    (hp : ¬(mm_units nbytes ≤ (s.mem ((s.mem s.freep).next)).size ∧
      (s.mem ((s.mem s.freep).next)).isFree = true))
    (hl : ∀ x ∈ l, ¬(mm_units nbytes ≤ (s.mem x).size ∧ (s.mem x).isFree = true))
    (hmc : hdrSize * s.capacity < mm_bytes
      (if mm_units nbytes < pagesize / hdrSize then pagesize / hdrSize else mm_units nbytes)) :
    mm_malloc fuel nbytes s = some (0, { s with errno := ENOMEM }) := by
  unfold mm_malloc
  dsimp only
  rw [if_neg hinit]
  exact malloc_loop_fails s (mm_units nbytes) hmc l _ _ fuel hfuel hchain hp hl

end KR2

namespace DLL

/-- Successive `ptr` steps from `p` through the nodes of `l`, ending at
`q`. -/
def chainTo (s : St) (p : Nat) (l : List Nat) (q : Nat) : Prop :=
  match l with
  | [] => p = q
  | x :: xs => (s.mem p).ptr = x ∧ chainTo s x xs q

/-- When the backing store cannot supply the page-rounded request, the
dll `morecore` returns `NULL` and leaves the state untouched. -/
theorem dll_morecore_fails (nunits : Nat) (s : St)
    (hmc : hdrSize * s.capacity <
      mm_bytes (if nunits < pagesize / hdrSize then pagesize / hdrSize else nunits)) :
    morecore nunits s = (0, s) := by
  unfold morecore mem_sbrk
  dsimp only
  rw [if_pos hmc]

/-- If every node on the `ptr` chain from `p` back to `freep` rejects the
request (neither an exact fit nor splittable) and the arena cannot extend,
the dll search loop terminates with `NULL`, changing nothing but `errno`. -/
theorem dll_malloc_loop_fails (s : St) (nunits : Nat)
    (hmc : hdrSize * s.capacity <
      mm_bytes (if nunits < pagesize / hdrSize then pagesize / hdrSize else nunits)) :
    ∀ (l : List Nat) (p prev fuel : Nat), l.length + 1 ≤ fuel →
      chainTo s p l s.freep →
      ¬((s.mem p).size = nunits ∨ nunits + 2 ≤ (s.mem p).size) →
      (∀ x ∈ l, ¬((s.mem x).size = nunits ∨ nunits + 2 ≤ (s.mem x).size)) →
      malloc_loop fuel nunits prev p s = some (0, { s with errno := ENOMEM }) := by
  intro l
  induction l with
  | nil =>
    intro p prev fuel hfuel hchain hp hl
    have hq : p = s.freep := hchain
    match fuel, hfuel with
    | f + 1, _ =>
      unfold malloc_loop
      rw [if_neg hp, if_pos hq, dll_morecore_fails nunits s hmc]
      rfl
  | cons x xs ih =>
    intro p prev fuel hfuel hchain hp hl
    match fuel, hfuel with
    | f + 1, hfuel =>
      unfold malloc_loop
      rw [if_neg hp]
      by_cases hpf : p = s.freep
      · rw [if_pos hpf, dll_morecore_fails nunits s hmc]
        rfl
      · rw [if_neg hpf, hchain.1]
        exact ih x p f (by simp at hfuel; omega) hchain.2
          (hl x (List.mem_cons_self x xs)) (fun y hy => hl y (List.mem_cons_of_mem x hy))

/-- Top-level form of the failing dll allocation. -/
theorem dll_mm_malloc_fails (s : St) (nbytes : Nat) (l : List Nat) (fuel : Nat)
    (hinit : ¬s.freep = 0)
    (hfuel : l.length + 1 ≤ fuel)
    (hchain : chainTo s ((s.mem s.freep).ptr) l s.freep)
    (hp : ¬((s.mem ((s.mem s.freep).ptr)).size = mm_units nbytes ∨
      mm_units nbytes + 2 ≤ (s.mem ((s.mem s.freep).ptr)).size))
    (hl : ∀ x ∈ l, ¬((s.mem x).size = mm_units nbytes ∨
      mm_units nbytes + 2 ≤ (s.mem x).size))
    (hmc : hdrSize * s.capacity < mm_bytes
      (if mm_units nbytes < pagesize / hdrSize then pagesize / hdrSize else mm_units nbytes)) :
    mm_malloc fuel nbytes s = some (0, { s with errno := ENOMEM }) := by
  unfold mm_malloc
  dsimp only
  rw [if_neg hinit]
  exact dll_malloc_loop_fails s (mm_units nbytes) hmc l _ _ fuel hfuel hchain hp hl

end DLL

/-- Claim C7, amended.  When no node of the free list satisfies the
request (the whole `next`/`ptr` chain from the cursor back to the cursor
rejects it) and the arena cannot extend at all — the very first extension
attempt fails — `mm_malloc` of either variant returns `NULL` after
setting `errno = ENOMEM`, and the resulting state is the input state with
only `errno` changed: free list, cursor and arena extent are untouched.
(When an intermediate extension succeeds, the dll variant can still fail
and then the grown arena persists — see the counterexample.) -/
theorem C7_oom_first_extension_amended :
    (∀ (s : KR2.St) (nbytes : Nat) (l : List Nat) (fuel : Nat),
      ¬s.freep = 0 → l.length + 1 ≤ fuel →
      KR2.chainTo s ((s.mem s.freep).next) l s.freep →
      ¬(KR2.mm_units nbytes ≤ (s.mem ((s.mem s.freep).next)).size ∧
        (s.mem ((s.mem s.freep).next)).isFree = true) →
      (∀ x ∈ l, ¬(KR2.mm_units nbytes ≤ (s.mem x).size ∧ (s.mem x).isFree = true)) →
      KR2.hdrSize * s.capacity < KR2.mm_bytes
        (if KR2.mm_units nbytes < KR2.pagesize / KR2.hdrSize then KR2.pagesize / KR2.hdrSize
          else KR2.mm_units nbytes) →
      KR2.mm_malloc fuel nbytes s = some (0, { s with errno := KR2.ENOMEM })) ∧
    (∀ (s : DLL.St) (nbytes : Nat) (l : List Nat) (fuel : Nat),
      ¬s.freep = 0 → l.length + 1 ≤ fuel →
      DLL.chainTo s ((s.mem s.freep).ptr) l s.freep →
      ¬((s.mem ((s.mem s.freep).ptr)).size = DLL.mm_units nbytes ∨
        DLL.mm_units nbytes + 2 ≤ (s.mem ((s.mem s.freep).ptr)).size) →
      (∀ x ∈ l, ¬((s.mem x).size = DLL.mm_units nbytes ∨
        DLL.mm_units nbytes + 2 ≤ (s.mem x).size)) →
      DLL.hdrSize * s.capacity < DLL.mm_bytes
        (if DLL.mm_units nbytes < DLL.pagesize / DLL.hdrSize then DLL.pagesize / DLL.hdrSize
          else DLL.mm_units nbytes) →
      DLL.mm_malloc fuel nbytes s = some (0, { s with errno := DLL.ENOMEM })) :=
  ⟨fun s nbytes l fuel h1 h2 h3 h4 h5 h6 =>
    KR2.mm_malloc_fails s nbytes l fuel h1 h2 h3 h4 h5 h6,
   fun s nbytes l fuel h1 h2 h3 h4 h5 h6 =>
    DLL.dll_mm_malloc_fails s nbytes l fuel h1 h2 h3 h4 h5 h6⟩

/-- Claim C7, amended, witness: freshly initialized allocators whose
backing store is already exhausted fail a 5-byte request with `ENOMEM`
and only `errno` changed. -/
theorem C7_oom_first_extension_amended_witness :
    KR2.mm_malloc 1 5 { KR2.mm_init kInit0 with capacity := 0 }
      = some (0, { { KR2.mm_init kInit0 with capacity := 0 } with errno := KR2.ENOMEM }) ∧
    DLL.mm_malloc 1 5 { DLL.mm_init dInit0 with capacity := 0 }
      = some (0, { { DLL.mm_init dInit0 with capacity := 0 } with errno := DLL.ENOMEM }) :=
  ⟨C7_oom_first_extension_amended.1 { KR2.mm_init kInit0 with capacity := 0 } 5 [] 1
      (by decide) (by decide) rfl (by decide) (by decide) (by decide),
   C7_oom_first_extension_amended.2 { DLL.mm_init dInit0 with capacity := 0 } 5 [] 1
      (by decide) (by decide) rfl (by decide) (by decide) (by decide)⟩

/-- State of the kr2 allocator after a cold `mm_malloc(16)` that consumed
the whole backing store: one 126-unit free block at unit 2 and one live
2-unit block at unit 128. -/
def kAfter16 : KR2.St :=
  ((KR2.mm_malloc 20 16 (KR2.mm_init kInit0)).map Prod.snd).getD kInit0

/-- State of the dll allocator after a cold `mm_malloc(16)` that consumed
the whole backing store: one 253-unit free block at unit 3 and one live
3-unit block at unit 256. -/
def dAfter16 : DLL.St :=
  ((DLL.mm_malloc 20 16 (DLL.mm_init dInit0)).map Prod.snd).getD dInit0

namespace KR2

/-- Abstract view of one block: its size in units and its free flag. -/
structure Blk where
  size : Nat
  isFree : Bool
deriving DecidableEq

/-- Total size in units of a list of blocks. -/
def sizesSum (bs : List Blk) : Nat := (bs.map Blk.size).sum

/-- Block at index `i`, defaulting to an empty allocated block. -/
def blkAt (bs : List Blk) (i : Nat) : Blk := bs.getD i { size := 0, isFree := false }

/-- Unit address of the header of block `i`: the blocks tile the heap
from `heapLo` upward. -/
def addr (bs : List Blk) (i : Nat) : Nat := heapLo + sizesSum (bs.take i)

/-- The `prev` pointer block `i` carries in a well-formed kr2 list. -/
def prevPtr (bs : List Blk) (i : Nat) : Nat :=
  if i = 0 then baseAddr else addr bs (i - 1)

/-- The `next` pointer block `i` carries in a well-formed kr2 list. -/
def nextPtr (bs : List Blk) (i : Nat) : Nat :=
  if i + 1 = bs.length then baseAddr else addr bs (i + 1)

/-- The node addresses of the circular all-blocks list: the sentinel
followed by every block header in address order. -/
def nodes (bs : List Blk) : List Nat :=
  baseAddr :: (List.range bs.length).map (addr bs)

/-- Memory-shape part of the representation invariant: all sizes are
positive, the blocks tile the arena exactly, the sentinel links to the
first and last block, and every block header stores its neighbors in
address order together with its abstract size and flag. -/
def RepMem (s : St) (bs : List Blk) : Prop :=
  (∀ b ∈ bs, 1 ≤ b.size) ∧
  s.heapUnits = sizesSum bs ∧
  s.mem baseAddr =
    { prev := if bs.length = 0 then baseAddr else addr bs (bs.length - 1)
      next := if bs.length = 0 then baseAddr else addr bs 0
      isFree := false, size := 0 } ∧
  (∀ i, i < bs.length →
    s.mem (addr bs i) =
      { prev := prevPtr bs i, next := nextPtr bs i
        isFree := (blkAt bs i).isFree, size := (blkAt bs i).size })

/-- Full representation invariant: the memory shape plus a rotating
cursor that sits on a list node. -/
def Rep (s : St) (bs : List Blk) : Prop :=
  RepMem s bs ∧ s.freep ∈ nodes bs

/-- No two index-adjacent blocks are both free. -/
def NoAdj (bs : List Blk) : Prop :=
  ∀ i, i < bs.length - 1 →
    ¬((blkAt bs i).isFree = true ∧ (blkAt bs (i + 1)).isFree = true)

/-- Unit span covered by blocks `lo ≤ j < hi`. -/
def spanSize (bs : List Blk) (lo hi : Nat) : Nat :=
  sizesSum ((bs.drop lo).take (hi - lo))

/-- Replace blocks `lo ≤ j < hi` by one free block covering their span. -/
def surgery (bs : List Blk) (lo hi : Nat) : List Blk :=
  bs.take lo ++ [{ size := spanSize bs lo hi, isFree := true }] ++ bs.drop hi

/-- The block list after `mm_free` of block `i`: mark it free and fuse
it with a free upper neighbor and a free lower neighbor. -/
def mergeAt (bs : List Blk) (i : Nat) : List Blk :=
  surgery bs
    (if 0 < i ∧ (blkAt bs (i - 1)).isFree = true then i - 1 else i)
    (if i + 1 < bs.length ∧ (blkAt bs (i + 1)).isFree = true then i + 2 else i + 1)

theorem sizesSum_append (l1 l2 : List Blk) :
    sizesSum (l1 ++ l2) = sizesSum l1 + sizesSum l2 := by
  simp [sizesSum]

theorem blkAt_eq_getElem (bs : List Blk) (i : Nat) (hi : i < bs.length) :
    blkAt bs i = bs[i] := by
  simp [blkAt, List.getD_eq_getElem?_getD, List.getElem?_eq_getElem hi]

theorem blkAt_mem (bs : List Blk) (i : Nat) (hi : i < bs.length) :
    blkAt bs i ∈ bs := by
  rw [blkAt_eq_getElem bs i hi]
  exact List.getElem_mem hi

theorem sizesSum_take_succ (bs : List Blk) (i : Nat) (hi : i < bs.length) :
    sizesSum (bs.take (i + 1)) = sizesSum (bs.take i) + (blkAt bs i).size := by
  rw [← List.take_concat_get bs i hi, List.concat_eq_append, sizesSum_append]
  simp [sizesSum, blkAt_eq_getElem bs i hi]

theorem addr_succ (bs : List Blk) (i : Nat) (hi : i < bs.length) :
    addr bs (i + 1) = addr bs i + (blkAt bs i).size := by
  unfold addr
  rw [sizesSum_take_succ bs i hi]
  omega

theorem sizesSum_take_le (l : List Blk) (i : Nat) : sizesSum (l.take i) ≤ sizesSum l := by
  conv_rhs => rw [← List.take_append_drop i l]
  rw [sizesSum_append]
  omega

theorem addr_mono (bs : List Blk) (i j : Nat) (hij : i ≤ j) :
    addr bs i ≤ addr bs j := by
  unfold addr
  have h1 : bs.take i = (bs.take j).take i := by
    rw [List.take_take, Nat.min_eq_left hij]
  have h2 := sizesSum_take_le (bs.take j) i
  rw [h1]
  omega

theorem addr_lt (bs : List Blk) (hpos : ∀ b ∈ bs, 1 ≤ b.size) (i j : Nat)
    (hij : i < j) (hj : j ≤ bs.length) :
    addr bs i < addr bs j := by
  have hi : i < bs.length := by omega
  have h1 : 1 ≤ (blkAt bs i).size := hpos _ (blkAt_mem bs i hi)
  have h2 := addr_succ bs i hi
  have h3 := addr_mono bs (i + 1) j hij
  omega

theorem heapLo_le_addr (bs : List Blk) (i : Nat) : heapLo ≤ addr bs i := by
  unfold addr
  omega

theorem base_lt_addr (bs : List Blk) (i : Nat) : baseAddr < addr bs i := by
  have := heapLo_le_addr bs i
  unfold heapLo at this
  unfold baseAddr
  omega

theorem addr_ne_base (bs : List Blk) (i : Nat) : addr bs i ≠ baseAddr := by
  have := base_lt_addr bs i
  omega

theorem addr_ne_zero (bs : List Blk) (i : Nat) : addr bs i ≠ 0 := by
  have := base_lt_addr bs i
  unfold baseAddr at this
  omega

theorem nextPtr_ne_zero (bs : List Blk) (i : Nat) : nextPtr bs i ≠ 0 := by
  unfold nextPtr
  by_cases h : i + 1 = bs.length
  · simp [h, baseAddr]
  · simp [h, addr_ne_zero]

theorem prevPtr_ne_zero (bs : List Blk) (i : Nat) : prevPtr bs i ≠ 0 := by
  unfold prevPtr
  by_cases h : i = 0
  · simp [h, baseAddr]
  · simp [h, addr_ne_zero]

end KR2

namespace KR2

theorem surgery_length (bs : List Blk) (lo hi : Nat) (h1 : lo ≤ hi) (h2 : hi ≤ bs.length) :
    (surgery bs lo hi).length = lo + 1 + (bs.length - hi) := by
  unfold surgery
  simp
  omega

theorem spanSize_eq (bs : List Blk) (lo hi : Nat) (h : lo ≤ hi) :
    sizesSum (bs.take lo) + spanSize bs lo hi = sizesSum (bs.take hi) := by
  unfold spanSize
  conv_rhs => rw [show hi = lo + (hi - lo) by omega, List.take_add, sizesSum_append]

theorem sizesSum_single (b : Blk) : sizesSum [b] = b.size := by
  simp [sizesSum]

theorem surgery_sizesSum (bs : List Blk) (lo hi : Nat) (h1 : lo ≤ hi) (h2 : hi ≤ bs.length) :
    sizesSum (surgery bs lo hi) = sizesSum bs := by
  unfold surgery
  rw [sizesSum_append, sizesSum_append, sizesSum_single]
  dsimp only
  have h3 := spanSize_eq bs lo hi h1
  have h4 : sizesSum (bs.take hi) + sizesSum (bs.drop hi) = sizesSum bs := by
    rw [← sizesSum_append, List.take_append_drop]
  omega

theorem take_len (bs : List Blk) (lo : Nat) (hlo : lo ≤ bs.length) :
    (List.take lo bs).length = lo := by
  simp
  omega

theorem blkAt_surgery_lt (bs : List Blk) (lo hi j : Nat) (hj : j < lo) (hlo : lo ≤ bs.length) :
    blkAt (surgery bs lo hi) j = blkAt bs j := by
  have hA : (List.take lo bs).length = lo := take_len bs lo hlo
  unfold surgery blkAt
  rw [List.getD_eq_getElem?_getD, List.getD_eq_getElem?_getD, List.getElem?_append,
    if_pos (by simp [hA]; omega), List.getElem?_append, if_pos (by omega),
    List.getElem?_take, if_pos hj]

theorem blkAt_surgery_lo (bs : List Blk) (lo hi : Nat) (hlo : lo ≤ bs.length) :
    blkAt (surgery bs lo hi) lo = { size := spanSize bs lo hi, isFree := true } := by
  have hA : (List.take lo bs).length = lo := take_len bs lo hlo
  unfold surgery blkAt
  rw [List.getD_eq_getElem?_getD, List.getElem?_append, if_pos (by simp [hA]),
    List.getElem?_append_right (by omega)]
  rw [hA]
  simp

theorem blkAt_surgery_shift (bs : List Blk) (lo hi k : Nat) (hlo : lo ≤ bs.length) :
    blkAt (surgery bs lo hi) (lo + 1 + k) = blkAt bs (hi + k) := by
  have hA : (List.take lo bs).length = lo := take_len bs lo hlo
  unfold surgery blkAt
  rw [List.getD_eq_getElem?_getD, List.getD_eq_getElem?_getD,
    List.getElem?_append_right (by simp [hA])]
  have h2 : lo + 1 + k -
      (List.take lo bs ++ [({ size := spanSize bs lo hi, isFree := true } : Blk)]).length
      = k := by
    simp [hA]
  rw [h2, List.getElem?_drop]

theorem addr_surgery_le (bs : List Blk) (lo hi j : Nat) (hj : j ≤ lo) (hlo : lo ≤ bs.length) :
    addr (surgery bs lo hi) j = addr bs j := by
  have hA : (List.take lo bs).length = lo := take_len bs lo hlo
  unfold addr surgery
  rw [List.append_assoc, List.take_append_of_le_length (by omega), List.take_take,
    Nat.min_eq_left hj]

theorem addr_surgery_shift (bs : List Blk) (lo hi k : Nat) (h1 : lo ≤ hi)
    (hlo : lo ≤ bs.length) :
    addr (surgery bs lo hi) (lo + 1 + k) = addr bs (hi + k) := by
  have hA : (List.take lo bs ++ [({ size := spanSize bs lo hi, isFree := true } : Blk)]).length
      = lo + 1 := by
    simp [take_len bs lo hlo]
  unfold addr surgery
  rw [show lo + 1 + k =
      (List.take lo bs ++ [({ size := spanSize bs lo hi, isFree := true } : Blk)]).length + k
    from by rw [hA], List.take_append]
  rw [sizesSum_append, sizesSum_append, sizesSum_single]
  dsimp only
  have h3 := spanSize_eq bs lo hi h1
  have h4 : sizesSum (List.take (hi + k) bs)
      = sizesSum (List.take hi bs) + sizesSum (List.take k (List.drop hi bs)) := by
    rw [List.take_add, sizesSum_append]
  omega

end KR2

namespace KR2

theorem addr_ne (bs : List Blk) (hpos : ∀ b ∈ bs, 1 ≤ b.size) (i j : Nat)
    (hi : i ≤ bs.length) (hj : j ≤ bs.length) (hij : i ≠ j) : addr bs i ≠ addr bs j := by
  rcases Nat.lt_or_ge i j with h | h
  · exact Nat.ne_of_lt (addr_lt bs hpos i j h hj)
  · exact Nat.ne_of_gt (addr_lt bs hpos j i (by omega) hi)

theorem spanSize_single (bs : List Blk) (i : Nat) (hi : i < bs.length) :
    spanSize bs i (i + 1) = (blkAt bs i).size := by
  have h1 := spanSize_eq bs i (i + 1) (by omega)
  have h2 := sizesSum_take_succ bs i hi
  omega

theorem spanSize_pair (bs : List Blk) (i : Nat) (hi : i + 1 < bs.length) :
    spanSize bs i (i + 2) = (blkAt bs i).size + (blkAt bs (i + 1)).size := by
  have h1 := spanSize_eq bs i (i + 2) (by omega)
  have h2 := sizesSum_take_succ bs i (by omega)
  have h3 : sizesSum (bs.take (i + 2)) = sizesSum (bs.take (i + 1)) + (blkAt bs (i + 1)).size :=
    sizesSum_take_succ bs (i + 1) hi
  omega

theorem spanSize_pos (bs : List Blk) (lo hi : Nat) (hpos : ∀ b ∈ bs, 1 ≤ b.size)
    (h1 : lo < hi) (h2 : hi ≤ bs.length) : 1 ≤ spanSize bs lo hi := by
  have h3 := spanSize_eq bs lo hi (by omega)
  have h4 := addr_lt bs hpos lo hi h1 h2
  unfold addr at h4
  omega

theorem surgery_sizes_pos (bs : List Blk) (lo hi : Nat) (hpos : ∀ b ∈ bs, 1 ≤ b.size)
    (h1 : lo < hi) (h2 : hi ≤ bs.length) :
    ∀ b ∈ surgery bs lo hi, 1 ≤ b.size := by
  intro b hb
  unfold surgery at hb
  rcases List.mem_append.1 hb with hb | hb
  · rcases List.mem_append.1 hb with hb | hb
    · exact hpos b (List.take_subset lo bs hb)
    · rcases List.mem_singleton.1 hb with rfl
      exact spanSize_pos bs lo hi hpos h1 h2
  · exact hpos b (List.drop_subset hi bs hb)

theorem prevPtr_surgery_le (bs : List Blk) (lo hi j : Nat) (hj : j ≤ lo)
    (hlo : lo ≤ bs.length) :
    prevPtr (surgery bs lo hi) j = prevPtr bs j := by
  unfold prevPtr
  by_cases h : j = 0
  · simp [h]
  · rw [if_neg h, if_neg h, addr_surgery_le bs lo hi (j - 1) (by omega) hlo]

theorem nextPtr_surgery_lt (bs : List Blk) (lo hi j : Nat) (hj : j < lo)
    (h1 : lo < hi) (h2 : hi ≤ bs.length) :
    nextPtr (surgery bs lo hi) j = nextPtr bs j := by
  unfold nextPtr
  have hlen := surgery_length bs lo hi (by omega) h2
  rw [if_neg (by omega), if_neg (by omega),
    addr_surgery_le bs lo hi (j + 1) (by omega) (by omega)]

theorem nextPtr_surgery_lo (bs : List Blk) (lo hi : Nat) (h1 : lo < hi) (h2 : hi ≤ bs.length) :
    nextPtr (surgery bs lo hi) lo = nextPtr bs (hi - 1) := by
  unfold nextPtr
  have hlen := surgery_length bs lo hi (by omega) h2
  by_cases h : hi = bs.length
  · rw [if_pos (by omega), if_pos (by omega)]
  · rw [if_neg (by omega), if_neg (by omega)]
    have := addr_surgery_shift bs lo hi 0 (by omega) (by omega)
    rw [show lo + 1 + 0 = lo + 1 from rfl] at this
    rw [this]
    congr 1
    omega

theorem prevPtr_surgery_shift (bs : List Blk) (lo hi k : Nat) (h1 : lo < hi)
    (h2 : hi ≤ bs.length) :
    prevPtr (surgery bs lo hi) (lo + 1 + k)
      = if k = 0 then addr bs lo else prevPtr bs (hi + k) := by
  unfold prevPtr
  by_cases hk : k = 0
  · subst hk
    have h0 : ¬(lo + 1 + 0 = 0) := by omega
    rw [if_neg h0]
    have h3 : lo + 1 + 0 - 1 = lo := by omega
    rw [h3, addr_surgery_le bs lo hi lo (by omega) (by omega)]
    simp
  · rw [if_neg (by omega), if_neg hk, if_neg (by omega)]
    have := addr_surgery_shift bs lo hi (k - 1) (by omega) (by omega)
    rw [show lo + 1 + (k - 1) = lo + 1 + k - 1 from by omega] at this
    rw [this]
    congr 1
    omega

theorem nextPtr_surgery_shift (bs : List Blk) (lo hi k : Nat) (h1 : lo < hi)
    (h2 : hi ≤ bs.length) :
    nextPtr (surgery bs lo hi) (lo + 1 + k) = nextPtr bs (hi + k) := by
  unfold nextPtr
  have hlen := surgery_length bs lo hi (by omega) h2
  by_cases h : hi + k + 1 = bs.length
  · rw [if_pos (by omega), if_pos (by omega)]
  · rw [if_neg (by omega), if_neg (by omega)]
    have h3 := addr_surgery_shift bs lo hi (k + 1) (by omega) (by omega)
    rw [show lo + 1 + (k + 1) = lo + 1 + k + 1 from by omega] at h3
    rw [h3]
    congr 1

end KR2

namespace KR2

theorem addr_mark (bs : List Blk) (i j : Nat) (hi : i < bs.length) :
    addr (surgery bs i (i + 1)) j = addr bs j := by
  rcases le_or_lt j i with hj | hj
  · exact addr_surgery_le bs i (i + 1) j hj (by omega)
  · have hk := addr_surgery_shift bs i (i + 1) (j - i - 1) (by omega) (by omega)
    rw [show i + 1 + (j - i - 1) = j from by omega] at hk
    rw [hk]

theorem blkAt_mark_ne (bs : List Blk) (i j : Nat) (hi : i < bs.length) (hij : j ≠ i) :
    blkAt (surgery bs i (i + 1)) j = blkAt bs j := by
  rcases Nat.lt_or_ge j i with hj | hj
  · exact blkAt_surgery_lt bs i (i + 1) j hj (by omega)
  · have hk := blkAt_surgery_shift bs i (i + 1) (j - i - 1) (by omega)
    rw [show i + 1 + (j - i - 1) = j from by omega] at hk
    rw [hk]

theorem prevPtr_mark (bs : List Blk) (i j : Nat) (hi : i < bs.length) :
    prevPtr (surgery bs i (i + 1)) j = prevPtr bs j := by
  rcases le_or_lt j i with hj | hj
  · exact prevPtr_surgery_le bs i (i + 1) j hj (by omega)
  · have hk := prevPtr_surgery_shift bs i (i + 1) (j - i - 1) (by omega) (by omega)
    rw [show i + 1 + (j - i - 1) = j from by omega] at hk
    rw [hk]
    by_cases h0 : j - i - 1 = 0
    · rw [if_pos h0]
      unfold prevPtr
      rw [if_neg (by omega)]
      congr 1
      omega
    · rw [if_neg h0]

theorem nextPtr_mark (bs : List Blk) (i j : Nat) (hi : i < bs.length) :
    nextPtr (surgery bs i (i + 1)) j = nextPtr bs j := by
  rcases Nat.lt_or_ge j i with hj | hj
  · exact nextPtr_surgery_lt bs i (i + 1) j hj (by omega) (by omega)
  · rcases Nat.eq_or_lt_of_le hj with hj2 | hj2
    · rw [← hj2]
      have := nextPtr_surgery_lo bs i (i + 1) (by omega) (by omega)
      rw [show i + 1 - 1 = i from by omega] at this
      rw [this]
    · have hk := nextPtr_surgery_shift bs i (i + 1) (j - i - 1) (by omega) (by omega)
      rw [show i + 1 + (j - i - 1) = j from by omega] at hk
      rw [hk]

theorem RepMem_mark (s : St) (bs : List Blk) (i : Nat) (h : RepMem s bs)
    (hi : i < bs.length) :
    RepMem { s with mem := upd s.mem (addr bs i) { s.mem (addr bs i) with isFree := true } }
      (surgery bs i (i + 1)) := by
  obtain ⟨hpos, hheap, hbase, hblocks⟩ := h
  have hlen : (surgery bs i (i + 1)).length = bs.length := by
    rw [surgery_length bs i (i + 1) (by omega) (by omega)]
    omega
  refine ⟨surgery_sizes_pos bs i (i + 1) hpos (by omega) (by omega), ?_, ?_, ?_⟩
  · show s.heapUnits = _
    rw [surgery_sizesSum bs i (i + 1) (by omega) (by omega)]
    exact hheap
  · show upd s.mem (addr bs i) _ baseAddr = _
    rw [upd_ne _ _ _ _ (Ne.symm (addr_ne_base bs i)), hbase, hlen,
      addr_mark bs i (bs.length - 1) hi, addr_mark bs i 0 hi]
  · intro j hj
    rw [hlen] at hj
    show upd s.mem (addr bs i) _ (addr (surgery bs i (i + 1)) j) = _
    rw [addr_mark bs i j hi, prevPtr_mark bs i j hi, nextPtr_mark bs i j hi]
    by_cases hij : j = i
    · subst hij
      rw [upd_same, hblocks j hj, blkAt_surgery_lo bs j (j + 1) (by omega),
        spanSize_single bs j hj]
    · rw [upd_ne _ _ _ _ (addr_ne bs hpos j i (by omega) (by omega) hij),
        hblocks j hj, blkAt_mark_ne bs i j hi hij]

end KR2

namespace KR2

theorem connect_next_ne (s : St) (a b x : Nat) (hx : x ≠ a) (hxb : x ≠ b) :
    (connect_dlinkedlist s a b).mem x = s.mem x := by
  unfold connect_dlinkedlist
  dsimp only
  rw [upd_ne _ _ _ _ hxb, upd_ne _ _ _ _ hx]

theorem free_mergeUp_frame (bp : Nat) (s : St) :
    (free_mergeUp bp s).freep = s.freep ∧ (free_mergeUp bp s).data = s.data ∧
    (free_mergeUp bp s).heapUnits = s.heapUnits ∧
    (free_mergeUp bp s).capacity = s.capacity ∧ (free_mergeUp bp s).errno = s.errno := by
  unfold free_mergeUp connect_dlinkedlist
  split <;> exact ⟨rfl, rfl, rfl, rfl, rfl⟩

theorem free_mergeUp_no (s : St) (bs : List Blk) (i : Nat) (h : RepMem s bs)
    (hi : i < bs.length)
    (hno : ¬(i + 1 < bs.length ∧ (blkAt bs (i + 1)).isFree = true)) :
    free_mergeUp (addr bs i) s = s := by
  obtain ⟨hpos, hheap, hbase, hblocks⟩ := h
  have hcond : ¬((s.mem (s.mem (addr bs i)).next).isFree = true ∧
      addr bs i + (s.mem (addr bs i)).size = (s.mem (addr bs i)).next) := by
    rw [hblocks i hi]
    dsimp only
    unfold nextPtr
    by_cases hlast : i + 1 = bs.length
    · rw [if_pos hlast, hbase]
      simp
    · rw [if_neg hlast, hblocks (i + 1) (by omega)]
      dsimp only
      intro hc
      exact hno ⟨by omega, hc.1⟩
  unfold free_mergeUp
  rw [if_neg hcond]

theorem free_mergeUp_yes_state (s : St) (bs : List Blk) (i : Nat) (h : RepMem s bs)
    (hi : i < bs.length) (hfree : (blkAt bs i).isFree = true)
    (hup : i + 1 < bs.length) (hupfree : (blkAt bs (i + 1)).isFree = true) :
    free_mergeUp (addr bs i) s = connect_dlinkedlist
      { s with mem := (upd s.mem (addr bs i)
          { prev := prevPtr bs i, next := nextPtr bs i, isFree := true,
            size := (blkAt bs i).size + (blkAt bs (i + 1)).size }) }
      (addr bs i) (nextPtr bs (i + 1)) := by
  obtain ⟨hpos, hheap, hbase, hblocks⟩ := h
  have hN : nextPtr bs i = addr bs (i + 1) := by
    unfold nextPtr
    rw [if_neg (by omega)]
  have hne1 : addr bs (i + 1) ≠ addr bs i := addr_ne bs hpos (i + 1) i (by omega) (by omega)
    (by omega)
  have hcond : ((s.mem (s.mem (addr bs i)).next).isFree = true ∧
      addr bs i + (s.mem (addr bs i)).size = (s.mem (addr bs i)).next) := by
    rw [hblocks i hi]
    dsimp only
    rw [hN, hblocks (i + 1) hup]
    exact ⟨hupfree, by rw [addr_succ bs i hi]⟩
  unfold free_mergeUp
  rw [if_pos hcond]
  rw [hblocks i hi]
  dsimp only
  rw [hN]
  rw [upd_ne _ _ _ _ hne1, hblocks (i + 1) hup]
  dsimp only
  rw [hfree]

end KR2

namespace KR2

theorem free_mergeUp_yes (s : St) (bs : List Blk) (i : Nat) (h : RepMem s bs)
    (hi : i < bs.length) (hfree : (blkAt bs i).isFree = true)
    (hup : i + 1 < bs.length) (hupfree : (blkAt bs (i + 1)).isFree = true) :
    RepMem (free_mergeUp (addr bs i) s) (surgery bs i (i + 2)) := by
  obtain ⟨hpos, hheap, hbase, hblocks⟩ := h
  rw [free_mergeUp_yes_state s bs i ⟨hpos, hheap, hbase, hblocks⟩ hi hfree hup hupfree]
  have hlenS : (surgery bs i (i + 2)).length = bs.length - 1 := by
    rw [surgery_length bs i (i + 2) (by omega) (by omega)]
    omega
  have hAbase : addr bs i ≠ baseAddr := addr_ne_base bs i
  have hNform : nextPtr bs (i + 1) = baseAddr ∨
      (i + 2 < bs.length ∧ nextPtr bs (i + 1) = addr bs (i + 2)) := by
    unfold nextPtr
    by_cases h2 : i + 2 = bs.length
    · rw [if_pos (by omega)]
      exact Or.inl rfl
    · rw [if_neg (by omega)]
      exact Or.inr ⟨by omega, rfl⟩
  have hAN : addr bs i ≠ nextPtr bs (i + 1) := by
    rcases hNform with hN | ⟨h2, hN⟩
    · rw [hN]
      exact hAbase
    · rw [hN]
      exact addr_ne bs hpos i (i + 2) (by omega) (by omega) (by omega)
  have hmA : (connect_dlinkedlist
      { s with mem := (upd s.mem (addr bs i)
          { prev := prevPtr bs i, next := nextPtr bs i, isFree := true,
            size := (blkAt bs i).size + (blkAt bs (i + 1)).size }) }
      (addr bs i) (nextPtr bs (i + 1))).mem (addr bs i)
      = { prev := prevPtr bs i, next := nextPtr bs (i + 1), isFree := true,
          size := (blkAt bs i).size + (blkAt bs (i + 1)).size } := by
    unfold connect_dlinkedlist
    dsimp only
    rw [upd_ne _ _ _ _ hAN, upd_same, upd_same]
  have hmN : (connect_dlinkedlist
      { s with mem := (upd s.mem (addr bs i)
          { prev := prevPtr bs i, next := nextPtr bs i, isFree := true,
            size := (blkAt bs i).size + (blkAt bs (i + 1)).size }) }
      (addr bs i) (nextPtr bs (i + 1))).mem (nextPtr bs (i + 1))
      = { s.mem (nextPtr bs (i + 1)) with prev := addr bs i } := by
    unfold connect_dlinkedlist
    dsimp only
    rw [upd_same, upd_ne _ _ _ _ (Ne.symm hAN), upd_ne _ _ _ _ (Ne.symm hAN)]
  have hmO : ∀ x, x ≠ addr bs i → x ≠ nextPtr bs (i + 1) →
      (connect_dlinkedlist
        { s with mem := (upd s.mem (addr bs i)
            { prev := prevPtr bs i, next := nextPtr bs i, isFree := true,
              size := (blkAt bs i).size + (blkAt bs (i + 1)).size }) }
        (addr bs i) (nextPtr bs (i + 1))).mem x = s.mem x := by
    intro x hx1 hx2
    rw [connect_next_ne _ _ _ _ hx1 hx2]
    exact upd_ne _ _ _ _ hx1
  refine ⟨surgery_sizes_pos bs i (i + 2) hpos (by omega) (by omega), ?_, ?_, ?_⟩
  · show s.heapUnits = _
    rw [surgery_sizesSum bs i (i + 2) (by omega) (by omega)]
    exact hheap
  · -- the sentinel header
    by_cases h2 : i + 2 = bs.length
    · -- the merged block is the last one and the sentinel's prev is rewritten to it
      have hNb : nextPtr bs (i + 1) = baseAddr := by
        unfold nextPtr
        rw [if_pos (by omega)]
      have e1 : addr (surgery bs i (i + 2)) (bs.length - 1 - 1) = addr bs i := by
        rw [show bs.length - 1 - 1 = i from by omega]
        exact addr_surgery_le bs i (i + 2) i (by omega) (by omega)
      rw [← hNb, hmN, hNb, hbase, hlenS, e1,
        addr_surgery_le bs i (i + 2) 0 (by omega) (by omega)]
      simp only [if_neg (show ¬(bs.length = 0) from by omega),
        if_neg (show ¬(bs.length - 1 = 0) from by omega)]
    · have hNb : nextPtr bs (i + 1) = addr bs (i + 2) := by
        unfold nextPtr
        rw [if_neg (by omega)]
      have hbaseN : baseAddr ≠ nextPtr bs (i + 1) := by
        rw [hNb]
        exact Ne.symm (addr_ne_base bs (i + 2))
      have e1 : addr (surgery bs i (i + 2)) (bs.length - 1 - 1)
          = addr bs (bs.length - 1) := by
        have hk := addr_surgery_shift bs i (i + 2) (bs.length - 1 - 1 - (i + 1)) (by omega)
          (by omega)
        rw [show i + 1 + (bs.length - 1 - 1 - (i + 1)) = bs.length - 1 - 1 from by omega,
          show i + 2 + (bs.length - 1 - 1 - (i + 1)) = bs.length - 1 from by omega] at hk
        exact hk
      rw [hmO baseAddr (Ne.symm hAbase) hbaseN, hbase, hlenS, e1,
        addr_surgery_le bs i (i + 2) 0 (by omega) (by omega)]
      simp only [if_neg (show ¬(bs.length = 0) from by omega),
        if_neg (show ¬(bs.length - 1 = 0) from by omega)]
  · -- per-block headers
    intro j hj
    rw [hlenS] at hj
    rcases Nat.lt_trichotomy j i with hji | hji
    · -- blocks below the merge site are untouched
      have hx1 : addr (surgery bs i (i + 2)) j = addr bs j :=
        addr_surgery_le bs i (i + 2) j (by omega) (by omega)
      have hne : addr bs j ≠ addr bs i := addr_ne bs hpos j i (by omega) (by omega) (by omega)
      have hneN : addr bs j ≠ nextPtr bs (i + 1) := by
        rcases hNform with hN | ⟨h2, hN⟩
        · rw [hN]
          exact addr_ne_base bs j
        · rw [hN]
          exact addr_ne bs hpos j (i + 2) (by omega) (by omega) (by omega)
      rw [hx1, hmO _ hne hneN, hblocks j (by omega),
        blkAt_surgery_lt bs i (i + 2) j hji (by omega),
        prevPtr_surgery_le bs i (i + 2) j (by omega) (by omega),
        nextPtr_surgery_lt bs i (i + 2) j hji (by omega) (by omega)]
    · rcases hji with hji | hji
      · -- the merged block itself
        subst hji
        have hx1 : addr (surgery bs j (j + 2)) j = addr bs j :=
          addr_surgery_le bs j (j + 2) j (by omega) (by omega)
        rw [hx1, hmA, blkAt_surgery_lo bs j (j + 2) (by omega),
          prevPtr_surgery_le bs j (j + 2) j (by omega) (by omega),
          nextPtr_surgery_lo bs j (j + 2) (by omega) (by omega),
          show j + 2 - 1 = j + 1 from by omega,
          spanSize_pair bs j hup]
      · -- blocks above the merge site, shifted down by one index
        have hk0 : j = i + 1 + (j - i - 1) := by omega
        have hx1 : addr (surgery bs i (i + 2)) j = addr bs (j + 1) := by
          have hk := addr_surgery_shift bs i (i + 2) (j - i - 1) (by omega) (by omega)
          rw [show i + 1 + (j - i - 1) = j from by omega,
            show i + 2 + (j - i - 1) = j + 1 from by omega] at hk
          exact hk
        have hblk : blkAt (surgery bs i (i + 2)) j = blkAt bs (j + 1) := by
          have hk := blkAt_surgery_shift bs i (i + 2) (j - i - 1) (by omega)
          rw [show i + 1 + (j - i - 1) = j from by omega,
            show i + 2 + (j - i - 1) = j + 1 from by omega] at hk
          exact hk
        have hnext : nextPtr (surgery bs i (i + 2)) j = nextPtr bs (j + 1) := by
          have hk := nextPtr_surgery_shift bs i (i + 2) (j - i - 1) (by omega) (by omega)
          rw [show i + 1 + (j - i - 1) = j from by omega,
            show i + 2 + (j - i - 1) = j + 1 from by omega] at hk
          exact hk
        by_cases hj1 : j = i + 1
        · -- the first block above the merge: its prev pointer was rewritten
          subst hj1
          have hNb : nextPtr bs (i + 1) = addr bs (i + 2) := by
            unfold nextPtr
            rw [if_neg (by omega)]
          have hprev : prevPtr (surgery bs i (i + 2)) (i + 1) = addr bs i := by
            have hk := prevPtr_surgery_shift bs i (i + 2) 0 (by omega) (by omega)
            rw [if_pos rfl] at hk
            rw [show i + 1 + 0 = i + 1 from by omega] at hk
            exact hk
          rw [hx1, show i + 1 + 1 = i + 2 from by omega, ← hNb, hmN, hNb,
            hblocks (i + 2) (by omega), hprev, hnext, hblk]
        · have hne : addr bs (j + 1) ≠ addr bs i :=
            addr_ne bs hpos (j + 1) i (by omega) (by omega) (by omega)
          have hneN : addr bs (j + 1) ≠ nextPtr bs (i + 1) := by
            rcases hNform with hN | ⟨h2, hN⟩
            · rw [hN]
              exact addr_ne_base bs (j + 1)
            · rw [hN]
              exact addr_ne bs hpos (j + 1) (i + 2) (by omega) (by omega) (by omega)
          have hprev : prevPtr (surgery bs i (i + 2)) j = prevPtr bs (j + 1) := by
            have hk := prevPtr_surgery_shift bs i (i + 2) (j - i - 1) (by omega) (by omega)
            rw [show i + 1 + (j - i - 1) = j from by omega, if_neg (by omega),
              show i + 2 + (j - i - 1) = j + 1 from by omega] at hk
            exact hk
          rw [hx1, hmO _ hne hneN, hblocks (j + 1) (by omega), hprev, hnext, hblk]

end KR2

namespace KR2

theorem free_mergeDown_frame (bp : Nat) (s : St) :
    (free_mergeDown bp s).1.freep = s.freep ∧ (free_mergeDown bp s).1.data = s.data ∧
    (free_mergeDown bp s).1.heapUnits = s.heapUnits ∧
    (free_mergeDown bp s).1.capacity = s.capacity ∧
    (free_mergeDown bp s).1.errno = s.errno := by
  unfold free_mergeDown connect_dlinkedlist
  split <;> exact ⟨rfl, rfl, rfl, rfl, rfl⟩

theorem free_mergeDown_no (s : St) (bs : List Blk) (i : Nat) (h : RepMem s bs)
    (hi : i < bs.length)
    (hno : ¬(0 < i ∧ (blkAt bs (i - 1)).isFree = true)) :
    free_mergeDown (addr bs i) s = (s, addr bs i) := by
  obtain ⟨hpos, hheap, hbase, hblocks⟩ := h
  have hcond : ¬((s.mem (s.mem (addr bs i)).prev).isFree = true ∧
      (s.mem (addr bs i)).prev + (s.mem (s.mem (addr bs i)).prev).size = addr bs i) := by
    rw [hblocks i hi]
    dsimp only
    unfold prevPtr
    by_cases h0 : i = 0
    · rw [if_pos h0, hbase]
      simp
    · rw [if_neg h0, hblocks (i - 1) (by omega)]
      dsimp only
      intro hc
      exact hno ⟨by omega, hc.1⟩
  unfold free_mergeDown
  rw [if_neg hcond]

theorem free_mergeDown_yes_state (s : St) (bs : List Blk) (i : Nat) (h : RepMem s bs)
    (hi : i < bs.length) (h0 : 0 < i) (hdnfree : (blkAt bs (i - 1)).isFree = true) :
    free_mergeDown (addr bs i) s = (connect_dlinkedlist
      { s with mem := (upd s.mem (addr bs (i - 1))
          { prev := prevPtr bs (i - 1), next := nextPtr bs (i - 1), isFree := true,
            size := (blkAt bs (i - 1)).size + (blkAt bs i).size }) }
      (addr bs (i - 1)) (nextPtr bs i), addr bs (i - 1)) := by
  obtain ⟨hpos, hheap, hbase, hblocks⟩ := h
  have hP : prevPtr bs i = addr bs (i - 1) := by
    unfold prevPtr
    rw [if_neg (by omega)]
  have hne1 : addr bs i ≠ addr bs (i - 1) := addr_ne bs hpos i (i - 1) (by omega) (by omega)
    (by omega)
  have hadj : addr bs (i - 1) + (blkAt bs (i - 1)).size = addr bs i := by
    have hs := addr_succ bs (i - 1) (by omega)
    rw [show i - 1 + 1 = i from by omega] at hs
    omega
  have hcond : ((s.mem (s.mem (addr bs i)).prev).isFree = true ∧
      (s.mem (addr bs i)).prev + (s.mem (s.mem (addr bs i)).prev).size = addr bs i) := by
    rw [hblocks i hi]
    dsimp only
    rw [hP, hblocks (i - 1) (by omega)]
    exact ⟨hdnfree, hadj⟩
  unfold free_mergeDown
  rw [if_pos hcond]
  rw [hblocks i hi]
  dsimp only
  rw [hP, upd_ne _ _ _ _ hne1, hblocks (i - 1) (by omega), hblocks i hi]
  dsimp only
  rw [hdnfree]

theorem free_mergeDown_eq_up (s : St) (bs : List Blk) (i : Nat) (h : RepMem s bs)
    (hi : i < bs.length) (h0 : 0 < i) (hfree : (blkAt bs i).isFree = true)
    (hdnfree : (blkAt bs (i - 1)).isFree = true) :
    free_mergeDown (addr bs i) s = (free_mergeUp (addr bs (i - 1)) s, addr bs (i - 1)) := by
  rw [free_mergeDown_yes_state s bs i h hi h0 hdnfree,
    free_mergeUp_yes_state s bs (i - 1) h (by omega) hdnfree (by omega)
      (by rw [show i - 1 + 1 = i from by omega]; exact hfree)]
  rw [show i - 1 + 1 = i from by omega]

end KR2

namespace KR2

theorem take_surgery (bs : List Blk) (lo hi j : Nat) (hj : j ≤ lo) (hlo : lo ≤ bs.length) :
    (surgery bs lo hi).take j = bs.take j := by
  unfold surgery
  rw [List.append_assoc, List.take_append_of_le_length (by rw [take_len bs lo hlo]; omega),
    List.take_take, Nat.min_eq_left hj]

theorem drop_surgery_shift (bs : List Blk) (lo hi k : Nat) (hlo : lo ≤ bs.length) :
    (surgery bs lo hi).drop (lo + 1 + k) = bs.drop (hi + k) := by
  have hA : (List.take lo bs ++ [({ size := spanSize bs lo hi, isFree := true } : Blk)]).length
      = lo + 1 := by
    simp [take_len bs lo hlo]
  unfold surgery
  rw [show lo + 1 + k =
      (List.take lo bs ++ [({ size := spanSize bs lo hi, isFree := true } : Blk)]).length + k
    from by rw [hA], List.drop_append, List.drop_drop]

theorem surgery_congr (bs cs : List Blk) (lo hi lo2 hi2 : Nat)
    (ht : bs.take lo = cs.take lo2) (hs : spanSize bs lo hi = spanSize cs lo2 hi2)
    (hd : bs.drop hi = cs.drop hi2) : surgery bs lo hi = surgery cs lo2 hi2 := by
  unfold surgery
  rw [ht, hs, hd]

theorem surgery_comp_up (bs : List Blk) (i : Nat) (hi : i + 1 < bs.length) :
    surgery (surgery bs i (i + 1)) i (i + 2) = surgery bs i (i + 2) := by
  refine surgery_congr _ bs i (i + 2) i (i + 2) (take_surgery bs i (i + 1) i (by omega) (by omega))
    ?_ ?_
  · rw [spanSize_pair _ i (by rw [surgery_length bs i (i + 1) (by omega) (by omega)]; omega),
      spanSize_pair bs i hi, blkAt_surgery_lo bs i (i + 1) (by omega)]
    have h2 := blkAt_surgery_shift bs i (i + 1) 0 (by omega)
    rw [show i + 1 + 0 = i + 1 from by omega] at h2
    rw [h2, spanSize_single bs i (by omega)]
  · have h3 := drop_surgery_shift bs i (i + 1) 1 (by omega)
    rw [show i + 1 + 1 = i + 2 from by omega] at h3
    exact h3

theorem surgery_comp_down (bs : List Blk) (i hi2 : Nat) (h0 : 0 < i) (h1 : i < hi2)
    (h2 : hi2 ≤ bs.length) :
    surgery (surgery bs i hi2) (i - 1) (i + 1) = surgery bs (i - 1) hi2 := by
  refine surgery_congr _ bs (i - 1) (i + 1) (i - 1) hi2
    (take_surgery bs i hi2 (i - 1) (by omega) (by omega)) ?_ ?_
  · have hlen : (surgery bs i hi2).length = i + 1 + (bs.length - hi2) :=
      surgery_length bs i hi2 (by omega) (by omega)
    have hp := spanSize_pair (surgery bs i hi2) (i - 1) (by omega)
    rw [show i - 1 + 2 = i + 1 from by omega, show i - 1 + 1 = i from by omega] at hp
    rw [hp, blkAt_surgery_lt bs i hi2 (i - 1) (by omega) (by omega),
      blkAt_surgery_lo bs i hi2 (by omega)]
    have e1 := spanSize_eq bs (i - 1) hi2 (by omega)
    have e2 := spanSize_eq bs i hi2 (by omega)
    have e3 := sizesSum_take_succ bs (i - 1) (by omega)
    rw [show i - 1 + 1 = i from by omega] at e3
    dsimp only
    omega
  · have h3 := drop_surgery_shift bs i hi2 0 (by omega)
    rw [show i + 1 + 0 = i + 1 from by omega, show hi2 + 0 = hi2 from by omega] at h3
    exact h3

theorem free_insert_skip (fuel : Nat) (s : St) (bs : List Blk) (i : Nat) (h : RepMem s bs)
    (hi : i < bs.length) : free_insert fuel (addr bs i) s = some s := by
  obtain ⟨hpos, hheap, hbase, hblocks⟩ := h
  unfold free_insert
  rw [if_neg (show ¬((s.mem (addr bs i)).next = 0) from by
    rw [hblocks i hi]; exact nextPtr_ne_zero bs i)]

theorem prevPtr_mem_nodes (bs : List Blk) (i : Nat) (hi : i < bs.length) :
    prevPtr bs i ∈ nodes bs := by
  unfold prevPtr nodes
  by_cases h0 : i = 0
  · rw [if_pos h0]
    exact List.mem_cons_self _ _
  · rw [if_neg h0]
    refine List.mem_cons_of_mem _ ?_
    exact List.mem_map.mpr ⟨i - 1, List.mem_range.mpr (by omega), rfl⟩

end KR2

namespace KR2

theorem free_mark_up (s : St) (bs : List Blk) (i : Nat) (h : RepMem s bs)
    (hi : i < bs.length) :
    RepMem (free_mergeUp (addr bs i)
        { s with mem := upd s.mem (addr bs i) { s.mem (addr bs i) with isFree := true } })
      (surgery bs i
        (if i + 1 < bs.length ∧ (blkAt bs (i + 1)).isFree = true then i + 2 else i + 1)) := by
  have hm := RepMem_mark s bs i h hi
  have hlen : (surgery bs i (i + 1)).length = bs.length := by
    rw [surgery_length bs i (i + 1) (by omega) (by omega)]
    omega
  have h1 : (blkAt (surgery bs i (i + 1)) i).isFree = true := by
    rw [blkAt_surgery_lo bs i (i + 1) (by omega)]
  by_cases hU : i + 1 < bs.length ∧ (blkAt bs (i + 1)).isFree = true
  · rw [if_pos hU, ← surgery_comp_up bs i hU.1]
    have h2 : (blkAt (surgery bs i (i + 1)) (i + 1)).isFree = true := by
      rw [blkAt_mark_ne bs i (i + 1) hi (by omega)]
      exact hU.2
    have hy := free_mergeUp_yes _ (surgery bs i (i + 1)) i hm (by omega) h1
      (by rw [hlen]; exact hU.1) h2
    rw [addr_mark bs i i hi] at hy
    exact hy
  · rw [if_neg hU]
    have hno : ¬(i + 1 < (surgery bs i (i + 1)).length ∧
        (blkAt (surgery bs i (i + 1)) (i + 1)).isFree = true) := by
      rw [hlen, blkAt_mark_ne bs i (i + 1) hi (by omega)]
      exact hU
    have hn := free_mergeUp_no _ (surgery bs i (i + 1)) i hm (by omega) hno
    rw [addr_mark bs i i hi] at hn
    rw [hn]
    exact hm

theorem free_down (s2 : St) (bs : List Blk) (i hi2 : Nat) (hR : RepMem s2 (surgery bs i hi2))
    (h1 : i < hi2) (h2 : hi2 ≤ bs.length) :
    RepMem (free_mergeDown (addr bs i) s2).1
        (surgery bs (if 0 < i ∧ (blkAt bs (i - 1)).isFree = true then i - 1 else i) hi2) ∧
      (free_mergeDown (addr bs i) s2).2 =
        addr bs (if 0 < i ∧ (blkAt bs (i - 1)).isFree = true then i - 1 else i) := by
  have hlen : (surgery bs i hi2).length = i + 1 + (bs.length - hi2) :=
    surgery_length bs i hi2 (by omega) (by omega)
  have hA : addr (surgery bs i hi2) i = addr bs i :=
    addr_surgery_le bs i hi2 i (by omega) (by omega)
  have hFree : (blkAt (surgery bs i hi2) i).isFree = true :=
    by rw [blkAt_surgery_lo bs i hi2 (by omega)]
  by_cases hD : 0 < i ∧ (blkAt bs (i - 1)).isFree = true
  · rw [if_pos hD]
    have hd2 : (blkAt (surgery bs i hi2) (i - 1)).isFree = true := by
      rw [blkAt_surgery_lt bs i hi2 (i - 1) (by omega) (by omega)]
      exact hD.2
    have heq := free_mergeDown_eq_up s2 (surgery bs i hi2) i hR (by omega) hD.1 hFree hd2
    rw [← hA, heq]
    have hy := free_mergeUp_yes s2 (surgery bs i hi2) (i - 1) hR (by omega) hd2
      (by omega) (by rw [show i - 1 + 1 = i from by omega]; exact hFree)
    rw [show i - 1 + 2 = i + 1 from by omega,
      surgery_comp_down bs i hi2 hD.1 h1 h2] at hy
    exact ⟨hy, addr_surgery_le bs i hi2 (i - 1) (by omega) (by omega)⟩
  · rw [if_neg hD]
    have hno : ¬(0 < i ∧ (blkAt (surgery bs i hi2) (i - 1)).isFree = true) := by
      intro hc
      refine hD ⟨hc.1, ?_⟩
      rw [← blkAt_surgery_lt bs i hi2 (i - 1) (by omega) (by omega)]
      exact hc.2
    have heq := free_mergeDown_no s2 (surgery bs i hi2) i hR (by omega) hno
    rw [← hA, heq]
    exact ⟨hR, rfl⟩

end KR2

namespace KR2

theorem mm_free_phases (fuel ap : Nat) (s : St) (hap : ¬(ap = 0)) :
    mm_free fuel ap s = (free_insert fuel (ap - 1) s).map (fun s0 =>
      let s1 := { s0 with mem := upd s0.mem (ap - 1) { s0.mem (ap - 1) with isFree := true } }
      let res := free_mergeDown (ap - 1) (free_mergeUp (ap - 1) s1)
      { res.1 with freep := (res.1.mem res.2).prev }) := by
  unfold mm_free mm_block
  rw [if_neg hap]

theorem free_Rep (fuel : Nat) (s : St) (bs : List Blk) (i : Nat) (h : RepMem s bs)
    (hi : i < bs.length) :
    ∃ s2, mm_free fuel (addr bs i + 1) s = some s2 ∧ Rep s2 (mergeAt bs i) ∧
      s2.data = s.data ∧ s2.heapUnits = s.heapUnits ∧ s2.capacity = s.capacity ∧
      s2.errno = s.errno := by
  rw [mm_free_phases fuel (addr bs i + 1) s (by omega),
    show addr bs i + 1 - 1 = addr bs i from by omega,
    free_insert_skip fuel s bs i h hi, Option.map_some']
  refine ⟨_, rfl, ?_, ?_, ?_, ?_, ?_⟩
  · dsimp only
    unfold mergeAt
    have hup := free_mark_up s bs i h hi
    have hU2 : (if i + 1 < bs.length ∧ (blkAt bs (i + 1)).isFree = true then i + 2 else i + 1)
        ≤ bs.length := by
      by_cases hU : i + 1 < bs.length ∧ (blkAt bs (i + 1)).isFree = true
      · rw [if_pos hU]
        have := hU.1
        omega
      · rw [if_neg hU]
        omega
    have hdown := free_down _ bs i _ hup (by split <;> omega) hU2
    generalize hgl : (if 0 < i ∧ (blkAt bs (i - 1)).isFree = true then i - 1 else i) = l1
      at hdown ⊢
    generalize hgu : (if i + 1 < bs.length ∧ (blkAt bs (i + 1)).isFree = true then i + 2
      else i + 1) = u1 at hdown hU2 ⊢
    have hb1 : l1 ≤ i := by
      rw [← hgl]
      split <;> omega
    have hb2 : i < u1 := by
      rw [← hgu]
      split <;> omega
    refine ⟨hdown.1, ?_⟩
    dsimp only
    rw [hdown.2]
    have hbound : l1 < (surgery bs l1 u1).length := by
      rw [surgery_length bs l1 u1 (by omega) hU2]
      omega
    have hblk := hdown.1.2.2.2 l1 hbound
    rw [addr_surgery_le bs l1 u1 l1 (le_refl l1) (by omega)] at hblk
    rw [hblk]
    exact prevPtr_mem_nodes (surgery bs l1 u1) l1 hbound
  · dsimp only
    rw [(free_mergeDown_frame _ _).2.1, (free_mergeUp_frame _ _).2.1]
  · dsimp only
    rw [(free_mergeDown_frame _ _).2.2.1, (free_mergeUp_frame _ _).2.2.1]
  · dsimp only
    rw [(free_mergeDown_frame _ _).2.2.2.1, (free_mergeUp_frame _ _).2.2.2.1]
  · dsimp only
    rw [(free_mergeDown_frame _ _).2.2.2.2, (free_mergeUp_frame _ _).2.2.2.2]

end KR2

namespace KR2

theorem noAdj_surgery (bs : List Blk) (lo hi : Nat) (hno : NoAdj bs) (h1 : lo < hi)
    (h2 : hi ≤ bs.length)
    (hlo : lo = 0 ∨ (blkAt bs (lo - 1)).isFree = false)
    (hhi : hi = bs.length ∨ (blkAt bs hi).isFree = false) :
    NoAdj (surgery bs lo hi) := by
  intro p hp
  have hlen : (surgery bs lo hi).length = lo + 1 + (bs.length - hi) :=
    surgery_length bs lo hi (by omega) (by omega)
  rw [hlen] at hp
  rcases Nat.lt_trichotomy (p + 1) lo with hc | hc | hc
  · rw [blkAt_surgery_lt bs lo hi p (by omega) (by omega),
      blkAt_surgery_lt bs lo hi (p + 1) (by omega) (by omega)]
    exact hno p (by omega)
  · rw [blkAt_surgery_lt bs lo hi p (by omega) (by omega), hc,
      blkAt_surgery_lo bs lo hi (by omega)]
    intro hcon
    rcases hlo with h0 | h0
    · omega
    · rw [show p = lo - 1 from by omega, h0] at hcon
      simp at hcon
  · by_cases hep : p = lo
    · subst hep
      rw [blkAt_surgery_lo bs p hi (by omega)]
      have hs1 := blkAt_surgery_shift bs p hi 0 (by omega)
      rw [show p + 1 + 0 = p + 1 from by omega, show hi + 0 = hi from by omega] at hs1
      rw [hs1]
      intro hcon
      rcases hhi with h0 | h0
      · omega
      · rw [h0] at hcon
        simp at hcon
    · have hq1 := blkAt_surgery_shift bs lo hi (p - lo - 1) (by omega)
      rw [show lo + 1 + (p - lo - 1) = p from by omega] at hq1
      have hq2 := blkAt_surgery_shift bs lo hi (p - lo) (by omega)
      rw [show lo + 1 + (p - lo) = p + 1 from by omega] at hq2
      rw [hq1, hq2]
      have hn := hno (hi + (p - lo - 1)) (by omega)
      rw [show hi + (p - lo - 1) + 1 = hi + (p - lo) from by omega] at hn
      exact hn

theorem noAdj_mergeAt (bs : List Blk) (i : Nat) (hno : NoAdj bs) (hi : i < bs.length) :
    NoAdj (mergeAt bs i) := by
  unfold mergeAt
  apply noAdj_surgery bs _ _ hno
  · by_cases hD : 0 < i ∧ (blkAt bs (i - 1)).isFree = true <;>
      by_cases hU : i + 1 < bs.length ∧ (blkAt bs (i + 1)).isFree = true
    · rw [if_pos hD, if_pos hU]
      omega
    · rw [if_pos hD, if_neg hU]
      omega
    · rw [if_neg hD, if_pos hU]
      omega
    · rw [if_neg hD, if_neg hU]
      omega
  · by_cases hU : i + 1 < bs.length ∧ (blkAt bs (i + 1)).isFree = true
    · rw [if_pos hU]
      have := hU.1
      omega
    · rw [if_neg hU]
      omega
  · by_cases hD : 0 < i ∧ (blkAt bs (i - 1)).isFree = true
    · rw [if_pos hD]
      by_cases h0 : i - 1 = 0
      · exact Or.inl h0
      · refine Or.inr ?_
        have hn := hno (i - 2) (by omega)
        rw [show i - 2 + 1 = i - 1 from by omega] at hn
        rw [show i - 1 - 1 = i - 2 from by omega]
        cases hb : (blkAt bs (i - 2)).isFree
        · rfl
        · exact absurd ⟨hb, hD.2⟩ hn
    · rw [if_neg hD]
      by_cases h0 : i = 0
      · exact Or.inl h0
      · refine Or.inr ?_
        cases hb : (blkAt bs (i - 1)).isFree
        · rfl
        · exact absurd ⟨by omega, hb⟩ hD
  · by_cases hU : i + 1 < bs.length ∧ (blkAt bs (i + 1)).isFree = true
    · rw [if_pos hU]
      by_cases hl : i + 2 = bs.length
      · exact Or.inl hl
      · refine Or.inr ?_
        have hn := hno (i + 1) (by
          have := hU.1
          omega)
        cases hb : (blkAt bs (i + 2)).isFree
        · rfl
        · exact absurd ⟨hU.2, hb⟩ hn
    · rw [if_neg hU]
      by_cases hl : i + 1 = bs.length
      · exact Or.inl hl
      · refine Or.inr ?_
        cases hb : (blkAt bs (i + 1)).isFree
        · rfl
        · exact absurd ⟨by omega, hb⟩ hU

theorem noAdj_pairs (bs : List Blk) (hpos : ∀ b ∈ bs, 1 ≤ b.size) (hno : NoAdj bs)
    (j k : Nat) (hj : j < bs.length) (hk : k < bs.length)
    (hfj : (blkAt bs j).isFree = true) (hfk : (blkAt bs k).isFree = true) :
    addr bs j + (blkAt bs j).size ≠ addr bs k := by
  rw [← addr_succ bs j hj]
  by_cases hjk : k = j + 1
  · subst hjk
    exact absurd ⟨hfj, hfk⟩ (hno j (by omega))
  · exact addr_ne bs hpos (j + 1) k (by omega) (by omega) (by omega)

theorem mergeAt_both (bs : List Blk) (i : Nat) (h0 : 0 < i) (h1 : i + 1 < bs.length)
    (hd : (blkAt bs (i - 1)).isFree = true) (hu : (blkAt bs (i + 1)).isFree = true) :
    mergeAt bs i = surgery bs (i - 1) (i + 2) := by
  unfold mergeAt
  rw [if_pos ⟨h0, hd⟩, if_pos ⟨h1, hu⟩]

end KR2

namespace DLL

/-- Header address of block `i` in the dll layout: the heap starts one
unit higher than in kr2, so the kr2 tiling address shifts by one. -/
def daddr (bs : List KR2.Blk) (i : Nat) : Nat := KR2.addr bs i + 1

/-- Address of the tail cell of block `i`. -/
def tailC (bs : List KR2.Blk) (i : Nat) : Nat :=
  daddr bs i + (KR2.blkAt bs i).size - 1

/-- The free-structure node set: the `base` sentinel plus the head of
every free block. -/
def isNode (bs : List KR2.Blk) (a : Nat) : Prop :=
  a = base0 ∨ ∃ j, j < bs.length ∧ (KR2.blkAt bs j).isFree = true ∧ a = daddr bs j

/-- Forward pointer of a node: its head cell's `ptr`. -/
def nxt (s : St) (a : Nat) : Nat := (s.mem a).ptr

/-- Backward pointer of a node: its tail cell's `ptr`, the tail found as
the C code finds it, through the head's stored size. -/
def prv (s : St) (a : Nat) : Nat := (s.mem (mm_tail s a)).ptr

/-- Representation invariant of the dll allocator: positive block sizes
tiling the arena, correct stored sizes on every block head and on the
sentinel, null head and tail pointers on allocated blocks, and a free
structure whose forward and backward pointers are mutually inverse over
the node set, with the rotating cursor on a node.  (Tail cells' `size`
fields are deliberately unconstrained: the code never reads them.) -/
def DRep (s : St) (bs : List KR2.Blk) : Prop :=
  (∀ b ∈ bs, 2 ≤ b.size) ∧
  s.heapUnits = KR2.sizesSum bs ∧
  (s.mem base0).size = 2 ∧
  (∀ j, j < bs.length → (s.mem (daddr bs j)).size = (KR2.blkAt bs j).size) ∧
  (∀ j, j < bs.length → (KR2.blkAt bs j).isFree = false →
    (s.mem (daddr bs j)).ptr = 0 ∧ (s.mem (tailC bs j)).ptr = 0) ∧
  (∀ a, isNode bs a → isNode bs (nxt s a)) ∧
  (∀ a, isNode bs a → isNode bs (prv s a)) ∧
  (∀ a b, isNode bs a → isNode bs b → (nxt s a = b ↔ prv s b = a)) ∧
  isNode bs s.freep

theorem daddr_succ (bs : List KR2.Blk) (i : Nat) (hi : i < bs.length) :
    daddr bs (i + 1) = daddr bs i + (KR2.blkAt bs i).size := by
  unfold daddr
  have := KR2.addr_succ bs i hi
  omega

theorem daddr_mono (bs : List KR2.Blk) (i j : Nat) (hij : i ≤ j) :
    daddr bs i ≤ daddr bs j := by
  unfold daddr
  have := KR2.addr_mono bs i j hij
  omega

theorem daddr_lt (bs : List KR2.Blk) (hpos : ∀ b ∈ bs, 2 ≤ b.size) (i j : Nat)
    (hij : i < j) (hj : j ≤ bs.length) : daddr bs i < daddr bs j := by
  unfold daddr
  have := KR2.addr_lt bs (fun b hb => by have := hpos b hb; omega) i j hij hj
  omega

theorem heapLo_le_daddr (bs : List KR2.Blk) (i : Nat) : heapLo ≤ daddr bs i := by
  unfold daddr heapLo
  have := KR2.heapLo_le_addr bs i
  unfold KR2.heapLo at this
  omega

theorem daddr_ne (bs : List KR2.Blk) (hpos : ∀ b ∈ bs, 2 ≤ b.size) (i j : Nat)
    (hi : i ≤ bs.length) (hj : j ≤ bs.length) (hij : i ≠ j) : daddr bs i ≠ daddr bs j := by
  rcases Nat.lt_or_ge i j with h | h
  · exact Nat.ne_of_lt (daddr_lt bs hpos i j h hj)
  · exact Nat.ne_of_gt (daddr_lt bs hpos j i (by omega) hi)

theorem size_le_tail (bs : List KR2.Blk) (hpos : ∀ b ∈ bs, 2 ≤ b.size) (i : Nat)
    (hi : i < bs.length) : daddr bs i + 1 ≤ tailC bs i ∧ tailC bs i < daddr bs (i + 1) := by
  have h2 := hpos _ (KR2.blkAt_mem bs i hi)
  have hs := daddr_succ bs i hi
  unfold tailC
  omega

theorem head_ne_tail (bs : List KR2.Blk) (hpos : ∀ b ∈ bs, 2 ≤ b.size) (i j : Nat)
    (hi : i < bs.length) (hj : j < bs.length) : daddr bs i ≠ tailC bs j := by
  have hj2 := size_le_tail bs hpos j hj
  rcases Nat.lt_or_ge j i with h | h
  · have := daddr_mono bs (j + 1) i (by omega)
    omega
  · have := daddr_mono bs i j h
    omega

theorem tail_inj (bs : List KR2.Blk) (hpos : ∀ b ∈ bs, 2 ≤ b.size) (i j : Nat)
    (hi : i < bs.length) (hj : j < bs.length) (hij : i ≠ j) : tailC bs i ≠ tailC bs j := by
  have hi2 := size_le_tail bs hpos i hi
  have hj2 := size_le_tail bs hpos j hj
  rcases Nat.lt_or_ge i j with h | h
  · have := daddr_mono bs (i + 1) j (by omega)
    omega
  · have := daddr_mono bs (j + 1) i (by omega)
    omega

theorem base0_lt_heapLo : base0 < heapLo := by
  unfold base0 heapLo
  omega

theorem base1_lt_heapLo : base1 < heapLo := by
  unfold base1 heapLo
  omega

theorem node_ne_zero (bs : List KR2.Blk) (a : Nat) (h : isNode bs a) : a ≠ 0 := by
  rcases h with rfl | ⟨j, _, _, rfl⟩
  · unfold base0
    omega
  · have := heapLo_le_daddr bs j
    unfold heapLo at this
    omega

end DLL

namespace DLL

theorem node_tail_eval (s : St) (bs : List KR2.Blk) (hb0 : (s.mem base0).size = 2)
    (hsz : ∀ j, j < bs.length → (s.mem (daddr bs j)).size = (KR2.blkAt bs j).size)
    (a : Nat) (h : isNode bs a) :
    (a = base0 ∧ mm_tail s a = base1) ∨
    (∃ j, j < bs.length ∧ (KR2.blkAt bs j).isFree = true ∧ a = daddr bs j ∧
      mm_tail s a = tailC bs j) := by
  rcases h with rfl | ⟨j, hj, hf, rfl⟩
  · refine Or.inl ⟨rfl, ?_⟩
    show base0 + (s.mem base0).size - 1 = base1
    rw [hb0]
    rfl
  · refine Or.inr ⟨j, hj, hf, rfl, ?_⟩
    show daddr bs j + (s.mem (daddr bs j)).size - 1 = tailC bs j
    rw [hsz j hj]
    rfl

theorem head_not_node (bs : List KR2.Blk) (hpos : ∀ b ∈ bs, 2 ≤ b.size) (i : Nat)
    (hi : i < bs.length) (hAl : (KR2.blkAt bs i).isFree = false) :
    ¬ isNode bs (daddr bs i) := by
  intro h
  rcases h with hb | ⟨j, hj, hf, he⟩
  · have := heapLo_le_daddr bs i
    unfold heapLo at this
    unfold base0 at hb
    omega
  · have hij : i ≠ j := by
      intro hc
      rw [hc, hf] at hAl
      exact absurd hAl (by simp)
    exact daddr_ne bs hpos i j (by omega) (by omega) hij he

/-- A node's head cell is never another node's tail cell. -/
theorem node_head_ne_tail (s : St) (bs : List KR2.Blk) (hpos : ∀ b ∈ bs, 2 ≤ b.size)
    (hb0 : (s.mem base0).size = 2)
    (hsz : ∀ j, j < bs.length → (s.mem (daddr bs j)).size = (KR2.blkAt bs j).size)
    (a b : Nat) (ha : isNode bs a) (hb : isNode bs b) : a ≠ mm_tail s b := by
  rcases node_tail_eval s bs hb0 hsz b hb with ⟨he, ht⟩ | ⟨j, hj, hf, he, ht⟩ <;> rw [ht] <;>
    rcases ha with rfl | ⟨k, hk, hkf, rfl⟩
  · unfold base0 base1
    omega
  · have := heapLo_le_daddr bs k
    unfold heapLo at this
    unfold base1
    omega
  · have h1 := size_le_tail bs hpos j hj
    have h2 := heapLo_le_daddr bs j
    unfold base0
    unfold heapLo at h2
    omega
  · exact head_ne_tail bs hpos k j hk hj

/-- Tail cells of distinct nodes are distinct. -/
theorem node_tail_inj (s : St) (bs : List KR2.Blk) (hpos : ∀ b ∈ bs, 2 ≤ b.size)
    (hb0 : (s.mem base0).size = 2)
    (hsz : ∀ j, j < bs.length → (s.mem (daddr bs j)).size = (KR2.blkAt bs j).size)
    (a b : Nat) (ha : isNode bs a) (hb : isNode bs b) (hab : a ≠ b) :
    mm_tail s a ≠ mm_tail s b := by
  rcases node_tail_eval s bs hb0 hsz a ha with ⟨hea, hta⟩ | ⟨j, hj, hf, hea, hta⟩ <;>
    rcases node_tail_eval s bs hb0 hsz b hb with ⟨heb, htb⟩ | ⟨k, hk, hkf, heb, htb⟩ <;>
      rw [hta, htb]
  · rw [hea, heb] at hab
    exact absurd rfl hab
  · have h1 := size_le_tail bs hpos k hk
    have h2 := heapLo_le_daddr bs k
    unfold base1
    unfold heapLo at h2
    omega
  · have h1 := size_le_tail bs hpos j hj
    have h2 := heapLo_le_daddr bs j
    unfold base1
    unfold heapLo at h2
    omega
  · refine tail_inj bs hpos j k hj hk ?_
    intro hc
    rw [hea, heb, hc] at hab
    exact hab rfl

end DLL

namespace DLL

/-- The insertion phase of the dll `mm_free`: splice the block in right
after the rotating cursor. -/
def ins (s : St) (bp : Nat) : St :=
  link_header (link_header s bp ((s.mem s.freep).ptr)) s.freep bp

/-- The upper-coalesce phase of the dll `mm_free`. -/
def upperPhase (s : St) (bp : Nat) : St :=
  let nn := bp + (s.mem bp).size
  if nn < heapLo + s.heapUnits ∧ (s.mem nn).ptr ≠ 0 then
    let su := coalesce s bp nn
    { su with freep := (su.mem (mm_tail su bp)).ptr }
  else s

/-- The lower-coalesce phase of the dll `mm_free`. -/
def lowerPhase (s : St) (bp : Nat) : St :=
  let pt := bp - 1
  if heapLo < pt ∧ (s.mem pt).ptr ≠ 0 then
    let pnh := (s.mem ((s.mem pt).ptr)).ptr
    let sd := coalesce s pnh bp
    { sd with freep := (sd.mem (mm_tail sd pnh)).ptr }
  else s

theorem mm_free_decomp (ap : Nat) (s : St) (h : ¬(ap = 0)) :
    mm_free ap s = lowerPhase (upperPhase (ins s (ap - 1)) (ap - 1)) (ap - 1) := by
  unfold mm_free ins upperPhase lowerPhase mm_block
  rw [if_neg h]

theorem ins_mem (s : St) (bs : List KR2.Blk) (i : Nat)
    (hpos : ∀ b ∈ bs, 2 ≤ b.size) (hb0 : (s.mem base0).size = 2)
    (hsz : ∀ j, j < bs.length → (s.mem (daddr bs j)).size = (KR2.blkAt bs j).size)
    (hi : i < bs.length) (hAl : (KR2.blkAt bs i).isFree = false)
    (hpN : isNode bs s.freep) (hAN : isNode bs ((s.mem s.freep).ptr)) :
    ins s (daddr bs i) = { s with mem :=
      (upd (upd (upd (upd s.mem (daddr bs i)
          { s.mem (daddr bs i) with ptr := (s.mem s.freep).ptr })
        (mm_tail s ((s.mem s.freep).ptr))
          { s.mem (mm_tail s ((s.mem s.freep).ptr)) with ptr := daddr bs i })
        s.freep { s.mem s.freep with ptr := daddr bs i })
        (tailC bs i) { s.mem (tailC bs i) with ptr := s.freep }) } := by
  have hbpn : ¬ isNode bs (daddr bs i) := head_not_node bs hpos i hi hAl
  have hAbp : (s.mem s.freep).ptr ≠ daddr bs i := fun hc => hbpn (hc ▸ hAN)
  have hpbp : s.freep ≠ daddr bs i := fun hc => hbpn (hc ▸ hpN)
  have hptA : s.freep ≠ mm_tail s ((s.mem s.freep).ptr) :=
    node_head_ne_tail s bs hpos hb0 hsz _ _ hpN hAN
  have hbptA : daddr bs i ≠ mm_tail s ((s.mem s.freep).ptr) := by
    rcases node_tail_eval s bs hb0 hsz _ hAN with ⟨he, ht⟩ | ⟨j, hj, hf, he, ht⟩
    · rw [ht]
      have := heapLo_le_daddr bs i
      unfold base1
      unfold heapLo at this
      omega
    · rw [ht]
      exact head_ne_tail bs hpos i j hi hj
  have htCp : tailC bs i ≠ s.freep := by
    rcases hpN with he | ⟨j, hj, hf, he⟩
    · rw [he]
      have h1 := size_le_tail bs hpos i hi
      have h2 := heapLo_le_daddr bs i
      unfold base0
      unfold heapLo at h2
      omega
    · rw [he]
      exact Ne.symm (head_ne_tail bs hpos j i hj hi)
  have htCtA : tailC bs i ≠ mm_tail s ((s.mem s.freep).ptr) := by
    rcases node_tail_eval s bs hb0 hsz _ hAN with ⟨he, ht⟩ | ⟨j, hj, hf, he, ht⟩
    · rw [ht]
      have h1 := size_le_tail bs hpos i hi
      have h2 := heapLo_le_daddr bs i
      unfold base1
      unfold heapLo at h2
      omega
    · rw [ht]
      refine tail_inj bs hpos i j hi hj ?_
      intro hc
      rw [hc, hf] at hAl
      exact absurd hAl (by simp)
  have htCbp : tailC bs i ≠ daddr bs i := by
    have := size_le_tail bs hpos i hi
    omega
  have tAne_bp : (s.mem s.freep).ptr + (s.mem ((s.mem s.freep).ptr)).size - 1 ≠ daddr bs i :=
    Ne.symm hbptA
  have p_ne_tA : s.freep ≠ (s.mem s.freep).ptr + (s.mem ((s.mem s.freep).ptr)).size - 1 := hptA
  have bp_ne_tA : daddr bs i ≠ (s.mem s.freep).ptr + (s.mem ((s.mem s.freep).ptr)).size - 1 :=
    hbptA
  have tC_ne_tA : tailC bs i ≠ (s.mem s.freep).ptr + (s.mem ((s.mem s.freep).ptr)).size - 1 :=
    htCtA
  unfold ins link_header mm_tail
  dsimp only
  rw [upd_ne _ _ _ _ hAbp]
  rw [upd_ne _ _ _ _ tAne_bp]
  rw [upd_ne _ _ _ _ p_ne_tA]
  rw [upd_ne _ _ _ _ hpbp]
  rw [upd_ne _ _ _ _ (Ne.symm hpbp)]
  rw [upd_ne _ _ _ _ bp_ne_tA]
  rw [upd_same]
  dsimp only
  rw [hsz i hi]
  rw [show daddr bs i + (KR2.blkAt bs i).size - 1 = tailC bs i from rfl]
  rw [upd_ne _ _ _ _ htCp]
  rw [upd_ne _ _ _ _ tC_ne_tA]
  rw [upd_ne _ _ _ _ htCbp]

end DLL

namespace DLL

theorem ins_facts (s : St) (bs : List KR2.Blk) (i : Nat)
    (hpos : ∀ b ∈ bs, 2 ≤ b.size) (hb0 : (s.mem base0).size = 2)
    (hsz : ∀ j, j < bs.length → (s.mem (daddr bs j)).size = (KR2.blkAt bs j).size)
    (hi : i < bs.length) (hAl : (KR2.blkAt bs i).isFree = false)
    (hpN : isNode bs s.freep) (hAN : isNode bs ((s.mem s.freep).ptr)) :
    (∀ c, ((ins s (daddr bs i)).mem c).size = (s.mem c).size) ∧
    ((ins s (daddr bs i)).mem (daddr bs i)).ptr = (s.mem s.freep).ptr ∧
    ((ins s (daddr bs i)).mem s.freep).ptr = daddr bs i ∧
    ((ins s (daddr bs i)).mem (mm_tail s ((s.mem s.freep).ptr))).ptr = daddr bs i ∧
    ((ins s (daddr bs i)).mem (tailC bs i)).ptr = s.freep ∧
    (∀ c, c ≠ daddr bs i → c ≠ s.freep → c ≠ mm_tail s ((s.mem s.freep).ptr) →
      c ≠ tailC bs i → (ins s (daddr bs i)).mem c = s.mem c) ∧
    (ins s (daddr bs i)).freep = s.freep ∧
    (ins s (daddr bs i)).heapUnits = s.heapUnits ∧
    (ins s (daddr bs i)).data = s.data := by
  have hbpn : ¬ isNode bs (daddr bs i) := head_not_node bs hpos i hi hAl
  have hAbp : (s.mem s.freep).ptr ≠ daddr bs i := fun hc => hbpn (hc ▸ hAN)
  have hpbp : s.freep ≠ daddr bs i := fun hc => hbpn (hc ▸ hpN)
  have hptA : s.freep ≠ mm_tail s ((s.mem s.freep).ptr) :=
    node_head_ne_tail s bs hpos hb0 hsz _ _ hpN hAN
  have hbptA : daddr bs i ≠ mm_tail s ((s.mem s.freep).ptr) := by
    rcases node_tail_eval s bs hb0 hsz _ hAN with ⟨he, ht⟩ | ⟨j, hj, hf, he, ht⟩
    · rw [ht]
      have := heapLo_le_daddr bs i
      unfold base1
      unfold heapLo at this
      omega
    · rw [ht]
      exact head_ne_tail bs hpos i j hi hj
  have htCp : tailC bs i ≠ s.freep := by
    rcases hpN with he | ⟨j, hj, hf, he⟩
    · rw [he]
      have h1 := size_le_tail bs hpos i hi
      have h2 := heapLo_le_daddr bs i
      unfold base0
      unfold heapLo at h2
      omega
    · rw [he]
      exact Ne.symm (head_ne_tail bs hpos j i hj hi)
  have htCtA : tailC bs i ≠ mm_tail s ((s.mem s.freep).ptr) := by
    rcases node_tail_eval s bs hb0 hsz _ hAN with ⟨he, ht⟩ | ⟨j, hj, hf, he, ht⟩
    · rw [ht]
      have h1 := size_le_tail bs hpos i hi
      have h2 := heapLo_le_daddr bs i
      unfold base1
      unfold heapLo at h2
      omega
    · rw [ht]
      refine tail_inj bs hpos i j hi hj ?_
      intro hc
      rw [hc, hf] at hAl
      exact absurd hAl (by simp)
  have htCbp : tailC bs i ≠ daddr bs i := by
    have := size_le_tail bs hpos i hi
    omega
  rw [ins_mem s bs i hpos hb0 hsz hi hAl hpN hAN]
  dsimp only
  refine ⟨?_, ?_, ?_, ?_, ?_, ?_, rfl, rfl, rfl⟩
  · intro c
    by_cases h4 : c = tailC bs i
    · subst h4
      rw [upd_same]
    · rw [upd_ne _ _ _ _ h4]
      by_cases h3 : c = s.freep
      · subst h3
        rw [upd_same]
      · rw [upd_ne _ _ _ _ h3]
        by_cases h2 : c = mm_tail s ((s.mem s.freep).ptr)
        · subst h2
          rw [upd_same]
        · rw [upd_ne _ _ _ _ h2]
          by_cases h1 : c = daddr bs i
          · subst h1
            rw [upd_same]
          · rw [upd_ne _ _ _ _ h1]
  · rw [upd_ne _ _ _ _ (Ne.symm htCbp), upd_ne _ _ _ _ (Ne.symm hpbp),
      upd_ne _ _ _ _ hbptA, upd_same]
  · rw [upd_ne _ _ _ _ (Ne.symm htCp), upd_same]
  · rw [upd_ne _ _ _ _ (Ne.symm htCtA), upd_ne _ _ _ _ (Ne.symm hptA), upd_same]
  · rw [upd_same]
  · intro c hc1 hc2 hc3 hc4
    rw [upd_ne _ _ _ _ hc4, upd_ne _ _ _ _ hc2, upd_ne _ _ _ _ hc3, upd_ne _ _ _ _ hc1]

end DLL

namespace DLL

theorem daddr_mark (bs : List KR2.Blk) (i j : Nat) (hi : i < bs.length) :
    daddr (KR2.surgery bs i (i + 1)) j = daddr bs j := by
  unfold daddr
  rw [KR2.addr_mark bs i j hi]

theorem tailC_mark (bs : List KR2.Blk) (i j : Nat) (hi : i < bs.length) :
    tailC (KR2.surgery bs i (i + 1)) j = tailC bs j := by
  unfold tailC
  rw [daddr_mark bs i j hi]
  by_cases hij : j = i
  · subst hij
    rw [KR2.blkAt_surgery_lo bs j (j + 1) (by omega), KR2.spanSize_single bs j hi]
  · rw [KR2.blkAt_mark_ne bs i j hi hij]

theorem spanSize_lower (bs : List KR2.Blk) (lo hi : Nat) (h1 : lo < hi) (h2 : hi ≤ bs.length) :
    (KR2.blkAt bs lo).size ≤ KR2.spanSize bs lo hi := by
  have e1 := KR2.spanSize_eq bs lo hi (by omega)
  have e2 := KR2.sizesSum_take_succ bs lo (by omega)
  have e3 := KR2.addr_mono bs (lo + 1) hi h1
  unfold KR2.addr at e3
  omega

theorem surgery_sizes2 (bs : List KR2.Blk) (lo hi : Nat) (hpos : ∀ b ∈ bs, 2 ≤ b.size)
    (h1 : lo < hi) (h2 : hi ≤ bs.length) :
    ∀ b ∈ KR2.surgery bs lo hi, 2 ≤ b.size := by
  intro b hb
  unfold KR2.surgery at hb
  rcases List.mem_append.mp hb with hb1 | hb2
  · rcases List.mem_append.mp hb1 with hb3 | hb4
    · exact hpos b (List.mem_of_mem_take hb3)
    · have hb5 : b = { size := KR2.spanSize bs lo hi, isFree := true } := List.mem_singleton.mp hb4
      subst hb5
      have h3 := spanSize_lower bs lo hi h1 h2
      have h4 := hpos _ (KR2.blkAt_mem bs lo (by omega))
      dsimp only
      omega
  · exact hpos b (List.mem_of_mem_drop hb2)

theorem isNode_mark (bs : List KR2.Blk) (hpos : ∀ b ∈ bs, 2 ≤ b.size) (i : Nat)
    (hi : i < bs.length) (hAl : (KR2.blkAt bs i).isFree = false) (a : Nat) :
    isNode (KR2.surgery bs i (i + 1)) a ↔ (isNode bs a ∨ a = daddr bs i) := by
  have hlen : (KR2.surgery bs i (i + 1)).length = bs.length := by
    rw [KR2.surgery_length bs i (i + 1) (by omega) (by omega)]
    omega
  constructor
  · intro h
    rcases h with rfl | ⟨j, hj, hf, he⟩
    · exact Or.inl (Or.inl rfl)
    · rw [hlen] at hj
      rw [daddr_mark bs i j hi] at he
      by_cases hij : j = i
      · subst hij
        exact Or.inr he
      · rw [KR2.blkAt_mark_ne bs i j hi hij] at hf
        exact Or.inl (Or.inr ⟨j, hj, hf, he⟩)
  · intro h
    rcases h with (rfl | ⟨j, hj, hf, he⟩) | he
    · exact Or.inl rfl
    · have hij : j ≠ i := by
        intro hc
        rw [hc, hAl] at hf
        exact absurd hf (by simp)
      refine Or.inr ⟨j, by omega, ?_, ?_⟩
      · rw [KR2.blkAt_mark_ne bs i j hi hij]
        exact hf
      · rw [daddr_mark bs i j hi]
        exact he
    · refine Or.inr ⟨i, by omega, ?_, ?_⟩
      · rw [KR2.blkAt_surgery_lo bs i (i + 1) (by omega)]
      · rw [daddr_mark bs i i hi]
        exact he

end DLL

namespace DLL

theorem ins_DRep (s : St) (bs : List KR2.Blk) (i : Nat) (hR : DRep s bs)
    (hi : i < bs.length) (hAl : (KR2.blkAt bs i).isFree = false) :
    DRep (ins s (daddr bs i)) (KR2.surgery bs i (i + 1)) ∧
    (ins s (daddr bs i)).freep = s.freep ∧
    (ins s (daddr bs i)).heapUnits = s.heapUnits ∧
    (ins s (daddr bs i)).data = s.data := by
  obtain ⟨hpos, hheap, hb0, hsz, halloc, hN1, hN2, hinv, hfp⟩ := hR
  have hAN : isNode bs ((s.mem s.freep).ptr) := hN1 s.freep hfp
  obtain ⟨hszs, hbpP, hpP, htAP, htCP, hoth, hfrE, hhuE, hdaE⟩ :=
    ins_facts s bs i hpos hb0 hsz hi hAl hfp hAN
  have hbpn : ¬ isNode bs (daddr bs i) := head_not_node bs hpos i hi hAl
  have hpbp' : daddr bs i ≠ s.freep := fun hc => hbpn (hc ▸ hfp)
  have hlen : (KR2.surgery bs i (i + 1)).length = bs.length := by
    rw [KR2.surgery_length bs i (i + 1) (by omega) (by omega)]
    omega
  have hpos2 : ∀ b ∈ KR2.surgery bs i (i + 1), 2 ≤ b.size :=
    surgery_sizes2 bs i (i + 1) hpos (by omega) (by omega)
  have hnode_ne_tailC : ∀ x, isNode bs x → ∀ j, j < bs.length → x ≠ tailC bs j := by
    intro x hx j hj
    rcases hx with rfl | ⟨k, hk, hkf, rfl⟩
    · have h1 := size_le_tail bs hpos j hj
      have h2 := heapLo_le_daddr bs j
      unfold base0
      unfold heapLo at h2
      omega
    · exact head_ne_tail bs hpos k j hk hj
  have hhead_ne_tail2 : ∀ j, j < bs.length → ∀ x, isNode bs x → daddr bs j ≠ mm_tail s x := by
    intro j hj x hx
    rcases node_tail_eval s bs hb0 hsz x hx with ⟨he, ht⟩ | ⟨k, hk, hkf, he, ht⟩
    · rw [ht]
      have h2 := heapLo_le_daddr bs j
      unfold base1
      unfold heapLo at h2
      omega
    · rw [ht]
      exact head_ne_tail bs hpos j k hj hk
  have htailC_ne_tail : ∀ j, j < bs.length → (KR2.blkAt bs j).isFree = false → ∀ x,
      isNode bs x → tailC bs j ≠ mm_tail s x := by
    intro j hj hjAl x hx
    rcases node_tail_eval s bs hb0 hsz x hx with ⟨he, ht⟩ | ⟨k, hk, hkf, he, ht⟩
    · rw [ht]
      have h1 := size_le_tail bs hpos j hj
      have h2 := heapLo_le_daddr bs j
      unfold base1
      unfold heapLo at h2
      omega
    · rw [ht]
      refine tail_inj bs hpos j k hj hk ?_
      intro hc
      rw [hc, hkf] at hjAl
      exact absurd hjAl (by simp)
  have htail2 : ∀ x, mm_tail (ins s (daddr bs i)) x = mm_tail s x := by
    intro x
    unfold mm_tail
    rw [hszs x]
  have hnxt : ∀ x, isNode bs x → x ≠ s.freep → nxt (ins s (daddr bs i)) x = nxt s x := by
    intro x hx hxp
    unfold nxt
    rw [hoth x (fun hc => hbpn (hc ▸ hx)) hxp
      (node_head_ne_tail s bs hpos hb0 hsz x _ hx hAN) (hnode_ne_tailC x hx i hi)]
  have hprv : ∀ x, isNode bs x → x ≠ (s.mem s.freep).ptr →
      prv (ins s (daddr bs i)) x = prv s x := by
    intro x hx hxA
    unfold prv
    rw [htail2 x]
    rcases node_tail_eval s bs hb0 hsz x hx with ⟨he, ht⟩ | ⟨k, hk, hkf, he, ht⟩
    · rw [hoth (mm_tail s x)
        (Ne.symm (hhead_ne_tail2 i hi x hx))
        (Ne.symm (node_head_ne_tail s bs hpos hb0 hsz _ x hfp hx))
        (node_tail_inj s bs hpos hb0 hsz x _ hx hAN hxA)
        (Ne.symm (htailC_ne_tail i hi hAl x hx))]
    · rw [hoth (mm_tail s x)
        (Ne.symm (hhead_ne_tail2 i hi x hx))
        (Ne.symm (node_head_ne_tail s bs hpos hb0 hsz _ x hfp hx))
        (node_tail_inj s bs hpos hb0 hsz x _ hx hAN hxA)
        (Ne.symm (htailC_ne_tail i hi hAl x hx))]
  have hnxt_p : nxt (ins s (daddr bs i)) s.freep = daddr bs i := hpP
  have hnxt_bp : nxt (ins s (daddr bs i)) (daddr bs i) = (s.mem s.freep).ptr := hbpP
  have hprv_A : prv (ins s (daddr bs i)) ((s.mem s.freep).ptr) = daddr bs i := by
    unfold prv
    rw [htail2]
    exact htAP
  have hprv_bp : prv (ins s (daddr bs i)) (daddr bs i) = s.freep := by
    unfold prv
    rw [htail2,
      show mm_tail s (daddr bs i) = tailC bs i from by unfold mm_tail tailC; rw [hsz i hi]]
    exact htCP
  refine ⟨⟨hpos2, ?_, ?_, ?_, ?_, ?_, ?_, ?_, ?_⟩, hfrE, hhuE, hdaE⟩
  · rw [hhuE, KR2.surgery_sizesSum bs i (i + 1) (by omega) (by omega)]
    exact hheap
  · rw [hszs base0]
    exact hb0
  · intro j hj
    rw [hlen] at hj
    rw [daddr_mark bs i j hi, hszs (daddr bs j), hsz j hj]
    by_cases hij : j = i
    · subst hij
      rw [KR2.blkAt_surgery_lo bs j (j + 1) (by omega), KR2.spanSize_single bs j hj]
    · rw [KR2.blkAt_mark_ne bs i j hi hij]
  · intro j hj hjAl
    rw [hlen] at hj
    have hji : j ≠ i := by
      intro hc
      subst hc
      rw [KR2.blkAt_surgery_lo bs j (j + 1) (by omega)] at hjAl
      exact absurd hjAl (by simp)
    rw [KR2.blkAt_mark_ne bs i j hi hji] at hjAl
    have hjn : ¬ isNode bs (daddr bs j) := head_not_node bs hpos j hj hjAl
    rw [daddr_mark bs i j hi, tailC_mark bs i j hi]
    rw [hoth (daddr bs j) (daddr_ne bs hpos j i (by omega) (by omega) hji)
      (fun hc => hjn (hc ▸ hfp)) (hhead_ne_tail2 j hj _ hAN) (head_ne_tail bs hpos j i hj hi),
      hoth (tailC bs j) (Ne.symm (head_ne_tail bs hpos i j hi hj))
      (Ne.symm (hnode_ne_tailC s.freep hfp j hj)) (htailC_ne_tail j hj hjAl _ hAN)
      (tail_inj bs hpos j i hj hi hji)]
    exact halloc j hj hjAl
  · intro a ha
    rw [isNode_mark bs hpos i hi hAl] at ha
    rw [isNode_mark bs hpos i hi hAl]
    rcases ha with haN | rfl
    · by_cases hap : a = s.freep
      · subst hap
        rw [hnxt_p]
        exact Or.inr rfl
      · rw [hnxt a haN hap]
        exact Or.inl (hN1 a haN)
    · rw [hnxt_bp]
      exact Or.inl hAN
  · intro a ha
    rw [isNode_mark bs hpos i hi hAl] at ha
    rw [isNode_mark bs hpos i hi hAl]
    rcases ha with haN | rfl
    · by_cases haA : a = (s.mem s.freep).ptr
      · subst haA
        rw [hprv_A]
        exact Or.inr rfl
      · rw [hprv a haN haA]
        exact Or.inl (hN2 a haN)
    · rw [hprv_bp]
      exact Or.inl hfp
  · intro a b ha hb
    rw [isNode_mark bs hpos i hi hAl] at ha hb
    rcases ha with haN | rfl
    · by_cases hap : a = s.freep
      · subst hap
        rw [hnxt_p]
        rcases hb with hbN | rfl
        · have hbne : daddr bs i ≠ b := fun hc => hbpn (hc ▸ hbN)
          by_cases hbA : b = (s.mem s.freep).ptr
          · subst hbA
            rw [hprv_A]
            exact iff_of_false hbne hpbp'
          · rw [hprv b hbN hbA]
            refine iff_of_false hbne ?_
            intro hc
            have h2 := (hinv s.freep b hfp hbN).mpr hc
            exact hbA h2.symm
        · rw [hprv_bp]
          exact iff_of_true rfl rfl
      · rw [hnxt a haN hap]
        rcases hb with hbN | rfl
        · by_cases hbA : b = (s.mem s.freep).ptr
          · subst hbA
            rw [hprv_A]
            refine iff_of_false ?_ ?_
            · intro hc
              have h2 := (hinv a _ haN hAN).mp hc
              have h3 := (hinv s.freep _ hfp hAN).mp rfl
              exact hap (by rw [← h2, h3])
            · intro hc
              exact hbpn (hc ▸ haN)
          · rw [hprv b hbN hbA]
            exact hinv a b haN hbN
        · rw [hprv_bp]
          refine iff_of_false ?_ (Ne.symm hap)
          intro hc
          exact hbpn (hc ▸ hN1 a haN)
    · rw [hnxt_bp]
      rcases hb with hbN | rfl
      · by_cases hbA : b = (s.mem s.freep).ptr
        · subst hbA
          rw [hprv_A]
          exact iff_of_true rfl rfl
        · rw [hprv b hbN hbA]
          refine iff_of_false (fun hc => hbA hc.symm) ?_
          intro hc
          exact hbpn (hc ▸ hN2 b hbN)
      · rw [hprv_bp]
        exact iff_of_false (fun hc => hbpn (hc ▸ hAN)) (fun hc => hbpn (hc ▸ hfp))
  · rw [hfrE, isNode_mark bs hpos i hi hAl]
    exact Or.inl hfp

end DLL

namespace DLL

theorem upd_keep_size (m : Nat → Hdr) (a p c : Nat) :
    ((upd m a { m a with ptr := p }) c).size = (m c).size := by
  by_cases h : c = a
  · subst h
    rw [upd_same]
  · rw [upd_ne _ _ _ _ h]

theorem upd_ptrv_size (m : Nat → Hdr) (a : Nat) (v : Hdr) (c : Nat)
    (hv : v.size = (m a).size) :
    ((upd m a v) c).size = (m c).size := by
  by_cases h : c = a
  · subst h
    rw [upd_same, hv]
  · rw [upd_ne _ _ _ _ h]

theorem upd_upd_same {α : Type} (m : Nat → α) (a : Nat) (v w : α) :
    upd (upd m a v) a w = upd m a w := by
  funext c
  by_cases h : c = a
  · subst h
    rw [upd_same, upd_same]
  · rw [upd_ne _ _ _ _ h, upd_ne _ _ _ _ h, upd_ne _ _ _ _ h]

theorem tailU_eval (s : St) (bs : List KR2.Blk) (j : Nat)
    (hsz : ∀ k, k < bs.length → (s.mem (daddr bs k)).size = (KR2.blkAt bs k).size)
    (hj : j < bs.length) :
    mm_tail s (daddr bs j) = tailC bs j := by
  unfold mm_tail tailC
  rw [hsz j hj]


theorem tail_same_size (s2 : St) (b z : Nat) (h : (s2.mem b).size = z) :
    mm_tail s2 b = b + z - 1 := by
  unfold mm_tail
  rw [h]

theorem unlink_mem (s : St) (bs : List KR2.Blk) (j : Nat)
    (hpos : ∀ b ∈ bs, 2 ≤ b.size) (hb0 : (s.mem base0).size = 2)
    (hsz : ∀ k, k < bs.length → (s.mem (daddr bs k)).size = (KR2.blkAt bs k).size)
    (hj : j + 1 < bs.length)
    (hQN : isNode bs ((s.mem (tailC bs (j + 1))).ptr))
    (hRN : isNode bs ((s.mem (daddr bs (j + 1))).ptr)) :
    unlink_header s (daddr bs (j + 1)) = { s with mem :=
      (upd (upd s.mem
        ((s.mem (tailC bs (j + 1))).ptr)
          { s.mem ((s.mem (tailC bs (j + 1))).ptr) with ptr := (s.mem (daddr bs (j + 1))).ptr })
        (mm_tail s ((s.mem (daddr bs (j + 1))).ptr))
          { s.mem (mm_tail s ((s.mem (daddr bs (j + 1))).ptr)) with
              ptr := (s.mem (tailC bs (j + 1))).ptr }) } := by
  have hTQ : mm_tail s ((s.mem (daddr bs (j + 1))).ptr) ≠ (s.mem (tailC bs (j + 1))).ptr :=
    Ne.symm (node_head_ne_tail s bs hpos hb0 hsz _ _ hQN hRN)
  unfold unlink_header link_header
  rw [tailU_eval s bs (j + 1) hsz hj]
  dsimp only
  rw [show mm_tail { s with mem :=
      (upd s.mem ((s.mem (tailC bs (j + 1))).ptr)
        { s.mem ((s.mem (tailC bs (j + 1))).ptr) with ptr := (s.mem (daddr bs (j + 1))).ptr }) }
      ((s.mem (daddr bs (j + 1))).ptr) = mm_tail s ((s.mem (daddr bs (j + 1))).ptr) from by
    unfold mm_tail
    dsimp only
    rw [upd_keep_size]]
  rw [upd_ne _ _ _ _ hTQ]

end DLL

namespace DLL

/-- Memory after `unlink_header` bridged free-list neighbors `q` and `r`
around the unlinked block. -/
def unlinkedMem (s : St) (q r : Nat) : Nat → Hdr :=
  upd (upd s.mem q { s.mem q with ptr := r }) (mm_tail s r) { s.mem (mm_tail s r) with ptr := q }

theorem coalesce_mem (s : St) (bs : List KR2.Blk) (j q r : Nat)
    (hpos : ∀ b ∈ bs, 2 ≤ b.size) (hb0 : (s.mem base0).size = 2)
    (hsz : ∀ k, k < bs.length → (s.mem (daddr bs k)).size = (KR2.blkAt bs k).size)
    (hj : j + 1 < bs.length)
    (hq : (s.mem (tailC bs (j + 1))).ptr = q) (hr : (s.mem (daddr bs (j + 1))).ptr = r)
    (hQN : isNode bs q) (hRN : isNode bs r) :
    coalesce s (daddr bs j) (daddr bs (j + 1)) = { s with mem :=
      (upd (upd (unlinkedMem s q r) (daddr bs j)
          { unlinkedMem s q r (daddr bs j) with
              size := (KR2.blkAt bs j).size + (KR2.blkAt bs (j + 1)).size })
        (tailC bs (j + 1))
          { ptr := (unlinkedMem s q r (tailC bs j)).ptr,
            size := (KR2.blkAt bs j).size + (KR2.blkAt bs (j + 1)).size }) } := by
  subst hq hr
  have hLtU : daddr bs j ≠ tailC bs (j + 1) := head_ne_tail bs hpos j (j + 1) (by omega) hj
  have hunl := unlink_mem s bs j hpos hb0 hsz hj hQN hRN
  unfold coalesce
  rw [hunl]
  unfold unlinkedMem
  dsimp only
  rw [show mm_tail { s with mem :=
      (upd (upd s.mem ((s.mem (tailC bs (j + 1))).ptr)
        { s.mem ((s.mem (tailC bs (j + 1))).ptr) with ptr := (s.mem (daddr bs (j + 1))).ptr })
        (mm_tail s ((s.mem (daddr bs (j + 1))).ptr))
        { s.mem (mm_tail s ((s.mem (daddr bs (j + 1))).ptr)) with
            ptr := (s.mem (tailC bs (j + 1))).ptr }) } (daddr bs j) = tailC bs j from by
    unfold mm_tail
    dsimp only
    rw [upd_ptrv_size _ _ _ _ (by rw [upd_keep_size]), upd_keep_size, hsz j (by omega)]
    rfl]
  rw [show ((upd (upd s.mem ((s.mem (tailC bs (j + 1))).ptr)
      { s.mem ((s.mem (tailC bs (j + 1))).ptr) with ptr := (s.mem (daddr bs (j + 1))).ptr })
      (mm_tail s ((s.mem (daddr bs (j + 1))).ptr))
      { s.mem (mm_tail s ((s.mem (daddr bs (j + 1))).ptr)) with
          ptr := (s.mem (tailC bs (j + 1))).ptr }) (daddr bs j)).size
      = (KR2.blkAt bs j).size from by
    rw [upd_ptrv_size _ _ _ _ (by rw [upd_keep_size]), upd_keep_size, hsz j (by omega)]]
  rw [show ((upd (upd s.mem ((s.mem (tailC bs (j + 1))).ptr)
      { s.mem ((s.mem (tailC bs (j + 1))).ptr) with ptr := (s.mem (daddr bs (j + 1))).ptr })
      (mm_tail s ((s.mem (daddr bs (j + 1))).ptr))
      { s.mem (mm_tail s ((s.mem (daddr bs (j + 1))).ptr)) with
          ptr := (s.mem (tailC bs (j + 1))).ptr }) (daddr bs (j + 1))).size
      = (KR2.blkAt bs (j + 1)).size from by
    rw [upd_ptrv_size _ _ _ _ (by rw [upd_keep_size]), upd_keep_size, hsz (j + 1) hj]]
  rw [upd_same]
  dsimp only
  rw [tail_same_size _ (daddr bs j) ((KR2.blkAt bs j).size + (KR2.blkAt bs (j + 1)).size)
    (by dsimp only; rw [upd_same])]
  rw [show daddr bs j + ((KR2.blkAt bs j).size + (KR2.blkAt bs (j + 1)).size) - 1
      = tailC bs (j + 1) from by
    unfold tailC
    rw [daddr_succ bs j (by omega)]
    omega]
  rw [tail_same_size _ (daddr bs j) ((KR2.blkAt bs j).size + (KR2.blkAt bs (j + 1)).size)
    (by dsimp only; rw [upd_ne _ _ _ _ hLtU, upd_same])]
  rw [show daddr bs j + ((KR2.blkAt bs j).size + (KR2.blkAt bs (j + 1)).size) - 1
      = tailC bs (j + 1) from by
    unfold tailC
    rw [daddr_succ bs j (by omega)]
    omega]
  rw [upd_ne _ _ _ _ (Ne.symm hLtU), upd_same]
  dsimp only
  rw [upd_upd_same]

end DLL

namespace DLL

theorem daddr_surgery_le (bs : List KR2.Blk) (lo hi k : Nat) (hk : k ≤ lo)
    (hlo : lo ≤ bs.length) : daddr (KR2.surgery bs lo hi) k = daddr bs k := by
  unfold daddr
  rw [KR2.addr_surgery_le bs lo hi k hk hlo]

theorem daddr_surgery_shift (bs : List KR2.Blk) (lo hi k : Nat) (h1 : lo ≤ hi)
    (hlo : lo ≤ bs.length) :
    daddr (KR2.surgery bs lo hi) (lo + 1 + k) = daddr bs (hi + k) := by
  unfold daddr
  rw [KR2.addr_surgery_shift bs lo hi k h1 hlo]

theorem merge_len (bs : List KR2.Blk) (j : Nat) (hj : j + 1 < bs.length) :
    (KR2.surgery bs j (j + 2)).length = bs.length - 1 := by
  rw [KR2.surgery_length bs j (j + 2) (by omega) (by omega)]
  omega

theorem blkAt_merge_lo (bs : List KR2.Blk) (j : Nat) (hj : j + 1 < bs.length) :
    KR2.blkAt (KR2.surgery bs j (j + 2)) j =
      { size := (KR2.blkAt bs j).size + (KR2.blkAt bs (j + 1)).size, isFree := true } := by
  rw [KR2.blkAt_surgery_lo bs j (j + 2) (by omega), KR2.spanSize_pair bs j hj]

theorem tailC_merge (bs : List KR2.Blk) (j k : Nat) (hj : j + 1 < bs.length) :
    tailC (KR2.surgery bs j (j + 2)) k =
      (if k < j then tailC bs k
       else if k = j then tailC bs (j + 1)
       else tailC bs (k + 1)) := by
  rcases Nat.lt_trichotomy k j with hk | hk | hk
  · rw [if_pos hk]
    unfold tailC
    rw [daddr_surgery_le bs j (j + 2) k (by omega) (by omega),
      KR2.blkAt_surgery_lt bs j (j + 2) k hk (by omega)]
  · subst hk
    rw [if_neg (by omega), if_pos rfl]
    unfold tailC
    rw [daddr_surgery_le bs k (k + 2) k (by omega) (by omega), blkAt_merge_lo bs k hj]
    dsimp only
    rw [daddr_succ bs k (by omega)]
    omega
  · rw [if_neg (by omega), if_neg (by omega)]
    unfold tailC
    have h1 := daddr_surgery_shift bs j (j + 2) (k - j - 1) (by omega) (by omega)
    rw [show j + 1 + (k - j - 1) = k from by omega,
      show j + 2 + (k - j - 1) = k + 1 from by omega] at h1
    have h2 := KR2.blkAt_surgery_shift bs j (j + 2) (k - j - 1) (by omega)
    rw [show j + 1 + (k - j - 1) = k from by omega,
      show j + 2 + (k - j - 1) = k + 1 from by omega] at h2
    rw [h1, h2]

theorem isNode_merge (bs : List KR2.Blk) (hpos : ∀ b ∈ bs, 2 ≤ b.size) (j : Nat)
    (hj : j + 1 < bs.length) (hjF : (KR2.blkAt bs j).isFree = true) (a : Nat) :
    isNode (KR2.surgery bs j (j + 2)) a ↔ (isNode bs a ∧ a ≠ daddr bs (j + 1)) := by
  constructor
  · intro h
    rcases h with rfl | ⟨k, hk, hf, he⟩
    · refine ⟨Or.inl rfl, ?_⟩
      have := heapLo_le_daddr bs (j + 1)
      unfold base0
      unfold heapLo at this
      omega
    · rw [merge_len bs j hj] at hk
      rcases Nat.lt_trichotomy k j with hkj | hkj | hkj
      · rw [KR2.blkAt_surgery_lt bs j (j + 2) k hkj (by omega)] at hf
        rw [daddr_surgery_le bs j (j + 2) k (by omega) (by omega)] at he
        exact ⟨Or.inr ⟨k, by omega, hf, he⟩,
          he ▸ daddr_ne bs hpos k (j + 1) (by omega) (by omega) (by omega)⟩
      · subst hkj
        rw [daddr_surgery_le bs k (k + 2) k (by omega) (by omega)] at he
        exact ⟨Or.inr ⟨k, by omega, hjF, he⟩,
          he ▸ daddr_ne bs hpos k (k + 1) (by omega) (by omega) (by omega)⟩
      · have h2 := KR2.blkAt_surgery_shift bs j (j + 2) (k - j - 1) (by omega)
        rw [show j + 1 + (k - j - 1) = k from by omega,
          show j + 2 + (k - j - 1) = k + 1 from by omega] at h2
        have h1 := daddr_surgery_shift bs j (j + 2) (k - j - 1) (by omega) (by omega)
        rw [show j + 1 + (k - j - 1) = k from by omega,
          show j + 2 + (k - j - 1) = k + 1 from by omega] at h1
        rw [h2] at hf
        rw [h1] at he
        exact ⟨Or.inr ⟨k + 1, by omega, hf, he⟩,
          he ▸ daddr_ne bs hpos (k + 1) (j + 1) (by omega) (by omega) (by omega)⟩
  · intro ⟨h, hU⟩
    rcases h with rfl | ⟨k, hk, hf, he⟩
    · exact Or.inl rfl
    · rcases Nat.lt_trichotomy k j with hkj | hkj | hkj
      · refine Or.inr ⟨k, ?_, ?_, ?_⟩
        · rw [merge_len bs j hj]
          omega
        · rw [KR2.blkAt_surgery_lt bs j (j + 2) k hkj (by omega)]
          exact hf
        · rw [daddr_surgery_le bs j (j + 2) k (by omega) (by omega)]
          exact he
      · subst hkj
        refine Or.inr ⟨k, ?_, ?_, ?_⟩
        · rw [merge_len bs k hj]
          omega
        · rw [blkAt_merge_lo bs k hj]
        · rw [daddr_surgery_le bs k (k + 2) k (by omega) (by omega)]
          exact he
      · have hk1 : k ≠ j + 1 := by
          intro hc
          exact hU (by rw [← hc]; exact he)
        refine Or.inr ⟨k - 1, ?_, ?_, ?_⟩
        · rw [merge_len bs j hj]
          omega
        · have h2 := KR2.blkAt_surgery_shift bs j (j + 2) (k - j - 2) (by omega)
          rw [show j + 1 + (k - j - 2) = k - 1 from by omega,
            show j + 2 + (k - j - 2) = k from by omega] at h2
          rw [h2]
          exact hf
        · have h1 := daddr_surgery_shift bs j (j + 2) (k - j - 2) (by omega) (by omega)
          rw [show j + 1 + (k - j - 2) = k - 1 from by omega,
            show j + 2 + (k - j - 2) = k from by omega] at h1
          rw [h1]
          exact he

end DLL

namespace DLL

theorem coalesce_nxt (s : St) (bs : List KR2.Blk) (j q r : Nat)
    (hpos : ∀ b ∈ bs, 2 ≤ b.size) (hb0 : (s.mem base0).size = 2)
    (hsz : ∀ k, k < bs.length → (s.mem (daddr bs k)).size = (KR2.blkAt bs k).size)
    (hj : j + 1 < bs.length) (hjF : (KR2.blkAt bs j).isFree = true)
    (hj1F : (KR2.blkAt bs (j + 1)).isFree = true)
    (hq : (s.mem (tailC bs (j + 1))).ptr = q) (hr : (s.mem (daddr bs (j + 1))).ptr = r)
    (hQN : isNode bs q) (hRN : isNode bs r)
    (x : Nat) (hx : isNode bs x) :
    nxt (coalesce s (daddr bs j) (daddr bs (j + 1))) x = if x = q then r else nxt s x := by
  have hLN : isNode bs (daddr bs j) := Or.inr ⟨j, by omega, hjF, rfl⟩
  have hUN : isNode bs (daddr bs (j + 1)) := Or.inr ⟨j + 1, hj, hj1F, rfl⟩
  have hxtU : x ≠ tailC bs (j + 1) := by
    have h := node_head_ne_tail s bs hpos hb0 hsz x (daddr bs (j + 1)) hx hUN
    rw [tailU_eval s bs (j + 1) hsz hj] at h
    exact h
  have hqT : q ≠ mm_tail s r := node_head_ne_tail s bs hpos hb0 hsz q r hQN hRN
  unfold nxt
  rw [coalesce_mem s bs j q r hpos hb0 hsz hj hq hr hQN hRN]
  dsimp only
  rw [upd_ne _ _ _ _ hxtU]
  by_cases hxL : x = daddr bs j
  · have hLN2 : isNode bs (daddr bs j) := hLN
    subst hxL
    rw [upd_same]
    show (unlinkedMem s q r (daddr bs j)).ptr = _
    unfold unlinkedMem
    by_cases hLq : daddr bs j = q
    · rw [hLq, upd_ne _ _ _ _ hqT, upd_same, if_pos rfl]
    · rw [upd_ne _ _ _ _ (node_head_ne_tail s bs hpos hb0 hsz (daddr bs j) r hLN2 hRN),
        upd_ne _ _ _ _ hLq, if_neg hLq]
  · rw [upd_ne _ _ _ _ hxL]
    unfold unlinkedMem
    by_cases hxq : x = q
    · rw [hxq, upd_ne _ _ _ _ hqT, upd_same, if_pos rfl]
    · rw [upd_ne _ _ _ _ (node_head_ne_tail s bs hpos hb0 hsz x r hx hRN),
        upd_ne _ _ _ _ hxq, if_neg hxq]

theorem coalesce_prv (s : St) (bs : List KR2.Blk) (j q r : Nat)
    (hpos : ∀ b ∈ bs, 2 ≤ b.size) (hb0 : (s.mem base0).size = 2)
    (hsz : ∀ k, k < bs.length → (s.mem (daddr bs k)).size = (KR2.blkAt bs k).size)
    (hj : j + 1 < bs.length) (hjF : (KR2.blkAt bs j).isFree = true)
    (hj1F : (KR2.blkAt bs (j + 1)).isFree = true)
    (hq : (s.mem (tailC bs (j + 1))).ptr = q) (hr : (s.mem (daddr bs (j + 1))).ptr = r)
    (hQN : isNode bs q) (hRN : isNode bs r)
    (y : Nat) (hy : isNode bs y) (hyU : y ≠ daddr bs (j + 1)) :
    prv (coalesce s (daddr bs j) (daddr bs (j + 1))) y = if y = r then q else prv s y := by
  have hLN : isNode bs (daddr bs j) := Or.inr ⟨j, by omega, hjF, rfl⟩
  have hUN : isNode bs (daddr bs (j + 1)) := Or.inr ⟨j + 1, hj, hj1F, rfl⟩
  have hytU : y ≠ tailC bs (j + 1) := by
    have h := node_head_ne_tail s bs hpos hb0 hsz y (daddr bs (j + 1)) hy hUN
    rw [tailU_eval s bs (j + 1) hsz hj] at h
    exact h
  have hqT : q ≠ mm_tail s r := node_head_ne_tail s bs hpos hb0 hsz q r hQN hRN
  have hLtU : daddr bs j ≠ tailC bs (j + 1) := head_ne_tail bs hpos j (j + 1) (by omega) hj
  unfold prv
  rw [coalesce_mem s bs j q r hpos hb0 hsz hj hq hr hQN hRN]
  dsimp only
  by_cases hyL : y = daddr bs j
  · subst hyL
    rw [tail_same_size _ (daddr bs j) ((KR2.blkAt bs j).size + (KR2.blkAt bs (j + 1)).size)
      (by dsimp only
          rw [upd_ne _ _ _ _ hLtU, upd_same])]
    rw [show daddr bs j + ((KR2.blkAt bs j).size + (KR2.blkAt bs (j + 1)).size) - 1
        = tailC bs (j + 1) from by
      unfold tailC
      rw [daddr_succ bs j (by omega)]
      omega]
    rw [upd_same]
    show (unlinkedMem s q r (tailC bs j)).ptr = _
    unfold unlinkedMem
    by_cases hrL : r = daddr bs j
    · have hTtL : mm_tail s r = tailC bs j := by
        rw [hrL]
        exact tailU_eval s bs j hsz (by omega)
      rw [← hTtL, upd_same]
      rw [if_pos hrL.symm]
    · have hTtL : tailC bs j ≠ mm_tail s r := by
        have h := node_tail_inj s bs hpos hb0 hsz r (daddr bs j) hRN hLN hrL
        rw [tailU_eval s bs j hsz (by omega)] at h
        exact Ne.symm h
      have htLq : tailC bs j ≠ q := by
        have h := node_head_ne_tail s bs hpos hb0 hsz q (daddr bs j) hQN hLN
        rw [tailU_eval s bs j hsz (by omega)] at h
        exact Ne.symm h
      rw [upd_ne _ _ _ _ hTtL, upd_ne _ _ _ _ htLq, if_neg (fun hc => hrL hc.symm),
        tailU_eval s bs j hsz (by omega)]
  · rw [tail_same_size _ y ((s.mem y).size)
      (by dsimp only
          rw [upd_ne _ _ _ _ hytU, upd_ne _ _ _ _ hyL]
          unfold unlinkedMem
          rw [upd_ptrv_size _ _ _ _ (by rw [upd_keep_size]), upd_keep_size])]
    have hty : y + (s.mem y).size - 1 = mm_tail s y := rfl
    rw [hty]
    have htytU : mm_tail s y ≠ tailC bs (j + 1) := by
      have h := node_tail_inj s bs hpos hb0 hsz y (daddr bs (j + 1)) hy hUN hyU
      rw [tailU_eval s bs (j + 1) hsz hj] at h
      exact h
    have htyL : mm_tail s y ≠ daddr bs j :=
      Ne.symm (node_head_ne_tail s bs hpos hb0 hsz (daddr bs j) y hLN hy)
    rw [upd_ne _ _ _ _ htytU, upd_ne _ _ _ _ htyL]
    unfold unlinkedMem
    by_cases hyr : y = r
    · subst hyr
      rw [upd_same, if_pos rfl]
    · rw [upd_ne _ _ _ _ (node_tail_inj s bs hpos hb0 hsz y r hy hRN hyr),
        upd_ne _ _ _ _ (Ne.symm (node_head_ne_tail s bs hpos hb0 hsz q y hQN hy)),
        if_neg hyr]

end DLL

namespace DLL

theorem coalesce_size (s : St) (bs : List KR2.Blk) (j q r : Nat)
    (hpos : ∀ b ∈ bs, 2 ≤ b.size) (hb0 : (s.mem base0).size = 2)
    (hsz : ∀ k, k < bs.length → (s.mem (daddr bs k)).size = (KR2.blkAt bs k).size)
    (hj : j + 1 < bs.length)
    (hq : (s.mem (tailC bs (j + 1))).ptr = q) (hr : (s.mem (daddr bs (j + 1))).ptr = r)
    (hQN : isNode bs q) (hRN : isNode bs r) (c : Nat) (hc1 : c ≠ daddr bs j)
    (hc2 : c ≠ tailC bs (j + 1)) :
    ((coalesce s (daddr bs j) (daddr bs (j + 1))).mem c).size = (s.mem c).size := by
  rw [coalesce_mem s bs j q r hpos hb0 hsz hj hq hr hQN hRN]
  dsimp only
  rw [upd_ne _ _ _ _ hc2, upd_ne _ _ _ _ hc1]
  unfold unlinkedMem
  rw [upd_ptrv_size _ _ _ _ (by rw [upd_keep_size]), upd_keep_size]

theorem coalesce_size_L (s : St) (bs : List KR2.Blk) (j q r : Nat)
    (hpos : ∀ b ∈ bs, 2 ≤ b.size) (hb0 : (s.mem base0).size = 2)
    (hsz : ∀ k, k < bs.length → (s.mem (daddr bs k)).size = (KR2.blkAt bs k).size)
    (hj : j + 1 < bs.length)
    (hq : (s.mem (tailC bs (j + 1))).ptr = q) (hr : (s.mem (daddr bs (j + 1))).ptr = r)
    (hQN : isNode bs q) (hRN : isNode bs r) :
    ((coalesce s (daddr bs j) (daddr bs (j + 1))).mem (daddr bs j)).size =
      (KR2.blkAt bs j).size + (KR2.blkAt bs (j + 1)).size := by
  have hLtU : daddr bs j ≠ tailC bs (j + 1) := head_ne_tail bs hpos j (j + 1) (by omega) hj
  rw [coalesce_mem s bs j q r hpos hb0 hsz hj hq hr hQN hRN]
  dsimp only
  rw [upd_ne _ _ _ _ hLtU, upd_same]

theorem coalesce_untouched (s : St) (bs : List KR2.Blk) (j q r : Nat)
    (hpos : ∀ b ∈ bs, 2 ≤ b.size) (hb0 : (s.mem base0).size = 2)
    (hsz : ∀ k, k < bs.length → (s.mem (daddr bs k)).size = (KR2.blkAt bs k).size)
    (hj : j + 1 < bs.length)
    (hq : (s.mem (tailC bs (j + 1))).ptr = q) (hr : (s.mem (daddr bs (j + 1))).ptr = r)
    (hQN : isNode bs q) (hRN : isNode bs r) (c : Nat) (hc1 : c ≠ q) (hc2 : c ≠ mm_tail s r)
    (hc3 : c ≠ daddr bs j) (hc4 : c ≠ tailC bs (j + 1)) :
    (coalesce s (daddr bs j) (daddr bs (j + 1))).mem c = s.mem c := by
  rw [coalesce_mem s bs j q r hpos hb0 hsz hj hq hr hQN hRN]
  dsimp only
  rw [upd_ne _ _ _ _ hc4, upd_ne _ _ _ _ hc3]
  unfold unlinkedMem
  rw [upd_ne _ _ _ _ hc2, upd_ne _ _ _ _ hc1]

theorem coalesce_frames (s : St) (bs : List KR2.Blk) (j q r : Nat)
    (hpos : ∀ b ∈ bs, 2 ≤ b.size) (hb0 : (s.mem base0).size = 2)
    (hsz : ∀ k, k < bs.length → (s.mem (daddr bs k)).size = (KR2.blkAt bs k).size)
    (hj : j + 1 < bs.length)
    (hq : (s.mem (tailC bs (j + 1))).ptr = q) (hr : (s.mem (daddr bs (j + 1))).ptr = r)
    (hQN : isNode bs q) (hRN : isNode bs r) :
    (coalesce s (daddr bs j) (daddr bs (j + 1))).freep = s.freep ∧
    (coalesce s (daddr bs j) (daddr bs (j + 1))).heapUnits = s.heapUnits ∧
    (coalesce s (daddr bs j) (daddr bs (j + 1))).data = s.data ∧
    (coalesce s (daddr bs j) (daddr bs (j + 1))).capacity = s.capacity ∧
    (coalesce s (daddr bs j) (daddr bs (j + 1))).errno = s.errno := by
  rw [coalesce_mem s bs j q r hpos hb0 hsz hj hq hr hQN hRN]
  exact ⟨rfl, rfl, rfl, rfl, rfl⟩

end DLL

namespace DLL


theorem nxt_set_freep (t : St) (v a : Nat) : nxt { t with freep := v } a = nxt t a := rfl

theorem prv_set_freep (t : St) (v a : Nat) : prv { t with freep := v } a = prv t a := rfl

theorem freep_set_freep (t : St) (v : Nat) : ({ t with freep := v } : St).freep = v := rfl

theorem coalesce_DRep (s : St) (bs : List KR2.Blk) (j : Nat) (hR : DRep s bs)
    (hj : j + 1 < bs.length) (hjF : (KR2.blkAt bs j).isFree = true)
    (hj1F : (KR2.blkAt bs (j + 1)).isFree = true) :
    DRep { coalesce s (daddr bs j) (daddr bs (j + 1)) with freep :=
        ((coalesce s (daddr bs j) (daddr bs (j + 1))).mem
          (mm_tail (coalesce s (daddr bs j) (daddr bs (j + 1))) (daddr bs j))).ptr }
      (KR2.surgery bs j (j + 2)) ∧
    (coalesce s (daddr bs j) (daddr bs (j + 1))).heapUnits = s.heapUnits ∧
    (coalesce s (daddr bs j) (daddr bs (j + 1))).data = s.data := by
  obtain ⟨hpos, hheap, hb0, hsz, halloc, hN1, hN2, hinv, hfp⟩ := hR
  have hLN : isNode bs (daddr bs j) := Or.inr ⟨j, by omega, hjF, rfl⟩
  have hUN : isNode bs (daddr bs (j + 1)) := Or.inr ⟨j + 1, hj, hj1F, rfl⟩
  have hQN : isNode bs ((s.mem (tailC bs (j + 1))).ptr) := by
    have h := hN2 (daddr bs (j + 1)) hUN
    unfold prv at h
    rw [tailU_eval s bs (j + 1) hsz hj] at h
    exact h
  have hRN : isNode bs ((s.mem (daddr bs (j + 1))).ptr) := hN1 (daddr bs (j + 1)) hUN
  have hLU : daddr bs j ≠ daddr bs (j + 1) :=
    daddr_ne bs hpos j (j + 1) (by omega) (by omega) (by omega)
  have hprvU : prv s (daddr bs (j + 1)) = (s.mem (tailC bs (j + 1))).ptr := by
    unfold prv
    rw [tailU_eval s bs (j + 1) hsz hj]
  have hqU : nxt s ((s.mem (tailC bs (j + 1))).ptr) = daddr bs (j + 1) :=
    (hinv _ _ hQN hUN).mpr hprvU
  have hrU : prv s ((s.mem (daddr bs (j + 1))).ptr) = daddr bs (j + 1) :=
    (hinv _ _ hUN hRN).mp rfl
  have hmN := fun x hx => coalesce_nxt s bs j _ _ hpos hb0 hsz hj hjF hj1F rfl rfl hQN hRN x hx
  have hmP := fun y hy hyU =>
    coalesce_prv s bs j _ _ hpos hb0 hsz hj hjF hj1F rfl rfl hQN hRN y hy hyU
  have hframes := coalesce_frames s bs j _ _ hpos hb0 hsz hj rfl rfl hQN hRN
  have hlen' : (KR2.surgery bs j (j + 2)).length = bs.length - 1 := merge_len bs j hj
  have hnode_ne_tailC : ∀ x, isNode bs x → ∀ k, k < bs.length → x ≠ tailC bs k := by
    intro x hx k hk
    rcases hx with rfl | ⟨m, hm, hmf, rfl⟩
    · have h1 := size_le_tail bs hpos k hk
      have h2 := heapLo_le_daddr bs k
      unfold base0
      unfold heapLo at h2
      omega
    · exact head_ne_tail bs hpos m k hm hk
  have hhead_ne_tail2 : ∀ k, k < bs.length → ∀ x, isNode bs x → daddr bs k ≠ mm_tail s x := by
    intro k hk x hx
    rcases node_tail_eval s bs hb0 hsz x hx with ⟨he, ht⟩ | ⟨m, hm, hmf, he, ht⟩
    · rw [ht]
      have h2 := heapLo_le_daddr bs k
      unfold base1
      unfold heapLo at h2
      omega
    · rw [ht]
      exact head_ne_tail bs hpos k m hk hm
  have htailC_ne_tail : ∀ k, k < bs.length → (KR2.blkAt bs k).isFree = false → ∀ x,
      isNode bs x → tailC bs k ≠ mm_tail s x := by
    intro k hk hkAl x hx
    rcases node_tail_eval s bs hb0 hsz x hx with ⟨he, ht⟩ | ⟨m, hm, hmf, he, ht⟩
    · rw [ht]
      have h1 := size_le_tail bs hpos k hk
      have h2 := heapLo_le_daddr bs k
      unfold base1
      unfold heapLo at h2
      omega
    · rw [ht]
      refine tail_inj bs hpos k m hk hm ?_
      intro hc
      rw [hc, hmf] at hkAl
      exact absurd hkAl (by simp)
  refine ⟨⟨surgery_sizes2 bs j (j + 2) hpos (by omega) (by omega), ?_, ?_, ?_, ?_, ?_, ?_,
    ?_, ?_⟩, hframes.2.1, hframes.2.2.1⟩
  · show (coalesce s (daddr bs j) (daddr bs (j + 1))).heapUnits = _
    rw [hframes.2.1, KR2.surgery_sizesSum bs j (j + 2) (by omega) (by omega)]
    exact hheap
  · show ((coalesce s (daddr bs j) (daddr bs (j + 1))).mem base0).size = 2
    rw [coalesce_size s bs j _ _ hpos hb0 hsz hj rfl rfl hQN hRN base0
      (by
        have := heapLo_le_daddr bs j
        unfold base0
        unfold heapLo at this
        omega)
      (by
        have h1 := size_le_tail bs hpos (j + 1) hj
        have h2 := heapLo_le_daddr bs (j + 1)
        unfold base0
        unfold heapLo at h2
        omega)]
    exact hb0
  · intro k hk
    rw [hlen'] at hk
    show ((coalesce s (daddr bs j) (daddr bs (j + 1))).mem
      (daddr (KR2.surgery bs j (j + 2)) k)).size = _
    rcases Nat.lt_trichotomy k j with hkj | hkj | hkj
    · rw [daddr_surgery_le bs j (j + 2) k (by omega) (by omega),
        KR2.blkAt_surgery_lt bs j (j + 2) k hkj (by omega),
        coalesce_size s bs j _ _ hpos hb0 hsz hj rfl rfl hQN hRN (daddr bs k)
          (daddr_ne bs hpos k j (by omega) (by omega) (by omega))
          (head_ne_tail bs hpos k (j + 1) (by omega) hj)]
      exact hsz k (by omega)
    · subst hkj
      rw [daddr_surgery_le bs k (k + 2) k (by omega) (by omega), blkAt_merge_lo bs k hj,
        coalesce_size_L s bs k _ _ hpos hb0 hsz hj rfl rfl hQN hRN]
    · have h1 := daddr_surgery_shift bs j (j + 2) (k - j - 1) (by omega) (by omega)
      rw [show j + 1 + (k - j - 1) = k from by omega,
        show j + 2 + (k - j - 1) = k + 1 from by omega] at h1
      have h2 := KR2.blkAt_surgery_shift bs j (j + 2) (k - j - 1) (by omega)
      rw [show j + 1 + (k - j - 1) = k from by omega,
        show j + 2 + (k - j - 1) = k + 1 from by omega] at h2
      rw [h1, h2,
        coalesce_size s bs j _ _ hpos hb0 hsz hj rfl rfl hQN hRN (daddr bs (k + 1))
          (daddr_ne bs hpos (k + 1) j (by omega) (by omega) (by omega))
          (head_ne_tail bs hpos (k + 1) (j + 1) (by omega) hj)]
      exact hsz (k + 1) (by omega)
  · intro k hk hkAl
    rw [hlen'] at hk
    have hmain : ∀ m, m < bs.length → (KR2.blkAt bs m).isFree = false →
        ((coalesce s (daddr bs j) (daddr bs (j + 1))).mem (daddr bs m)).ptr = 0 ∧
        ((coalesce s (daddr bs j) (daddr bs (j + 1))).mem (tailC bs m)).ptr = 0 := by
      intro m hm hmAl
      have hmj : m ≠ j := by
        intro hc
        rw [hc, hjF] at hmAl
        exact absurd hmAl (by simp)
      have hmj1 : m ≠ j + 1 := by
        intro hc
        rw [hc, hj1F] at hmAl
        exact absurd hmAl (by simp)
      have hmn : ¬ isNode bs (daddr bs m) := head_not_node bs hpos m hm hmAl
      rw [coalesce_untouched s bs j _ _ hpos hb0 hsz hj rfl rfl hQN hRN (daddr bs m)
          (fun hc => hmn (hc ▸ hQN)) (hhead_ne_tail2 m hm _ hRN)
          (daddr_ne bs hpos m j (by omega) (by omega) hmj)
          (head_ne_tail bs hpos m (j + 1) hm hj),
        coalesce_untouched s bs j _ _ hpos hb0 hsz hj rfl rfl hQN hRN (tailC bs m)
          (Ne.symm (hnode_ne_tailC _ hQN m hm)) (htailC_ne_tail m hm hmAl _ hRN)
          (Ne.symm (head_ne_tail bs hpos j m (by omega) hm))
          (tail_inj bs hpos m (j + 1) hm hj hmj1)]
      exact halloc m hm hmAl
    rcases Nat.lt_trichotomy k j with hkj | hkj | hkj
    · rw [KR2.blkAt_surgery_lt bs j (j + 2) k hkj (by omega)] at hkAl
      show ((coalesce s (daddr bs j) (daddr bs (j + 1))).mem
          (daddr (KR2.surgery bs j (j + 2)) k)).ptr = 0 ∧
        ((coalesce s (daddr bs j) (daddr bs (j + 1))).mem
          (tailC (KR2.surgery bs j (j + 2)) k)).ptr = 0
      rw [daddr_surgery_le bs j (j + 2) k (by omega) (by omega), tailC_merge bs j k hj,
        if_pos hkj]
      exact hmain k (by omega) hkAl
    · subst hkj
      rw [blkAt_merge_lo bs k hj] at hkAl
      exact absurd hkAl (by simp)
    · have h2 := KR2.blkAt_surgery_shift bs j (j + 2) (k - j - 1) (by omega)
      rw [show j + 1 + (k - j - 1) = k from by omega,
        show j + 2 + (k - j - 1) = k + 1 from by omega] at h2
      rw [h2] at hkAl
      have h1 := daddr_surgery_shift bs j (j + 2) (k - j - 1) (by omega) (by omega)
      rw [show j + 1 + (k - j - 1) = k from by omega,
        show j + 2 + (k - j - 1) = k + 1 from by omega] at h1
      show ((coalesce s (daddr bs j) (daddr bs (j + 1))).mem
          (daddr (KR2.surgery bs j (j + 2)) k)).ptr = 0 ∧
        ((coalesce s (daddr bs j) (daddr bs (j + 1))).mem
          (tailC (KR2.surgery bs j (j + 2)) k)).ptr = 0
      rw [h1, tailC_merge bs j k hj, if_neg (by omega), if_neg (by omega)]
      exact hmain (k + 1) (by omega) hkAl
  · intro a ha
    rw [isNode_merge bs hpos j hj hjF] at ha
    obtain ⟨haN, haU⟩ := ha
    rw [nxt_set_freep, isNode_merge bs hpos j hj hjF, hmN a haN]
    by_cases haq : a = (s.mem (tailC bs (j + 1))).ptr
    · rw [if_pos haq]
      refine ⟨hRN, ?_⟩
      intro hc
      have h3 := (hinv _ _ hUN hUN).mp hc
      rw [hprvU] at h3
      exact haU (haq.trans h3)
    · rw [if_neg haq]
      refine ⟨hN1 a haN, ?_⟩
      intro hc
      have h3 := (hinv a _ haN hUN).mp hc
      rw [hprvU] at h3
      exact haq h3.symm
  · intro a ha
    rw [isNode_merge bs hpos j hj hjF] at ha
    obtain ⟨haN, haU⟩ := ha
    rw [prv_set_freep, isNode_merge bs hpos j hj hjF, hmP a haN haU]
    by_cases har : a = (s.mem (daddr bs (j + 1))).ptr
    · rw [if_pos har]
      refine ⟨hQN, ?_⟩
      intro hc
      have h3 := (hinv _ _ hUN hUN).mpr (by rw [hprvU, hc])
      exact haU (har.trans h3)
    · rw [if_neg har]
      refine ⟨hN2 a haN, ?_⟩
      intro hc
      have h3 := (hinv _ a hUN haN).mpr hc
      exact har h3.symm
  · intro a b ha hb
    rw [isNode_merge bs hpos j hj hjF] at ha hb
    obtain ⟨haN, haU⟩ := ha
    obtain ⟨hbN, hbU⟩ := hb
    rw [nxt_set_freep, prv_set_freep, hmN a haN, hmP b hbN hbU]
    by_cases haq : a = (s.mem (tailC bs (j + 1))).ptr
    · rw [if_pos haq]
      by_cases hbr : b = (s.mem (daddr bs (j + 1))).ptr
      · rw [if_pos hbr]
        exact iff_of_true hbr.symm haq.symm
      · rw [if_neg hbr]
        refine iff_of_false (fun hc => hbr hc.symm) ?_
        intro hc
        have h3 := (hinv _ b hQN hbN).mpr (by rw [hc, haq])
        rw [hqU] at h3
        exact hbU h3.symm
    · rw [if_neg haq]
      by_cases hbr : b = (s.mem (daddr bs (j + 1))).ptr
      · rw [if_pos hbr]
        refine iff_of_false ?_ (fun hc => haq hc.symm)
        intro hc
        have h3 := (hinv a b haN hbN).mp hc
        rw [hbr, hrU] at h3
        exact haU h3.symm
      · rw [if_neg hbr]
        exact hinv a b haN hbN
  · rw [freep_set_freep]
    show isNode (KR2.surgery bs j (j + 2)) (prv (coalesce s (daddr bs j) (daddr bs (j + 1)))
      (daddr bs j))
    rw [isNode_merge bs hpos j hj hjF, hmP (daddr bs j) hLN hLU]
    by_cases hLr : daddr bs j = (s.mem (daddr bs (j + 1))).ptr
    · rw [if_pos hLr]
      refine ⟨hQN, ?_⟩
      intro hc
      have h3 := (hinv _ _ hUN hUN).mpr (by rw [hprvU, hc])
      exact hLU (hLr.trans h3)
    · rw [if_neg hLr]
      refine ⟨hN2 _ hLN, ?_⟩
      intro hc
      have h3 := (hinv _ _ hUN hLN).mpr hc
      exact hLr h3.symm

end DLL

namespace DLL

theorem daddr_len (cs : List KR2.Blk) : daddr cs cs.length = heapLo + KR2.sizesSum cs := by
  unfold daddr KR2.addr heapLo KR2.heapLo
  rw [List.take_length]
  omega

theorem daddr_zero (cs : List KR2.Blk) : daddr cs 0 = heapLo := by
  unfold daddr KR2.addr heapLo KR2.heapLo KR2.sizesSum
  simp

theorem daddr_lt_end (cs : List KR2.Blk) (hpos : ∀ b ∈ cs, 2 ≤ b.size) (i : Nat)
    (hi : i < cs.length) : daddr cs i < heapLo + KR2.sizesSum cs := by
  have h := KR2.addr_lt cs (fun b hb => by have := hpos b hb; omega) i cs.length hi (le_refl _)
  have h2 : KR2.addr cs cs.length = KR2.heapLo + KR2.sizesSum cs := by
    unfold KR2.addr
    rw [List.take_length]
  rw [h2] at h
  unfold daddr heapLo KR2.heapLo at *
  omega

theorem upper_guard (s : St) (cs : List KR2.Blk) (i : Nat) (hR : DRep s cs)
    (hi : i < cs.length) :
    (daddr cs i + (s.mem (daddr cs i)).size < heapLo + s.heapUnits ∧
      ¬((s.mem (daddr cs i + (s.mem (daddr cs i)).size)).ptr = 0)) ↔
    (i + 1 < cs.length ∧ (KR2.blkAt cs (i + 1)).isFree = true) := by
  obtain ⟨hpos, hheap, hb0, hsz, halloc, hN1, hN2, hinv, hfp⟩ := hR
  have hd := daddr_succ cs i hi
  rw [hsz i hi, ← hd]
  constructor
  · intro ⟨h1, h2⟩
    by_cases hlen : i + 1 < cs.length
    · refine ⟨hlen, ?_⟩
      cases hf : (KR2.blkAt cs (i + 1)).isFree
      · exact absurd (halloc (i + 1) hlen hf).1 h2
      · rfl
    · exfalso
      have hlen2 : i + 1 = cs.length := by omega
      rw [hlen2, daddr_len cs] at h1
      omega
  · intro ⟨hlen, hf⟩
    refine ⟨?_, ?_⟩
    · have := daddr_lt_end cs hpos (i + 1) hlen
      omega
    · have hnode : isNode cs (daddr cs (i + 1)) := Or.inr ⟨i + 1, hlen, hf, rfl⟩
      exact node_ne_zero cs _ (hN1 _ hnode)

theorem lower_guard (s : St) (cs : List KR2.Blk) (i : Nat) (hR : DRep s cs)
    (hi : i < cs.length) :
    (heapLo < daddr cs i - 1 ∧ ¬((s.mem (daddr cs i - 1)).ptr = 0)) ↔
    (0 < i ∧ (KR2.blkAt cs (i - 1)).isFree = true) := by
  obtain ⟨hpos, hheap, hb0, hsz, halloc, hN1, hN2, hinv, hfp⟩ := hR
  constructor
  · intro ⟨h1, h2⟩
    by_cases h0 : 0 < i
    · refine ⟨h0, ?_⟩
      have hpt : daddr cs i - 1 = tailC cs (i - 1) := by
        have hd := daddr_succ cs (i - 1) (by omega)
        rw [show i - 1 + 1 = i from by omega] at hd
        have h2s := hpos _ (KR2.blkAt_mem cs (i - 1) (by omega))
        unfold tailC
        omega
      rw [hpt] at h2
      cases hf : (KR2.blkAt cs (i - 1)).isFree
      · exact absurd (halloc (i - 1) (by omega) hf).2 h2
      · rfl
    · exfalso
      have hz : i = 0 := by omega
      rw [hz, daddr_zero cs] at h1
      omega
  · intro ⟨h0, hf⟩
    have hpt : daddr cs i - 1 = tailC cs (i - 1) := by
      have hd := daddr_succ cs (i - 1) (by omega)
      rw [show i - 1 + 1 = i from by omega] at hd
      have h2s := hpos _ (KR2.blkAt_mem cs (i - 1) (by omega))
      unfold tailC
      omega
    rw [hpt]
    refine ⟨?_, ?_⟩
    · have h1 := size_le_tail cs hpos (i - 1) (by omega)
      have h2 := heapLo_le_daddr cs (i - 1)
      omega
    · have hnode : isNode cs (daddr cs (i - 1)) := Or.inr ⟨i - 1, by omega, hf, rfl⟩
      have h3 := hN2 _ hnode
      unfold prv at h3
      rw [tailU_eval s cs (i - 1) hsz (by omega)] at h3
      exact node_ne_zero cs _ h3

end DLL

namespace DLL

theorem upperPhase_no (s : St) (cs : List KR2.Blk) (i bp : Nat) (hbp : bp = daddr cs i)
    (hR : DRep s cs) (hi : i < cs.length)
    (hno : ¬(i + 1 < cs.length ∧ (KR2.blkAt cs (i + 1)).isFree = true)) :
    upperPhase s bp = s := by
  subst hbp
  unfold upperPhase
  dsimp only
  rw [if_neg (fun hc => hno ((upper_guard s cs i hR hi).mp hc))]

theorem upperPhase_yes (s : St) (cs : List KR2.Blk) (i bp : Nat) (hbp : bp = daddr cs i)
    (hR : DRep s cs) (hi : i < cs.length) (hiF : (KR2.blkAt cs i).isFree = true)
    (h1 : i + 1 < cs.length) (h2 : (KR2.blkAt cs (i + 1)).isFree = true) :
    DRep (upperPhase s bp) (KR2.surgery cs i (i + 2)) ∧
    (upperPhase s bp).heapUnits = s.heapUnits ∧
    (upperPhase s bp).data = s.data := by
  subst hbp
  have hsz := hR.2.2.2.1
  have hcond := (upper_guard s cs i hR hi).mpr ⟨h1, h2⟩
  unfold upperPhase
  dsimp only
  rw [if_pos hcond, hsz i hi,
    show daddr cs i + (KR2.blkAt cs i).size = daddr cs (i + 1) from (daddr_succ cs i hi).symm]
  exact coalesce_DRep s cs i hR h1 hiF h2

theorem lowerPhase_no (s : St) (cs : List KR2.Blk) (i bp : Nat) (hbp : bp = daddr cs i)
    (hR : DRep s cs) (hi : i < cs.length)
    (hno : ¬(0 < i ∧ (KR2.blkAt cs (i - 1)).isFree = true)) :
    lowerPhase s bp = s := by
  subst hbp
  unfold lowerPhase
  dsimp only
  rw [if_neg (fun hc => hno ((lower_guard s cs i hR hi).mp hc))]

theorem lowerPhase_yes (s : St) (cs : List KR2.Blk) (i bp : Nat) (hbp : bp = daddr cs i)
    (hR : DRep s cs) (hi : i < cs.length) (hiF : (KR2.blkAt cs i).isFree = true)
    (h0 : 0 < i) (hdF : (KR2.blkAt cs (i - 1)).isFree = true) :
    DRep (lowerPhase s bp) (KR2.surgery cs (i - 1) (i + 1)) ∧
    (lowerPhase s bp).heapUnits = s.heapUnits ∧
    (lowerPhase s bp).data = s.data := by
  subst hbp
  obtain ⟨hpos, hheap, hb0, hsz, halloc, hN1, hN2, hinv, hfp⟩ := hR
  have hRfull : DRep s cs := ⟨hpos, hheap, hb0, hsz, halloc, hN1, hN2, hinv, hfp⟩
  have hcond := (lower_guard s cs i hRfull hi).mpr ⟨h0, hdF⟩
  unfold lowerPhase
  dsimp only
  rw [if_pos hcond]
  have hpt : daddr cs i - 1 = tailC cs (i - 1) := by
    have hd := daddr_succ cs (i - 1) (by omega)
    rw [show i - 1 + 1 = i from by omega] at hd
    have h2s := hpos _ (KR2.blkAt_mem cs (i - 1) (by omega))
    unfold tailC
    omega
  rw [hpt]
  have hdN : isNode cs (daddr cs (i - 1)) := Or.inr ⟨i - 1, by omega, hdF, rfl⟩
  have hg : (s.mem (tailC cs (i - 1))).ptr = prv s (daddr cs (i - 1)) := by
    unfold prv
    rw [tailU_eval s cs (i - 1) hsz (by omega)]
  rw [hg]
  have hgN : isNode cs (prv s (daddr cs (i - 1))) := hN2 _ hdN
  have hpnh : (s.mem (prv s (daddr cs (i - 1)))).ptr = daddr cs (i - 1) :=
    (hinv (prv s (daddr cs (i - 1))) (daddr cs (i - 1)) hgN hdN).mpr rfl
  rw [hpnh]
  have hco := coalesce_DRep s cs (i - 1) hRfull
    (by omega) hdF (by rw [show i - 1 + 1 = i from by omega]; exact hiF)
  rw [show i - 1 + 1 = i from by omega, show i - 1 + 2 = i + 1 from by omega] at hco
  exact hco

theorem dll_free_DRep (s : St) (bs : List KR2.Blk) (i : Nat) (hR : DRep s bs)
    (hi : i < bs.length) (hAl : (KR2.blkAt bs i).isFree = false) :
    DRep (mm_free (daddr bs i + 1) s) (KR2.mergeAt bs i) ∧
    (mm_free (daddr bs i + 1) s).heapUnits = s.heapUnits ∧
    (mm_free (daddr bs i + 1) s).data = s.data := by
  have hpos := hR.1
  rw [mm_free_decomp (daddr bs i + 1) s (by
      have := heapLo_le_daddr bs i
      unfold heapLo at this
      omega),
    show daddr bs i + 1 - 1 = daddr bs i from by omega]
  obtain ⟨hIns, hfE, hhE, hdE⟩ := ins_DRep s bs i hR hi hAl
  have hlenm : (KR2.surgery bs i (i + 1)).length = bs.length := by
    rw [KR2.surgery_length bs i (i + 1) (by omega) (by omega)]
    omega
  have hmF : (KR2.blkAt (KR2.surgery bs i (i + 1)) i).isFree = true := by
    rw [KR2.blkAt_surgery_lo bs i (i + 1) (by omega)]
  by_cases hU : i + 1 < bs.length ∧ (KR2.blkAt bs (i + 1)).isFree = true
  · have hmUF : (KR2.blkAt (KR2.surgery bs i (i + 1)) (i + 1)).isFree = true := by
      rw [KR2.blkAt_mark_ne bs i (i + 1) hi (by omega)]
      exact hU.2
    obtain ⟨hUp, hh2, hd2⟩ := upperPhase_yes (ins s (daddr bs i)) (KR2.surgery bs i (i + 1)) i
      (daddr bs i) (daddr_mark bs i i hi).symm hIns (by omega) hmF (by omega) hmUF
    rw [KR2.surgery_comp_up bs i hU.1] at hUp
    have hcsF : (KR2.blkAt (KR2.surgery bs i (i + 2)) i).isFree = true := by
      rw [KR2.blkAt_surgery_lo bs i (i + 2) (by omega)]
    have hlenc : (KR2.surgery bs i (i + 2)).length = bs.length - 1 := merge_len bs i hU.1
    by_cases hD : 0 < i ∧ (KR2.blkAt bs (i - 1)).isFree = true
    · have hcsD : (KR2.blkAt (KR2.surgery bs i (i + 2)) (i - 1)).isFree = true := by
        rw [KR2.blkAt_surgery_lt bs i (i + 2) (i - 1) (by omega) (by omega)]
        exact hD.2
      obtain ⟨hLo, hh3, hd3⟩ := lowerPhase_yes (upperPhase (ins s (daddr bs i)) (daddr bs i))
        (KR2.surgery bs i (i + 2)) i (daddr bs i)
        (daddr_surgery_le bs i (i + 2) i (le_refl i) (by omega)).symm hUp
        (by omega) hcsF hD.1 hcsD
      rw [KR2.surgery_comp_down bs i (i + 2) hD.1 (by omega) (by omega)] at hLo
      refine ⟨?_, ?_, ?_⟩
      · unfold KR2.mergeAt
        rw [if_pos hD, if_pos hU]
        exact hLo
      · rw [hh3, hh2, hhE]
      · rw [hd3, hd2, hdE]
    · rw [lowerPhase_no (upperPhase (ins s (daddr bs i)) (daddr bs i))
        (KR2.surgery bs i (i + 2)) i (daddr bs i)
        (daddr_surgery_le bs i (i + 2) i (le_refl i) (by omega)).symm hUp (by omega)
        (by
          intro hc
          refine hD ⟨hc.1, ?_⟩
          rw [← KR2.blkAt_surgery_lt bs i (i + 2) (i - 1) (by omega) (by omega)]
          exact hc.2)]
      refine ⟨?_, ?_, ?_⟩
      · unfold KR2.mergeAt
        rw [if_neg hD, if_pos hU]
        exact hUp
      · rw [hh2, hhE]
      · rw [hd2, hdE]
  · rw [upperPhase_no (ins s (daddr bs i)) (KR2.surgery bs i (i + 1)) i (daddr bs i)
      (daddr_mark bs i i hi).symm hIns (by omega)
      (by
        intro hc
        refine hU ⟨by omega, ?_⟩
        rw [← KR2.blkAt_mark_ne bs i (i + 1) hi (by omega)]
        exact hc.2)]
    by_cases hD : 0 < i ∧ (KR2.blkAt bs (i - 1)).isFree = true
    · have hcsD : (KR2.blkAt (KR2.surgery bs i (i + 1)) (i - 1)).isFree = true := by
        rw [KR2.blkAt_mark_ne bs i (i - 1) hi (by omega)]
        exact hD.2
      obtain ⟨hLo, hh3, hd3⟩ := lowerPhase_yes (ins s (daddr bs i))
        (KR2.surgery bs i (i + 1)) i (daddr bs i) (daddr_mark bs i i hi).symm hIns
        (by omega) hmF hD.1 hcsD
      rw [KR2.surgery_comp_down bs i (i + 1) hD.1 (by omega) (by omega)] at hLo
      refine ⟨?_, ?_, ?_⟩
      · unfold KR2.mergeAt
        rw [if_pos hD, if_neg hU]
        exact hLo
      · rw [hh3, hhE]
      · rw [hd3, hdE]
    · rw [lowerPhase_no (ins s (daddr bs i)) (KR2.surgery bs i (i + 1)) i (daddr bs i)
        (daddr_mark bs i i hi).symm hIns (by omega)
        (by
          intro hc
          refine hD ⟨hc.1, ?_⟩
          rw [← KR2.blkAt_mark_ne bs i (i - 1) hi (by omega)]
          exact hc.2)]
      refine ⟨?_, ?_, ?_⟩
      · unfold KR2.mergeAt
        rw [if_neg hD, if_neg hU]
        exact hIns
      · exact hhE
      · exact hdE

end DLL

/-- A concrete kr2 state satisfying the representation invariant over
three blocks free/allocated/free, used to witness claim C4. -/
def kC4 : KR2.St :=
  { mem := (upd (upd (upd (upd (fun _ => { prev := 0, next := 0, isFree := false, size := 0 })
      1 { prev := 6, next := 2, isFree := false, size := 0 })
      2 { prev := 1, next := 4, isFree := true, size := 2 })
      4 { prev := 2, next := 6, isFree := false, size := 2 })
      6 { prev := 4, next := 1, isFree := true, size := 2 })
    freep := 2, heapUnits := 6, capacity := 100, errno := 0, data := fun _ => 0 }

/-- The abstract block list of `kC4` (also of `dC4`). -/
def kbs4 : List KR2.Blk :=
  [{ size := 2, isFree := true }, { size := 2, isFree := false }, { size := 2, isFree := true }]

/-- A concrete dll state satisfying the representation invariant over the
same three blocks, used to witness claim C4. -/
def dC4 : DLL.St :=
  { mem := (upd (upd (upd (upd (upd (upd (upd (upd (fun _ => { ptr := 0, size := 0 })
      1 { ptr := 3, size := 2 })
      2 { ptr := 7, size := 2 })
      3 { ptr := 7, size := 2 })
      4 { ptr := 1, size := 2 })
      5 { ptr := 0, size := 2 })
      6 { ptr := 0, size := 0 })
      7 { ptr := 1, size := 2 })
      8 { ptr := 3, size := 2 })
    freep := 1, heapUnits := 6, capacity := 100, errno := 0, data := fun _ => 0 }

theorem kC4_RepMem : KR2.RepMem kC4 kbs4 := by
  refine ⟨by decide, by decide, by decide, ?_⟩
  decide

theorem dC4_DRep : DLL.DRep dC4 kbs4 := by
  refine ⟨by decide, by decide, by decide, by decide, by decide, ?_, ?_, ?_, ?_⟩
  · intro a ha
    rcases ha with rfl | ⟨j, hj, hf, ha⟩
    · exact Or.inr ⟨0, by decide, by decide, by decide⟩
    · rw [show kbs4.length = 3 from rfl] at hj
      interval_cases j
      · subst ha
        exact Or.inr ⟨2, by decide, by decide, by decide⟩
      · exact absurd hf (by decide)
      · subst ha
        exact Or.inl (by decide)
  · intro a ha
    rcases ha with rfl | ⟨j, hj, hf, ha⟩
    · exact Or.inr ⟨2, by decide, by decide, by decide⟩
    · rw [show kbs4.length = 3 from rfl] at hj
      interval_cases j
      · subst ha
        exact Or.inl (by decide)
      · exact absurd hf (by decide)
      · subst ha
        exact Or.inr ⟨0, by decide, by decide, by decide⟩
  · intro a b ha hb
    rcases ha with rfl | ⟨j, hj, hf, ha⟩ <;> rcases hb with rfl | ⟨k, hk, hg, hb⟩
    · decide
    · rw [show kbs4.length = 3 from rfl] at hk
      interval_cases k
      · subst hb
        decide
      · exact absurd hg (by decide)
      · subst hb
        decide
    · rw [show kbs4.length = 3 from rfl] at hj
      interval_cases j
      · subst ha
        decide
      · exact absurd hf (by decide)
      · subst ha
        decide
    · rw [show kbs4.length = 3 from rfl] at hj hk
      interval_cases j
      · interval_cases k
        · subst ha
          subst hb
          decide
        · exact absurd hg (by decide)
        · subst ha
          subst hb
          decide
      · exact absurd hf (by decide)
      · interval_cases k
        · subst ha
          subst hb
          decide
        · exact absurd hg (by decide)
        · subst ha
          subst hb
          decide
  · exact Or.inl (by decide)

/-- Claim C4.  After `mm_free` of an allocated block (under the
representation invariant, with no two adjacent free blocks beforehand),
the heap is described by `mergeAt`: the freed block fused with any free
address-contiguous neighbors, the representation invariant holds again
(consistent links), no two adjacent free blocks remain — in address form,
for every pair of free blocks `b` and `n`, `b + b.size ≠ n` — and when
both neighbors are free and contiguous both merges occur, yielding the
single merged free block `surgery bs (i-1) (i+2)`.  Both variants. -/
theorem C4_free_coalesces_noadjacent :
    (∀ (fuel : Nat) (s : KR2.St) (bs : List KR2.Blk) (i : Nat), KR2.RepMem s bs →
      i < bs.length → (KR2.blkAt bs i).isFree = false → KR2.NoAdj bs →
      ∃ s2, KR2.mm_free fuel (KR2.addr bs i + 1) s = some s2 ∧
        KR2.Rep s2 (KR2.mergeAt bs i) ∧ KR2.NoAdj (KR2.mergeAt bs i) ∧
        (∀ j k, j < (KR2.mergeAt bs i).length → k < (KR2.mergeAt bs i).length →
          (KR2.blkAt (KR2.mergeAt bs i) j).isFree = true →
          (KR2.blkAt (KR2.mergeAt bs i) k).isFree = true →
          KR2.addr (KR2.mergeAt bs i) j + (KR2.blkAt (KR2.mergeAt bs i) j).size ≠
            KR2.addr (KR2.mergeAt bs i) k) ∧
        ((0 < i ∧ (KR2.blkAt bs (i - 1)).isFree = true) →
          (i + 1 < bs.length ∧ (KR2.blkAt bs (i + 1)).isFree = true) →
          KR2.mergeAt bs i = KR2.surgery bs (i - 1) (i + 2))) ∧
    (∀ (s : DLL.St) (bs : List KR2.Blk) (i : Nat), DLL.DRep s bs →
      i < bs.length → (KR2.blkAt bs i).isFree = false → KR2.NoAdj bs →
      DLL.DRep (DLL.mm_free (DLL.daddr bs i + 1) s) (KR2.mergeAt bs i) ∧
      KR2.NoAdj (KR2.mergeAt bs i) ∧
      (∀ j k, j < (KR2.mergeAt bs i).length → k < (KR2.mergeAt bs i).length →
        (KR2.blkAt (KR2.mergeAt bs i) j).isFree = true →
        (KR2.blkAt (KR2.mergeAt bs i) k).isFree = true →
        DLL.daddr (KR2.mergeAt bs i) j + (KR2.blkAt (KR2.mergeAt bs i) j).size ≠
          DLL.daddr (KR2.mergeAt bs i) k) ∧
      ((0 < i ∧ (KR2.blkAt bs (i - 1)).isFree = true) →
        (i + 1 < bs.length ∧ (KR2.blkAt bs (i + 1)).isFree = true) →
        KR2.mergeAt bs i = KR2.surgery bs (i - 1) (i + 2))) := by
  constructor
  · intro fuel s bs i hRep hi hAl hno
    obtain ⟨s2, he, hrep2, hdata, hheap, hcap, herr⟩ := KR2.free_Rep fuel s bs i hRep hi
    have hpos1 : ∀ b ∈ KR2.mergeAt bs i, 1 ≤ b.size := hrep2.1.1
    have hnom := KR2.noAdj_mergeAt bs i hno hi
    refine ⟨s2, he, hrep2, hnom, ?_, ?_⟩
    · intro j k hj hk hfj hfk
      exact KR2.noAdj_pairs (KR2.mergeAt bs i) hpos1 hnom j k hj hk hfj hfk
    · intro ⟨h0, hd⟩ ⟨h1, hu⟩
      exact KR2.mergeAt_both bs i h0 h1 hd hu
  · intro s bs i hRep hi hAl hno
    obtain ⟨hrep2, hh, hd⟩ := DLL.dll_free_DRep s bs i hRep hi hAl
    have hpos1 : ∀ b ∈ KR2.mergeAt bs i, 1 ≤ b.size := fun b hb => by
      have := hrep2.1 b hb
      omega
    have hnom := KR2.noAdj_mergeAt bs i hno hi
    refine ⟨hrep2, hnom, ?_, ?_⟩
    · intro j k hj hk hfj hfk
      have h2 := KR2.noAdj_pairs (KR2.mergeAt bs i) hpos1 hnom j k hj hk hfj hfk
      unfold DLL.daddr
      omega
    · intro ⟨h0, hd2⟩ ⟨h1, hu⟩
      exact KR2.mergeAt_both bs i h0 h1 hd2 hu

/-- Witness for claim C4: the concrete states `kC4` and `dC4` carry a
free/allocated/free block triple; freeing the middle block exercises both
merges in both variants. -/
theorem C4_free_coalesces_noadjacent_witness :
    (∃ s2, KR2.mm_free 5 (KR2.addr kbs4 1 + 1) kC4 = some s2 ∧
      KR2.Rep s2 (KR2.mergeAt kbs4 1) ∧ KR2.NoAdj (KR2.mergeAt kbs4 1) ∧
      (∀ j k, j < (KR2.mergeAt kbs4 1).length → k < (KR2.mergeAt kbs4 1).length →
        (KR2.blkAt (KR2.mergeAt kbs4 1) j).isFree = true →
        (KR2.blkAt (KR2.mergeAt kbs4 1) k).isFree = true →
        KR2.addr (KR2.mergeAt kbs4 1) j + (KR2.blkAt (KR2.mergeAt kbs4 1) j).size ≠
          KR2.addr (KR2.mergeAt kbs4 1) k) ∧
      ((0 < 1 ∧ (KR2.blkAt kbs4 0).isFree = true) →
        (1 + 1 < kbs4.length ∧ (KR2.blkAt kbs4 (1 + 1)).isFree = true) →
        KR2.mergeAt kbs4 1 = KR2.surgery kbs4 0 3)) ∧
    (DLL.DRep (DLL.mm_free (DLL.daddr kbs4 1 + 1) dC4) (KR2.mergeAt kbs4 1) ∧
      KR2.NoAdj (KR2.mergeAt kbs4 1) ∧
      (∀ j k, j < (KR2.mergeAt kbs4 1).length → k < (KR2.mergeAt kbs4 1).length →
        (KR2.blkAt (KR2.mergeAt kbs4 1) j).isFree = true →
        (KR2.blkAt (KR2.mergeAt kbs4 1) k).isFree = true →
        DLL.daddr (KR2.mergeAt kbs4 1) j + (KR2.blkAt (KR2.mergeAt kbs4 1) j).size ≠
          DLL.daddr (KR2.mergeAt kbs4 1) k) ∧
      ((0 < 1 ∧ (KR2.blkAt kbs4 0).isFree = true) →
        (1 + 1 < kbs4.length ∧ (KR2.blkAt kbs4 (1 + 1)).isFree = true) →
        KR2.mergeAt kbs4 1 = KR2.surgery kbs4 0 3)) :=
  ⟨C4_free_coalesces_noadjacent.1 5 kC4 kbs4 1 kC4_RepMem (by decide) (by decide)
     (by unfold KR2.NoAdj; decide),
   C4_free_coalesces_noadjacent.2 dC4 kbs4 1 dC4_DRep (by decide) (by decide)
     (by unfold KR2.NoAdj; decide)⟩

theorem memcpy_bytes_read (data : Nat → Nat) (dst src n k : Nat) (hk : k < n) :
    memcpy_bytes data dst src n (dst + k) = data (src + k) := by
  unfold memcpy_bytes
  rw [if_pos ⟨by omega, by omega⟩]
  congr 1
  omega

namespace KR2

theorem connect_data (s : St) (a b : Nat) : (connect_dlinkedlist s a b).data = s.data := rfl

theorem free_insert_data (fuel bp : Nat) (s s2 : St) (h : free_insert fuel bp s = some s2) :
    s2.data = s.data := by
  unfold free_insert at h
  split at h
  · cases hw : walk fuel s.freep s with
    | none =>
      rw [hw] at h
      exact absurd h (by simp)
    | some p =>
      rw [hw, Option.map_some'] at h
      rw [Option.some.injEq] at h
      rw [← h]
      rfl
  · rw [Option.some.injEq] at h
    rw [← h]

theorem mm_free_data (fuel ap : Nat) (s s2 : St) (h : mm_free fuel ap s = some s2) :
    s2.data = s.data := by
  unfold mm_free at h
  split at h
  · rw [Option.some.injEq] at h
    rw [← h]
  · dsimp only at h
    cases hw : free_insert fuel (mm_block ap) s with
    | none =>
      rw [hw] at h
      exact absurd h (by simp)
    | some s0 =>
      rw [hw, Option.map_some', Option.some.injEq] at h
      rw [← h]
      dsimp only
      rw [(free_mergeDown_frame _ _).2.1, (free_mergeUp_frame _ _).2.1]
      exact free_insert_data fuel (mm_block ap) s s0 hw

theorem map_pair_inv (o : Option St) (np : Nat) (s2 : St)
    (h : o.map (fun t => (t.freep, t)) = some (np, s2)) : o = some s2 := by
  cases o with
  | none => exact absurd h (by simp)
  | some sf =>
    rw [Option.map_some', Option.some.injEq, Prod.mk.injEq] at h
    rw [h.2]

theorem mem_sbrk_data (nbytes : Nat) (s : St) : (mem_sbrk nbytes s).2.data = s.data := by
  unfold mem_sbrk
  split <;> rfl

theorem morecore_data (fuel nu : Nat) (s : St) (np : Nat) (s2 : St)
    (h : morecore fuel nu s = some (np, s2)) : s2.data = s.data := by
  unfold morecore at h
  dsimp only at h
  cases hsb : mem_sbrk (mm_bytes (if nu < pagesize / hdrSize then pagesize / hdrSize else nu)) s
    with
  | mk o st =>
    have hst : st.data = s.data := by
      have h2 := mem_sbrk_data
        (mm_bytes (if nu < pagesize / hdrSize then pagesize / hdrSize else nu)) s
      rw [hsb] at h2
      exact h2
    rw [hsb] at h
    cases o with
    | none =>
      dsimp only at h
      rw [Option.some.injEq, Prod.mk.injEq] at h
      rw [← h.2]
      exact hst
    | some p =>
      dsimp only at h
      have ho := map_pair_inv _ np s2 h
      rw [mm_free_data fuel _ _ s2 ho]
      exact hst

end KR2

namespace KR2

theorem malloc_loop_data (fuel : Nat) : ∀ (nunits prev_p p : Nat) (s : St) (r : Nat) (s2 : St),
    malloc_loop fuel nunits prev_p p s = some (r, s2) → s2.data = s.data := by
  induction fuel with
  | zero =>
    intro nunits prev_p p s r s2 h
    exact absurd h (by simp [malloc_loop])
  | succ f ih =>
    intro nunits prev_p p s r s2 h
    unfold malloc_loop at h
    dsimp only at h
    split at h
    · split at h
      · rw [Option.some.injEq, Prod.mk.injEq] at h
        rw [← h.2]
      · rw [Option.some.injEq, Prod.mk.injEq] at h
        rw [← h.2]
        rfl
    · split at h
      · cases hm : morecore f nunits s with
        | none =>
          rw [hm] at h
          exact absurd h (by simp)
        | some pr =>
          obtain ⟨np, s1⟩ := pr
          rw [hm] at h
          dsimp only at h
          split at h
          · rw [Option.some.injEq, Prod.mk.injEq] at h
            rw [← h.2]
            exact morecore_data f nunits s np s1 hm
          · rw [ih nunits np ((s1.mem np).next) s1 r s2 h]
            exact morecore_data f nunits s np s1 hm
      · exact ih nunits p ((s.mem p).next) s r s2 h

theorem mm_malloc_data (fuel nbytes : Nat) (s : St) (r : Nat) (s2 : St)
    (h : mm_malloc fuel nbytes s = some (r, s2)) : s2.data = s.data := by
  unfold mm_malloc at h
  dsimp only at h
  split at h
  · rw [malloc_loop_data fuel _ _ _ _ r s2 h]
    rfl
  · exact malloc_loop_data fuel _ _ _ _ r s2 h

end KR2

namespace DLL

theorem dll_mm_free_data (ap : Nat) (s : St) : (mm_free ap s).data = s.data := by
  unfold mm_free coalesce unlink_header link_header
  split
  · rfl
  · dsimp only
    split <;> split <;> rfl

theorem dll_mem_sbrk_data (nbytes : Nat) (s : St) : (mem_sbrk nbytes s).2.data = s.data := by
  unfold mem_sbrk
  split <;> rfl

theorem dll_morecore_data (nu : Nat) (s : St) : (morecore nu s).2.data = s.data := by
  unfold morecore
  dsimp only
  cases hsb : mem_sbrk (mm_bytes (if nu < pagesize / hdrSize then pagesize / hdrSize else nu)) s
    with
  | mk o st =>
    have hst : st.data = s.data := by
      have h2 := dll_mem_sbrk_data
        (mm_bytes (if nu < pagesize / hdrSize then pagesize / hdrSize else nu)) s
      rw [hsb] at h2
      exact h2
    cases o with
    | none => exact hst
    | some p =>
      dsimp only
      rw [dll_mm_free_data]
      exact hst

theorem malloc_accept_data (nunits prevp p : Nat) (s : St) :
    (malloc_accept nunits prevp p s).2.data = s.data := by
  unfold malloc_accept link_header
  dsimp only
  split <;> rfl

theorem dll_malloc_loop_data (fuel : Nat) : ∀ (nunits prevp p : Nat) (s : St) (r : Nat) (s2 : St),
    malloc_loop fuel nunits prevp p s = some (r, s2) → s2.data = s.data := by
  induction fuel with
  | zero =>
    intro nunits prevp p s r s2 h
    exact absurd h (by simp [malloc_loop])
  | succ f ih =>
    intro nunits prevp p s r s2 h
    unfold malloc_loop at h
    dsimp only at h
    split at h
    · rw [Option.some.injEq] at h
      have h2 := congrArg Prod.snd h
      dsimp only at h2
      rw [← h2]
      exact malloc_accept_data nunits prevp p s
    · split at h
      · split at h
        · rw [Option.some.injEq, Prod.mk.injEq] at h
          rw [← h.2]
          exact dll_morecore_data nunits s
        · rw [ih nunits (morecore nunits s).1 (((morecore nunits s).2.mem
            (morecore nunits s).1).ptr) (morecore nunits s).2 r s2 h]
          exact dll_morecore_data nunits s
      · exact ih nunits p ((s.mem p).ptr) s r s2 h

theorem dll_mm_malloc_data (fuel nbytes : Nat) (s : St) (r : Nat) (s2 : St)
    (h : mm_malloc fuel nbytes s = some (r, s2)) : s2.data = s.data := by
  unfold mm_malloc at h
  dsimp only at h
  split at h
  · rw [dll_malloc_loop_data fuel _ _ _ _ r s2 h]
    rfl
  · exact dll_malloc_loop_data fuel _ _ _ _ r s2 h

end DLL

/-- Claim C8.  On the allocate-copy-free path (old capacity below the
request, internal allocation successful), `mm_realloc` returns the new
pointer, the first `min(old_payload_bytes, newsize)` bytes of the new
payload equal the original payload content of the old pointer, and the
old block is freed: the final state represents `mergeAt` of the old
block, marked free and coalesced.  Both variants; `old_payload_bytes` is
`mm_bytes (size - 1)` in kr2 (one header unit) and `mm_bytes (size - 2)`
in dll (head and tail units). -/
theorem C8_realloc_copy_frees_old :
    (∀ (fuel newsize : Nat) (s s1 : KR2.St) (bs1 : List KR2.Blk) (i newap : Nat),
      KR2.RepMem s1 bs1 → i < bs1.length → (KR2.blkAt bs1 i).isFree = false →
      ¬(0 < newsize ∧ KR2.mm_units newsize ≤ (s.mem (KR2.addr bs1 i)).size) →
      KR2.mm_malloc fuel newsize s = some (newap, s1) → ¬(newap = 0) →
      ∃ s3, KR2.mm_realloc fuel (KR2.addr bs1 i + 1) newsize s = some (newap, s3) ∧
        (∀ b, b < min (KR2.mm_bytes ((KR2.blkAt bs1 i).size - 1)) newsize →
          s3.data (KR2.hdrSize * newap + b) =
            s.data (KR2.hdrSize * (KR2.addr bs1 i + 1) + b)) ∧
        KR2.Rep s3 (KR2.mergeAt bs1 i)) ∧
    (∀ (fuel newsize : Nat) (s s1 : DLL.St) (bs1 : List KR2.Blk) (i newap : Nat),
      DLL.DRep s1 bs1 → i < bs1.length → (KR2.blkAt bs1 i).isFree = false →
      (KR2.blkAt bs1 i).size * DLL.hdrSize < U64 →
      ¬(0 < newsize ∧ DLL.mm_units newsize ≤ (s.mem (DLL.daddr bs1 i)).size) →
      DLL.mm_malloc fuel newsize s = some (newap, s1) → ¬(newap = 0) →
      ∃ s3, DLL.mm_realloc fuel (DLL.daddr bs1 i + 1) newsize s = some (newap, s3) ∧
        (∀ b, b < min (DLL.mm_bytes ((KR2.blkAt bs1 i).size - 2)) newsize →
          s3.data (DLL.hdrSize * newap + b) =
            s.data (DLL.hdrSize * (DLL.daddr bs1 i + 1) + b)) ∧
        DLL.DRep s3 (KR2.mergeAt bs1 i)) := by
  constructor
  · intro fuel newsize s s1 bs1 i newap hR1 hi hAl hcap hmal hnew
    have hblk := hR1.2.2.2 i hi
    unfold KR2.mm_realloc
    rw [if_neg (show ¬(KR2.addr bs1 i + 1 = 0) from by omega)]
    dsimp only
    rw [show KR2.mm_block (KR2.addr bs1 i + 1) = KR2.addr bs1 i from rfl,
      if_neg hcap, hmal]
    dsimp only
    rw [if_neg hnew, hblk]
    dsimp only
    have hR2 : KR2.RepMem { s1 with data := (memcpy_bytes s1.data (KR2.hdrSize * newap)
        (KR2.hdrSize * (KR2.addr bs1 i + 1))
        (if KR2.mm_bytes ((KR2.blkAt bs1 i).size - 1) < newsize
         then KR2.mm_bytes ((KR2.blkAt bs1 i).size - 1) else newsize)) } bs1 := hR1
    obtain ⟨s3, he, hrep3, hdat3, hheap3, hcap3, herr3⟩ :=
      KR2.free_Rep fuel _ bs1 i hR2 hi
    refine ⟨s3, ?_, ?_, hrep3⟩
    · rw [he, Option.map_some']
    · intro b hb
      obtain ⟨hb1, hb2⟩ := lt_min_iff.mp hb
      rw [hdat3]
      have hbn : b < (if KR2.mm_bytes ((KR2.blkAt bs1 i).size - 1) < newsize
          then KR2.mm_bytes ((KR2.blkAt bs1 i).size - 1) else newsize) := by
        split <;> omega
      rw [show ({ s1 with data := (memcpy_bytes s1.data (KR2.hdrSize * newap)
          (KR2.hdrSize * (KR2.addr bs1 i + 1))
          (if KR2.mm_bytes ((KR2.blkAt bs1 i).size - 1) < newsize
           then KR2.mm_bytes ((KR2.blkAt bs1 i).size - 1) else newsize)) } : KR2.St).data
          = memcpy_bytes s1.data (KR2.hdrSize * newap)
          (KR2.hdrSize * (KR2.addr bs1 i + 1))
          (if KR2.mm_bytes ((KR2.blkAt bs1 i).size - 1) < newsize
           then KR2.mm_bytes ((KR2.blkAt bs1 i).size - 1) else newsize) from rfl,
        memcpy_bytes_read s1.data _ _ _ b hbn,
        KR2.mm_malloc_data fuel newsize s newap s1 hmal]
  · intro fuel newsize s s1 bs1 i newap hR1 hi hAl hszb hcap hmal hnew
    have hblk := hR1.2.2.2.1 i hi
    unfold DLL.mm_realloc
    rw [if_neg (show ¬(DLL.daddr bs1 i + 1 = 0) from by omega)]
    dsimp only
    rw [show DLL.mm_block (DLL.daddr bs1 i + 1) = DLL.daddr bs1 i from rfl,
      if_neg hcap, hmal]
    dsimp only
    rw [if_neg hnew, hblk]
    have hR2 : DLL.DRep { s1 with data := (memcpy_bytes s1.data (DLL.hdrSize * newap)
        (DLL.hdrSize * (DLL.daddr bs1 i + 1))
        (if DLL.mm_bytes ((KR2.blkAt bs1 i).size - 1) < newsize
         then DLL.mm_bytes ((KR2.blkAt bs1 i).size - 1) else newsize)) } bs1 := hR1
    obtain ⟨hrep3, hh3, hd3⟩ := DLL.dll_free_DRep _ bs1 i hR2 hi hAl
    refine ⟨_, rfl, ?_, hrep3⟩
    intro b hb
    obtain ⟨hb1, hb2⟩ := lt_min_iff.mp hb
    rw [hd3]
    have hmb : DLL.mm_bytes ((KR2.blkAt bs1 i).size - 2) ≤
        DLL.mm_bytes ((KR2.blkAt bs1 i).size - 1) := by
      unfold DLL.mm_bytes
      rw [Nat.mod_eq_of_lt (by
          have : ((KR2.blkAt bs1 i).size - 2) * DLL.hdrSize ≤
            (KR2.blkAt bs1 i).size * DLL.hdrSize := Nat.mul_le_mul_right _ (by omega)
          omega),
        Nat.mod_eq_of_lt (by
          have : ((KR2.blkAt bs1 i).size - 1) * DLL.hdrSize ≤
            (KR2.blkAt bs1 i).size * DLL.hdrSize := Nat.mul_le_mul_right _ (by omega)
          omega)]
      exact Nat.mul_le_mul_right _ (by omega)
    have hbn : b < (if DLL.mm_bytes ((KR2.blkAt bs1 i).size - 1) < newsize
        then DLL.mm_bytes ((KR2.blkAt bs1 i).size - 1) else newsize) := by
      split <;> omega
    rw [show ({ s1 with data := (memcpy_bytes s1.data (DLL.hdrSize * newap)
        (DLL.hdrSize * (DLL.daddr bs1 i + 1))
        (if DLL.mm_bytes ((KR2.blkAt bs1 i).size - 1) < newsize
         then DLL.mm_bytes ((KR2.blkAt bs1 i).size - 1) else newsize)) } : DLL.St).data
        = memcpy_bytes s1.data (DLL.hdrSize * newap)
        (DLL.hdrSize * (DLL.daddr bs1 i + 1))
        (if DLL.mm_bytes ((KR2.blkAt bs1 i).size - 1) < newsize
         then DLL.mm_bytes ((KR2.blkAt bs1 i).size - 1) else newsize) from rfl,
      memcpy_bytes_read s1.data _ _ _ b hbn,
      DLL.dll_mm_malloc_data fuel newsize s newap s1 hmal]

/-- A concrete kr2 state with an allocated size-2 block followed by a
size-4 free block, used to witness claim C8. -/
def kC8 : KR2.St :=
  { mem := (upd (upd (upd (fun _ => { prev := 0, next := 0, isFree := false, size := 0 })
      1 { prev := 4, next := 2, isFree := false, size := 0 })
      2 { prev := 1, next := 4, isFree := false, size := 2 })
      4 { prev := 2, next := 1, isFree := true, size := 4 })
    freep := 1, heapUnits := 6, capacity := 100, errno := 0, data := fun b => b % 256 }

/-- The state after `mm_malloc 10 64 kC8` (the new block splits the free
block). -/
def kC8s1 : KR2.St := ((KR2.mm_malloc 10 64 kC8).getD (0, kC8)).2

/-- Abstract block list of `kC8s1`. -/
def kbs8 : List KR2.Blk :=
  [{ size := 2, isFree := false }, { size := 1, isFree := true }, { size := 3, isFree := false }]

/-- A concrete dll state with an allocated size-3 block followed by a
size-6 free block, used to witness claim C8. -/
def dC8 : DLL.St :=
  { mem := (upd (upd (upd (upd (upd (fun _ => { ptr := 0, size := 0 })
      1 { ptr := 6, size := 2 })
      2 { ptr := 6, size := 2 })
      3 { ptr := 0, size := 3 })
      6 { ptr := 1, size := 6 })
      11 { ptr := 1, size := 6 })
    freep := 1, heapUnits := 9, capacity := 100, errno := 0, data := fun b => b % 256 }

/-- The state after `mm_malloc 5 32 dC8` (the new block splits the free
block). -/
def dC8s1 : DLL.St := ((DLL.mm_malloc 5 32 dC8).getD (0, dC8)).2

/-- Abstract block list of `dC8s1`. -/
def dbs8 : List KR2.Blk :=
  [{ size := 3, isFree := false }, { size := 2, isFree := true }, { size := 4, isFree := false }]

theorem kC8s1_RepMem : KR2.RepMem kC8s1 kbs8 := by
  refine ⟨by decide, by decide, by decide, ?_⟩
  decide

theorem dC8s1_DRep : DLL.DRep dC8s1 dbs8 := by
  refine ⟨by decide, by decide, by decide, by decide, by decide, ?_, ?_, ?_, ?_⟩
  · intro a ha
    rcases ha with rfl | ⟨j, hj, hf, ha⟩
    · exact Or.inr ⟨1, by decide, by decide, by decide⟩
    · rw [show dbs8.length = 3 from rfl] at hj
      interval_cases j
      · exact absurd hf (by decide)
      · subst ha
        exact Or.inl (by decide)
      · exact absurd hf (by decide)
  · intro a ha
    rcases ha with rfl | ⟨j, hj, hf, ha⟩
    · exact Or.inr ⟨1, by decide, by decide, by decide⟩
    · rw [show dbs8.length = 3 from rfl] at hj
      interval_cases j
      · exact absurd hf (by decide)
      · subst ha
        exact Or.inl (by decide)
      · exact absurd hf (by decide)
  · intro a b ha hb
    rcases ha with rfl | ⟨j, hj, hf, ha⟩ <;> rcases hb with rfl | ⟨k, hk, hg, hb⟩
    · decide
    · rw [show dbs8.length = 3 from rfl] at hk
      interval_cases k
      · exact absurd hg (by decide)
      · subst hb
        decide
      · exact absurd hg (by decide)
    · rw [show dbs8.length = 3 from rfl] at hj
      interval_cases j
      · exact absurd hf (by decide)
      · subst ha
        decide
      · exact absurd hf (by decide)
    · rw [show dbs8.length = 3 from rfl] at hj hk
      interval_cases j
      · exact absurd hf (by decide)
      · interval_cases k
        · exact absurd hg (by decide)
        · subst ha
          subst hb
          decide
        · exact absurd hg (by decide)
      · exact absurd hf (by decide)
  · exact Or.inl (by decide)

/-- Witness for claim C8: on `kC8` a realloc of the allocated block to 64
bytes (kr2) and on `dC8` a realloc of the allocated block to 32 bytes
(dll) both take the allocate-copy-free path, return the fresh pointer
with the old payload copied, and free the old block. -/
theorem C8_realloc_copy_frees_old_witness :
    (∃ s3, KR2.mm_realloc 10 (KR2.addr kbs8 0 + 1) 64 kC8 = some (6, s3) ∧
      (∀ b, b < min (KR2.mm_bytes ((KR2.blkAt kbs8 0).size - 1)) 64 →
        s3.data (KR2.hdrSize * 6 + b) =
          kC8.data (KR2.hdrSize * (KR2.addr kbs8 0 + 1) + b)) ∧
      KR2.Rep s3 (KR2.mergeAt kbs8 0)) ∧
    (∃ s3, DLL.mm_realloc 5 (DLL.daddr dbs8 0 + 1) 32 dC8 = some (9, s3) ∧
      (∀ b, b < min (DLL.mm_bytes ((KR2.blkAt dbs8 0).size - 2)) 32 →
        s3.data (DLL.hdrSize * 9 + b) =
          dC8.data (DLL.hdrSize * (DLL.daddr dbs8 0 + 1) + b)) ∧
      DLL.DRep s3 (KR2.mergeAt dbs8 0)) :=
  ⟨C8_realloc_copy_frees_old.1 10 64 kC8 kC8s1 kbs8 0 6 kC8s1_RepMem (by decide)
      (by decide) (by decide) rfl (by decide),
    C8_realloc_copy_frees_old.2 5 32 dC8 dC8s1 dbs8 0 9 dC8s1_DRep (by decide)
      (by decide) (by decide) (by decide) rfl (by decide)⟩

/-- Abstract block list of `kAfter16` (and of that state with `errno`
set): one free block, then the live block. -/
def kbs6 : List KR2.Blk :=
  [{ size := 126, isFree := true }, { size := 2, isFree := false }]

/-- Abstract block list of `dAfter16` (and of that state with `errno`
set): one free block, then the live block. -/
def dbs6 : List KR2.Blk :=
  [{ size := 253, isFree := true }, { size := 3, isFree := false }]

/-- A dll state with one live 3-unit block, an empty free list and
exactly one page (256 units) of remaining backing store, used to show a
post-growth allocation failure inside `mm_realloc`. -/
def dC6g : DLL.St :=
  { mem := (upd (upd (upd (fun _ => { ptr := 0, size := 0 })
      1 { ptr := 1, size := 2 })
      2 { ptr := 1, size := 2 })
      3 { ptr := 0, size := 3 })
    freep := 1, heapUnits := 3, capacity := 256, errno := 0, data := fun b => b % 256 }

/-- Claim C6, counterexample.  The claim covers every failure of the
internal `mm_malloc`, but in the dll variant that malloc can fail after a
successful intermediate arena extension, which is not rolled back:
reallocating the live block of `dC6g` to 4048 bytes (255 units) grows the
arena by a fresh 256-unit page — neither an exact fit nor splittable (a
split would need 257) — the second extension attempt fails, and
`mm_realloc` returns `NULL` with the arena grown from 3 to 259 units: the
allocator state after the failed call is not the state before it with
only `errno` changed. -/
theorem C6_post_growth_failure_counterexample :
    (DLL.mm_realloc 8 4 4048 dC6g).map (fun r => (r.1, r.2.heapUnits, r.2.errno))
      = some (0, 259, DLL.ENOMEM) ∧ dC6g.heapUnits = 3 ∧ dC6g.errno = 0 :=
  ⟨rfl, rfl, rfl⟩

/-- Claim C6, amended.  For every failure of the internal `mm_malloc`
inside `mm_realloc`'s grow path (old capacity below the request, in a
state whose post-attempt heap satisfies the representation invariant
with the old block allocated), `mm_realloc` surfaces the failure value
`NULL` and performs no copy and no free: the final state is exactly the
state the failed allocation attempt left, its payload bytes are those of
the input state, and in it the old block is still present, allocated,
and correctly sized and linked (kr2) resp. correctly sized with null
free-structure pointers (dll) — still valid and owned by the caller.
The final state, however, need not be the input state with only `errno`
changed: a successful intermediate dll extension persists (see the
counterexample), so the stronger reading of the claim fails. -/
theorem C6_realloc_failure_keeps_old_block_amended :
    (∀ (fuel newsize : Nat) (s s1 : KR2.St) (bs1 : List KR2.Blk) (i : Nat),
      KR2.RepMem s1 bs1 → i < bs1.length → (KR2.blkAt bs1 i).isFree = false →
      ¬(0 < newsize ∧ KR2.mm_units newsize ≤ (s.mem (KR2.addr bs1 i)).size) →
      KR2.mm_malloc fuel newsize s = some (0, s1) →
      KR2.mm_realloc fuel (KR2.addr bs1 i + 1) newsize s = some (0, s1) ∧
        s1.data = s.data ∧
        s1.mem (KR2.addr bs1 i) =
          { prev := KR2.prevPtr bs1 i, next := KR2.nextPtr bs1 i, isFree := false,
            size := (KR2.blkAt bs1 i).size }) ∧
    (∀ (fuel newsize : Nat) (s s1 : DLL.St) (bs1 : List KR2.Blk) (i : Nat),
      DLL.DRep s1 bs1 → i < bs1.length → (KR2.blkAt bs1 i).isFree = false →
      ¬(0 < newsize ∧ DLL.mm_units newsize ≤ (s.mem (DLL.daddr bs1 i)).size) →
      DLL.mm_malloc fuel newsize s = some (0, s1) →
      DLL.mm_realloc fuel (DLL.daddr bs1 i + 1) newsize s = some (0, s1) ∧
        s1.data = s.data ∧
        (s1.mem (DLL.daddr bs1 i)).size = (KR2.blkAt bs1 i).size ∧
        (s1.mem (DLL.daddr bs1 i)).ptr = 0 ∧ (s1.mem (DLL.tailC bs1 i)).ptr = 0) := by
  constructor
  · intro fuel newsize s s1 bs1 i hR1 hi hAl hcap hmal
    refine ⟨?_, KR2.mm_malloc_data fuel newsize s 0 s1 hmal, ?_⟩
    · unfold KR2.mm_realloc
      rw [if_neg (show ¬(KR2.addr bs1 i + 1 = 0) from by omega)]
      dsimp only
      rw [show KR2.mm_block (KR2.addr bs1 i + 1) = KR2.addr bs1 i from rfl,
        if_neg hcap, hmal]
      dsimp only
      rw [if_pos rfl]
    · rw [hR1.2.2.2 i hi, hAl]
  · intro fuel newsize s s1 bs1 i hR1 hi hAl hcap hmal
    obtain ⟨hp0, ht0⟩ := hR1.2.2.2.2.1 i hi hAl
    refine ⟨?_, DLL.dll_mm_malloc_data fuel newsize s 0 s1 hmal,
      hR1.2.2.2.1 i hi, hp0, ht0⟩
    unfold DLL.mm_realloc
    rw [if_neg (show ¬(DLL.daddr bs1 i + 1 = 0) from by omega)]
    dsimp only
    rw [show DLL.mm_block (DLL.daddr bs1 i + 1) = DLL.daddr bs1 i from rfl,
      if_neg hcap, hmal]
    dsimp only
    rw [if_pos rfl]

theorem kAfter16e_RepMem : KR2.RepMem { kAfter16 with errno := KR2.ENOMEM } kbs6 := by
  refine ⟨by decide, by decide, by decide, ?_⟩
  decide

theorem dAfter16e_DRep : DLL.DRep { dAfter16 with errno := DLL.ENOMEM } dbs6 := by
  refine ⟨by decide, by decide, by decide, by decide, by decide, ?_, ?_, ?_, ?_⟩
  · intro a ha
    rcases ha with rfl | ⟨j, hj, hf, ha⟩
    · exact Or.inr ⟨0, by decide, by decide, by decide⟩
    · rw [show dbs6.length = 2 from rfl] at hj
      interval_cases j
      · subst ha
        exact Or.inl (by decide)
      · exact absurd hf (by decide)
  · intro a ha
    rcases ha with rfl | ⟨j, hj, hf, ha⟩
    · exact Or.inr ⟨0, by decide, by decide, by decide⟩
    · rw [show dbs6.length = 2 from rfl] at hj
      interval_cases j
      · subst ha
        exact Or.inl (by decide)
      · exact absurd hf (by decide)
  · intro a b ha hb
    rcases ha with rfl | ⟨j, hj, hf, ha⟩ <;> rcases hb with rfl | ⟨k, hk, hg, hb⟩
    · decide
    · rw [show dbs6.length = 2 from rfl] at hk
      interval_cases k
      · subst hb
        decide
      · exact absurd hg (by decide)
    · rw [show dbs6.length = 2 from rfl] at hj
      interval_cases j
      · subst ha
        decide
      · exact absurd hf (by decide)
    · rw [show dbs6.length = 2 from rfl] at hj hk
      interval_cases j
      · interval_cases k
        · subst ha
          subst hb
          decide
        · exact absurd hg (by decide)
      · exact absurd hf (by decide)
  · exact Or.inl (by decide)

/-- Claim C6, amended, witness: growing the live allocation of either
exhausted heap to 8000 bytes fails internally; `mm_realloc` returns
`NULL` with the old block's header intact and still allocated. -/
theorem C6_realloc_failure_keeps_old_block_amended_witness :
    (KR2.mm_realloc 10 (KR2.addr kbs6 1 + 1) 8000 kAfter16
        = some (0, { kAfter16 with errno := KR2.ENOMEM }) ∧
      ({ kAfter16 with errno := KR2.ENOMEM } : KR2.St).data = kAfter16.data ∧
      ({ kAfter16 with errno := KR2.ENOMEM } : KR2.St).mem (KR2.addr kbs6 1) =
        { prev := KR2.prevPtr kbs6 1, next := KR2.nextPtr kbs6 1, isFree := false,
          size := (KR2.blkAt kbs6 1).size }) ∧
    (DLL.mm_realloc 10 (DLL.daddr dbs6 1 + 1) 8000 dAfter16
        = some (0, { dAfter16 with errno := DLL.ENOMEM }) ∧
      ({ dAfter16 with errno := DLL.ENOMEM } : DLL.St).data = dAfter16.data ∧
      (({ dAfter16 with errno := DLL.ENOMEM } : DLL.St).mem (DLL.daddr dbs6 1)).size
        = (KR2.blkAt dbs6 1).size ∧
      (({ dAfter16 with errno := DLL.ENOMEM } : DLL.St).mem (DLL.daddr dbs6 1)).ptr = 0 ∧
      (({ dAfter16 with errno := DLL.ENOMEM } : DLL.St).mem (DLL.tailC dbs6 1)).ptr = 0) :=
  ⟨C6_realloc_failure_keeps_old_block_amended.1 10 8000 kAfter16
      { kAfter16 with errno := KR2.ENOMEM } kbs6 1 kAfter16e_RepMem
      (by decide) (by decide) (by decide) rfl,
    C6_realloc_failure_keeps_old_block_amended.2 10 8000 dAfter16
      { dAfter16 with errno := DLL.ENOMEM } dbs6 1 dAfter16e_DRep
      (by decide) (by decide) (by decide) rfl⟩
